import Mathlib

/-! lunasvg rendering backend: canvas, paint derivation and bitmap conversion.

A shallow embedding of `source/canvas.cpp`, `source/canvas.h` and
`source/lunasvg.cpp`.

Conventions of the embedding:

* A finite `double` or `float` is the rational it denotes (`ℚ`); infinities and
  NaN are not modelled.
* In `Canvas::create` and the `Canvas` constructor the machine arithmetic is
  modelled with its roundings: the `double` sums `x + width` and `y + height`
  are rounded to the nearest binary64 value, ties to even (`roundDouble`);
  `int` is the 32-bit two's-complement integer (`toInt32`); the casts
  `(float)x` of an `int` round to the nearest binary32 value, ties to even
  (`floatOfInt`).
* Everywhere else (paint parameters, matrices, document sizes) floating-point
  arithmetic is taken exact and the casts between the two floating types are
  the identity; the `int` values there are pixel coordinates and byte values,
  kept as mathematical integers (`Int`).
* `std::uint8_t` is `Fin 256`; a store of a wider value keeps it modulo 256.
* `std::shared_ptr<Canvas>` is an index into an arena of canvases (`Heap`).
* The deferred backend command list is the list of the calls recorded on it.
-/

namespace lunasvg

/-! ## Backend (vg) interface -/

/-- The handle of a backend command list (`vg::CommandListHandle`). -/
structure CommandListHandle where
  idx : Nat
  deriving DecidableEq, Repr

/-- A backend colour (`vg::Color`), kept as its four components. -/
structure VgColor where
  r : ℚ
  g : ℚ
  b : ℚ
  a : ℚ
  deriving DecidableEq

/-- Modelled from the spec: `vg::color4f` of the external backend, which is not
under `source/`; the spec stores colours as straight RGBA components. -/
def vg.color4f (r g b a : ℚ) : VgColor := ⟨r, g, b, a⟩

/-- The backend constant `vg::Colors::White` (opaque white). -/
def vg.Colors.White : VgColor := ⟨1, 1, 1, 1⟩

/-- A 2 x 3 affine matrix as the backend takes it: a `float[6]` array. -/
structure Float6 where
  e0 : ℚ
  e1 : ℚ
  e2 : ℚ
  e3 : ℚ
  e4 : ℚ
  e5 : ℚ
  deriving DecidableEq

/-- The enum `WindRule` of the property header; its values coincide with the
backend's `vg::FillRule` (the `static_assert`s in `Canvas::fill`). -/
inductive WindRule where
  | NonZero
  | EvenOdd
  deriving DecidableEq

/-- The enum `LineCap` of the property header; its values coincide with the
backend's `vg::LineCap` (the `static_assert`s in `Canvas::stroke`). -/
inductive LineCap where
  | Butt
  | Round
  | Square
  deriving DecidableEq

/-- The enum `LineJoin` of the property header; its values coincide with the
backend's `vg::LineJoin` (the `static_assert`s in `Canvas::stroke`). -/
inductive LineJoin where
  | Miter
  | Round
  | Bevel
  deriving DecidableEq

/-- The backend enum `vg::PathType`. -/
inductive PathType where
  | Convex
  | Concave
  deriving DecidableEq

/-- The backend enum `vg::TransformOrder`. -/
inductive TransformOrder where
  | Pre
  | Post
  deriving DecidableEq

/-- The value of the backend macro `VG_FILL_FLAGS(type, rule, aa)`, which is
not under `source/`: kept as the triple of the macro's arguments. -/
structure FillFlags where
  pathType : PathType
  fillRule : WindRule
  aa : Bool
  deriving DecidableEq

/-- The value of the backend macro `VG_STROKE_FLAGS(cap, join, aa)`, which is
not under `source/`: kept as the triple of the macro's arguments. -/
structure StrokeFlags where
  cap : LineCap
  join : LineJoin
  aa : Bool
  deriving DecidableEq

/-- The handle of a gradient that the backend returns from
`vg::clCreateLinearGradient` and `vg::clCreateRadialGradient`. -/
structure GradientHandle where
  idx : Nat
  deriving DecidableEq

/-- The backend calls recorded on a command list. -/
inductive Command where
  | setScissor (x y width height : Int)
  | pushState
  | popState
  | transformMult (mtx : Float6) (order : TransformOrder)
  | beginPath
  | moveTo (x y : ℚ)
  | lineTo (x y : ℚ)
  | cubicTo (c1x c1y c2x c2y x y : ℚ)
  | closePath
  | createLinearGradient (sx sy ex ey : ℚ) (colors : List VgColor) (stops : List ℚ)
      (numStops : Nat)
  | createRadialGradient (cx cy inrad outrad : ℚ) (colors : List VgColor) (stops : List ℚ)
      (numStops : Nat)
  | fillPathColor (color : VgColor) (flags : FillFlags)
  | fillPathGradient (gradient : GradientHandle) (flags : FillFlags)
  | strokePathColor (color : VgColor) (width : ℚ) (flags : StrokeFlags)
  | strokePathGradient (gradient : GradientHandle) (width : ℚ) (flags : StrokeFlags)
  | mulColor (color : VgColor)
  | submitCommandList (handle : CommandListHandle)
  deriving DecidableEq

/-- A reference to a backend command list (`vg::CommandListRef`): its handle
together with the calls recorded on it so far. -/
structure CommandListRef where
  m_Handle : CommandListHandle
  commands : List Command
  deriving DecidableEq

/-- The backend call `vg::clSetScissor(cl, x, y, w, h)`: records a scissor. -/
def vg.clSetScissor (cl : CommandListRef) (x y width height : Int) : CommandListRef :=
  { cl with commands := cl.commands ++ [Command.setScissor x y width height] }

/-- Records one backend call at the end of a command list: what every `vg::cl...`
function does to the list it is given. -/
def CommandListRef.record (cl : CommandListRef) (cmd : Command) : CommandListRef :=
  { cl with commands := cl.commands ++ [cmd] }

/-- The backend call `vg::clPushState(cl)`. -/
def vg.clPushState (cl : CommandListRef) : CommandListRef := cl.record Command.pushState

/-- The backend call `vg::clPopState(cl)`. -/
def vg.clPopState (cl : CommandListRef) : CommandListRef := cl.record Command.popState

/-- The backend call `vg::clTransformMult(cl, mtx, order)`. -/
def vg.clTransformMult (cl : CommandListRef) (mtx : Float6) (order : TransformOrder) :
    CommandListRef :=
  cl.record (Command.transformMult mtx order)

/-- The backend call `vg::clBeginPath(cl)`. -/
def vg.clBeginPath (cl : CommandListRef) : CommandListRef := cl.record Command.beginPath

/-- The backend call `vg::clMoveTo(cl, x, y)`. -/
def vg.clMoveTo (cl : CommandListRef) (x y : ℚ) : CommandListRef :=
  cl.record (Command.moveTo x y)

/-- The backend call `vg::clLineTo(cl, x, y)`. -/
def vg.clLineTo (cl : CommandListRef) (x y : ℚ) : CommandListRef :=
  cl.record (Command.lineTo x y)

/-- The backend call `vg::clCubicTo(cl, c1x, c1y, c2x, c2y, x, y)`. -/
def vg.clCubicTo (cl : CommandListRef) (c1x c1y c2x c2y x y : ℚ) : CommandListRef :=
  cl.record (Command.cubicTo c1x c1y c2x c2y x y)

/-- The backend call `vg::clClosePath(cl)`. -/
def vg.clClosePath (cl : CommandListRef) : CommandListRef := cl.record Command.closePath

/-- The backend call `vg::clCreateLinearGradient(cl, sx, sy, ex, ey, colors,
stops, numStops)`; the handle it returns is an input of the caller's model. -/
def vg.clCreateLinearGradient (cl : CommandListRef) (sx sy ex ey : ℚ) (colors : List VgColor)
    (stops : List ℚ) (numStops : Nat) : CommandListRef :=
  cl.record (Command.createLinearGradient sx sy ex ey colors stops numStops)

/-- The backend call `vg::clCreateRadialGradient(cl, cx, cy, inrad, outrad,
colors, stops, numStops)`; the handle it returns is an input of the caller's
model. -/
def vg.clCreateRadialGradient (cl : CommandListRef) (cx cy inrad outrad : ℚ)
    (colors : List VgColor) (stops : List ℚ) (numStops : Nat) : CommandListRef :=
  cl.record (Command.createRadialGradient cx cy inrad outrad colors stops numStops)

/-- The backend call `vg::clFillPath(cl, color, flags)`. -/
def vg.clFillPath (cl : CommandListRef) (color : VgColor) (flags : FillFlags) : CommandListRef :=
  cl.record (Command.fillPathColor color flags)

/-- The backend call `vg::clFillPath(cl, gradientHandle, flags)`. -/
def vg.clFillPathGradient (cl : CommandListRef) (gradient : GradientHandle)
    (flags : FillFlags) : CommandListRef :=
  cl.record (Command.fillPathGradient gradient flags)

/-- The backend call `vg::clStrokePath(cl, color, width, flags)`. -/
def vg.clStrokePath (cl : CommandListRef) (color : VgColor) (width : ℚ)
    (flags : StrokeFlags) : CommandListRef :=
  cl.record (Command.strokePathColor color width flags)

/-- The backend call `vg::clStrokePath(cl, gradientHandle, width, flags)`. -/
def vg.clStrokePathGradient (cl : CommandListRef) (gradient : GradientHandle) (width : ℚ)
    (flags : StrokeFlags) : CommandListRef :=
  cl.record (Command.strokePathGradient gradient width flags)

/-- The backend call `vg::clMulColor(cl, color)`. -/
def vg.clMulColor (cl : CommandListRef) (color : VgColor) : CommandListRef :=
  cl.record (Command.mulColor color)

/-- The backend call `vg::clSubmitCommandList(cl, handle)`. -/
def vg.clSubmitCommandList (cl : CommandListRef) (handle : CommandListHandle) :
    CommandListRef :=
  cl.record (Command.submitCommandList handle)

/-- The macro call `VG_FILL_FLAGS(type, rule, aa)`. -/
def VG_FILL_FLAGS (pathType : PathType) (fillRule : WindRule) (aa : Bool) : FillFlags :=
  ⟨pathType, fillRule, aa⟩

/-- The macro call `VG_STROKE_FLAGS(cap, join, aa)`. -/
def VG_STROKE_FLAGS (cap : LineCap) (join : LineJoin) (aa : Bool) : StrokeFlags :=
  ⟨cap, join, aa⟩

/-! ## Property types used by the canvas -/

/-- An RGBA colour (`lunasvg::Color`). -/
structure Color where
  r : ℚ
  g : ℚ
  b : ℚ
  a : ℚ
  deriving DecidableEq

/-- A rectangle (`lunasvg::Rect`). -/
structure Rect where
  x : ℚ
  y : ℚ
  w : ℚ
  h : ℚ
  deriving DecidableEq

/-- An affine transform (`lunasvg::Transform`), by its six coefficients. -/
structure Transform where
  m00 : ℚ
  m10 : ℚ
  m01 : ℚ
  m11 : ℚ
  m02 : ℚ
  m12 : ℚ
  deriving DecidableEq

/-- Gradient spread methods (`lunasvg::SpreadMethod`). -/
inductive SpreadMethod where
  | Pad
  | Reflect
  | Repeat
  deriving DecidableEq

/-- The enum `TextureType` of canvas.h. -/
inductive TextureType where
  | Plain
  | Tiled
  deriving DecidableEq

/-- One gradient stop: `std::pair<double, Color>`. -/
abbrev GradientStop := ℚ × Color

/-- The stop list `std::vector<GradientStop>`. -/
abbrev GradientStops := List GradientStop

/-! ## Canvas -/

/-- The private enum `Canvas::PaintType`. -/
inductive PaintType where
  | COLOR
  | LINEAR_GRADIENT
  | RADIAL_GRADIENT
  deriving DecidableEq

/-- A `std::shared_ptr<Canvas>` that is not null: an index into the `Heap`. -/
abbrev CanvasRef := Nat

/-- The identity (address) of a path object, as kept in `latestPath`. -/
abbrev PathId := Nat

/-- The fields of `class Canvas` (canvas.h). `gradientParams` is `float[4]`;
the constructor leaves it unset, which is modelled as zeros. -/
structure Canvas where
  paintType : PaintType
  color : VgColor
  gradientParams : ℚ × ℚ × ℚ × ℚ
  gradientColors : List VgColor
  gradientStops : List ℚ
  latestPath : Option PathId
  cl : CommandListRef
  child_ : List CommandListHandle
  parent : Option CanvasRef
  rect : Rect
  deriving DecidableEq

/-! ### Machine arithmetic of `Canvas::create` and the constructor -/

/-- The value a mathematical integer has as a 32-bit two's-complement `int`:
the identity on `[-2^31, 2^31)`, wrap-around modulo `2^32` outside. It is what
the `int` subtractions `r - l` and `b - t` leave when they overflow. An
overflowing signed subtraction and `static_cast<int>` of a `double` outside the
range of `int` are undefined in C++; the embedding gives both the wrapped
value. -/
def toInt32 (v : Int) : Int := (v + 2147483648) % 4294967296 - 2147483648

/-- Rounding of a rational to the nearest integer, ties to the even one. -/
def roundHalfEven (q : ℚ) : Int :=
  let f : Int := ⌊q⌋
  if q - f < 1 / 2 then f
  else if 1 / 2 < q - f then f + 1
  else if f % 2 = 0 then f else f + 1

/-- The exponent of the unit in the last place of the binary64 values around
`q`: the significand has 53 bits, and below `2^(-1022)` (subnormal values) the
spacing stays `2^(-1074)`. -/
def ulpExponent (q : ℚ) : Int := max (Int.log 2 |q|) (-1022) - 52

/-- The binary64 (`double`) value nearest to `q`, ties to even: the rounding
that every `double` operation applies to its exact result in the default
rounding mode. Overflow to infinity (a result of magnitude `2^1024` or more)
is not modelled. -/
def roundDouble (q : ℚ) : ℚ :=
  if q = 0 then 0
  else (roundHalfEven (q / (2 : ℚ) ^ ulpExponent q) : ℚ) * (2 : ℚ) ^ ulpExponent q

/-- The cast `(float)n` of an `int`: the binary32 value nearest to `n`, ties to
even. A binary32 significand has 24 bits, so every `n` with `|n| ≤ 2^24` is
kept, and a larger one is rounded to a multiple of `2^e`, where `e` is the
number of bits it has beyond 24. The result is an integer and is returned as
one. -/
def floatOfInt (n : Int) : Int :=
  let m := n.natAbs
  if m ≤ 16777216 then n
  else
    let e := Nat.log2 m - 23
    let q := m / 2 ^ e
    let rem := m % 2 ^ e
    let half := 2 ^ (e - 1)
    let q2 := if rem < half then q else if half < rem then q + 1
      else if q % 2 = 0 then q else q + 1
    n.sign * ((q2 * 2 ^ e : Nat) : Int)

/-- The private constructor `Canvas::Canvas(cl, x, y, width, height)`. The four
`int` arguments go to `vg::clSetScissor` as they are and to `rect` through the
casts `(float)x`, `(float)y`, `(float)width`, `(float)height`. -/
def Canvas.new (cl : CommandListRef) (x y width height : Int) : Canvas :=
  { cl := vg.clSetScissor cl x y width height
    paintType := PaintType.COLOR
    color := vg.Colors.White
    rect := ⟨(floatOfInt x : ℚ), (floatOfInt y : ℚ), (floatOfInt width : ℚ),
              (floatOfInt height : ℚ)⟩
    latestPath := none
    gradientParams := (0, 0, 0, 0)
    gradientColors := []
    gradientStops := []
    child_ := []
    parent := none }

/-- The factory `Canvas::create(cl, x, y, width, height)`. The arguments are
the values of the four `double`s. `floor` and `ceil` of a `double` are exact;
the sums `x + width` and `y + height` are `double` additions and round; each
`static_cast<int>` and the subtractions `r - l`, `b - t` are 32-bit. -/
def Canvas.create (cl : CommandListRef) (x y width height : ℚ) : Canvas :=
  if width ≤ 0 ∨ height ≤ 0 then
    Canvas.new cl 0 0 1 1
  else
    let l : Int := toInt32 ⌊x⌋
    let t : Int := toInt32 ⌊y⌋
    let r : Int := toInt32 ⌈roundDouble (x + width)⌉
    let b : Int := toInt32 ⌈roundDouble (y + height)⌉
    Canvas.new cl l t (toInt32 (r - l)) (toInt32 (b - t))

/-- The accessor `Canvas::box()`. -/
def Canvas.box (c : Canvas) : Rect := c.rect

/-- The accessor `Canvas::child()`. -/
def Canvas.child (c : Canvas) : List CommandListHandle := c.child_

/-- The arena in which canvases live; a `std::shared_ptr<Canvas>` is either
null (`none`) or the index of a canvas in the arena. -/
abbrev Heap := List Canvas

/-- The loop `while (orig_parent->parent != nullptr) orig_parent = orig_parent->parent;`
of `Canvas::create(parent, ...)`, started at `orig_parent`. Every iteration
uses one unit of fuel; the result is `none` when a pointer dangles or the fuel
is used up before a canvas without parent is reached. -/
def Canvas.topAncestor (heap : Heap) : Nat → CanvasRef → Option CanvasRef
  | 0, _ => none
  | fuel + 1, orig_parent =>
    match heap[orig_parent]? with
    | none => none
    | some c =>
      match c.parent with
      | none => some orig_parent
      | some p => Canvas.topAncestor heap fuel p

/-- The statement `orig_parent->child_.emplace_back(handle)`. -/
def Heap.emplaceChild (heap : Heap) (orig_parent : CanvasRef) (handle : CommandListHandle) :
    Heap :=
  match heap[orig_parent]? with
  | none => heap
  | some c => heap.set orig_parent { c with child_ := c.child_ ++ [handle] }

/-- The factory `Canvas::create(parent, x, y, width, height)`. `handle` is what
`vg::createCommandList` returned and `isValid` is the backend predicate
`vg::isValid`. The new canvas is allocated at the end of the arena; the result
is the new arena and the new canvas. It is `none` when `parent` is null or
dangling (the first statement dereferences it) or when the walk to the top-most
ancestor does not end. -/
def Canvas.createChild (isValid : CommandListHandle → Bool) (heap : Heap)
    (parent : Option CanvasRef) (handle : CommandListHandle) (x y width height : ℚ) :
    Option (Heap × CanvasRef) :=
  match parent with
  | none => none
  | some par =>
    match heap[par]? with
    | none => none
    | some _ =>
      let res : Canvas := { Canvas.create ⟨handle, []⟩ x y width height with parent := some par }
      if isValid handle && parent.isSome then
        match Canvas.topAncestor heap heap.length par with
        | none => none
        | some orig_parent => some (heap.emplaceChild orig_parent handle ++ [res], heap.length)
      else
        some (heap ++ [res], heap.length)

/-- The arguments of one call `Canvas::create(parent, x, y, width, height)`
together with the handle the backend hands out during the call. -/
structure CreateCall where
  parent : CanvasRef
  handle : CommandListHandle
  x : ℚ
  y : ℚ
  width : ℚ
  height : ℚ

/-- Runs a sequence of `Canvas::create(parent, ...)` calls on an arena. -/
def runCreates (isValid : CommandListHandle → Bool) : Heap → List CreateCall → Option Heap
  | heap, [] => some heap
  | heap, c :: cs =>
    match Canvas.createChild isValid heap (some c.parent) c.handle c.x c.y c.width c.height with
    | none => none
    | some (heap1, _) => runCreates isValid heap1 cs

/-- The calls of a sequence are well formed when every call names as parent a
canvas that exists when the call is made (`n` canvases exist before the first
call) and obtains a valid handle. -/
def createsOk (isValid : CommandListHandle → Bool) : Nat → List CreateCall → Bool
  | _, [] => true
  | n, c :: cs => decide (c.parent < n) && isValid c.handle && createsOk isValid (n + 1) cs

/-- The shape of an arena grown from one root: canvas 0 has no parent, every
other canvas has an earlier canvas as parent and an empty descendant list. -/
def Heap.Rooted (heap : Heap) : Prop :=
  (∃ r, heap[0]? = some r ∧ r.parent = none) ∧
  ∀ i c, 0 < i → heap[i]? = some c → c.child_ = [] ∧ ∃ p, p < i ∧ c.parent = some p

/-! ## Paint parameter derivation -/

/-- Modelled from the spec: `vgutil::multiplyMatrix3(a, b, res)` of the backend
utility header `vg_util.h`, which is not under `source/`. The spec composes
`res = a · b`, the map that applies `b` and then `a`, for matrices whose
coefficients `(e0 .. e5)` define `x2 = e0·x + e2·y + e4`, `y2 = e1·x + e3·y + e5`. -/
def vgutil.multiplyMatrix3 (a b : Float6) : Float6 :=
  { e0 := a.e0 * b.e0 + a.e2 * b.e1
    e1 := a.e1 * b.e0 + a.e3 * b.e1
    e2 := a.e0 * b.e2 + a.e2 * b.e3
    e3 := a.e1 * b.e2 + a.e3 * b.e3
    e4 := a.e0 * b.e4 + a.e2 * b.e5 + a.e4
    e5 := a.e1 * b.e4 + a.e3 * b.e5 + a.e5 }

/-- Modelled from the spec: `vgutil::transformPos2D(x, y, mtx, res)` of the
backend utility header `vg_util.h`, which is not under `source/`. The spec maps
a point through the matrix: `x2 = e0·x + e2·y + e4`, `y2 = e1·x + e3·y + e5`. -/
def vgutil.transformPos2D (x y : ℚ) (mtx : Float6) : ℚ × ℚ :=
  (mtx.e0 * x + mtx.e2 * y + mtx.e4, mtx.e1 * x + mtx.e3 * y + mtx.e5)

/-- Modelled from the spec: the image of the point `(x, y)` under a transform,
`Transform::map` of `property.cpp`, which is not under `source/`. The spec
gives `x2 = a·x + c·y + e`, `y2 = b·x + d·y + f`, and `Matrix::Matrix(const
Transform&)` names the coefficients `a = m00, b = m10, c = m01, d = m11,
e = m02, f = m12`. -/
def Transform.map (t : Transform) (x y : ℚ) : ℚ × ℚ :=
  (t.m00 * x + t.m01 * y + t.m02, t.m10 * x + t.m11 * y + t.m12)

/-- The identity transform `(1, 0, 0, 1, 0, 0)`. -/
def Transform.identity : Transform := ⟨1, 0, 0, 1, 0, 0⟩

/-- The array `transform_` that the canvas methods build from a `Transform`. -/
def Transform.toFloat6 (transform : Transform) : Float6 :=
  ⟨transform.m00, transform.m10, transform.m01, transform.m11, transform.m02, transform.m12⟩

/-- The loop over `stops` shared by both gradient setters: after the two
`clear()` calls every stop appends its offset to `gradientStops` and its colour
to `gradientColors`. The result is `(gradientStops, gradientColors)`. -/
def Canvas.collectStops (stops : GradientStops) : List ℚ × List VgColor :=
  stops.foldl
    (fun acc stop =>
      (acc.1 ++ [stop.1], acc.2 ++ [vg.color4f stop.2.r stop.2.g stop.2.b stop.2.a]))
    ([], [])

/-- The method `Canvas::setColor(color)`. -/
def Canvas.setColor (c : Canvas) (color : Color) : Canvas :=
  { c with
    paintType := PaintType.COLOR
    color := vg.color4f color.r color.g color.b color.a }

/-- The method `Canvas::setLinearGradient(x1, y1, x2, y2, stops, spread, transform)`. -/
def Canvas.setLinearGradient (c : Canvas) (x1 y1 x2 y2 : ℚ) (stops : GradientStops)
    (_spread : SpreadMethod) (transform : Transform) : Canvas :=
  let dx := x2 - x1
  let dy := y2 - y1
  let xform : Float6 := ⟨dy, -dx, dx, dy, x1, y1⟩
  let transform_ : Float6 := transform.toFloat6
  let res := vgutil.multiplyMatrix3 transform_ xform
  let s := vgutil.transformPos2D 0 0 res
  let e := vgutil.transformPos2D 0 1 res
  { c with
    paintType := PaintType.LINEAR_GRADIENT
    gradientParams := (s.1, s.2, e.1, e.2)
    gradientStops := (Canvas.collectStops stops).1
    gradientColors := (Canvas.collectStops stops).2 }

/-- The method `Canvas::setRadialGradient(cx, cy, r, fx, fy, stops, spread,
transform)`. The locals `icol` and `ocol` are computed and never used. -/
def Canvas.setRadialGradient (c : Canvas) (cx cy r _fx _fy : ℚ) (stops : GradientStops)
    (_spread : SpreadMethod) (transform : Transform) : Canvas :=
  let xform : Float6 := ⟨r, 0, 0, r, cx, cy⟩
  let transform_ : Float6 := transform.toFloat6
  let res := vgutil.multiplyMatrix3 transform_ xform
  let s := vgutil.transformPos2D 0 0 res
  let r_ := vgutil.transformPos2D 0 1 res
  { c with
    paintType := PaintType.RADIAL_GRADIENT
    gradientParams := (s.1, s.2, 0, max r_.1 r_.2 * 2)
    gradientStops := (Canvas.collectStops stops).1
    gradientColors := (Canvas.collectStops stops).2 }

/-- The method `Canvas::setTexture(source, type, transform)`, a stub that
ignores its arguments. -/
def Canvas.setTexture (c : Canvas) (_source : Option CanvasRef) (_type : TextureType)
    (_transform : Transform) : Canvas :=
  { c with
    paintType := PaintType.COLOR
    color := vg.Colors.White }

/-! ## Path submission, fill, stroke and blend -/

/-- A point (`lunasvg::Point`). -/
structure Point where
  x : ℚ
  y : ℚ
  deriving DecidableEq

/-- One step of the path iteration: the command that
`PathIterator::currentSegment` returns with the points it fills in. -/
inductive PathSegment where
  | MoveTo (p0 : Point)
  | LineTo (p0 : Point)
  | CubicTo (p0 p1 p2 : Point)
  | Close
  deriving DecidableEq

/-- Modelled from the spec: a `Path` object and its `PathIterator`, which are
not under `source/`. The spec gives a path an identity (its address, which the
canvas compares) and a restartable, finite iteration over its commands; the
iteration is the list `segments`. Two path objects are different when their
addresses differ. -/
structure Path where
  addr : PathId
  segments : List PathSegment
  deriving DecidableEq

/-- The enum `BlendMode` of canvas.h. -/
inductive BlendMode where
  | Src
  | Src_Over
  | Dst_In
  | Dst_Out
  deriving DecidableEq

/-- The struct `DashData` of canvas.h. -/
structure DashData where
  array : List ℚ
  offset : ℚ
  deriving DecidableEq

/-- The loop `while (!it.isDone()) { switch (it.currentSegment(p)) ...; it.next(); }`
of `pathToVG`: one backend call per segment. -/
def pathToVG.segments : CommandListRef → List PathSegment → CommandListRef
  | cl, [] => cl
  | cl, seg :: rest =>
    pathToVG.segments
      (match seg with
        | PathSegment.MoveTo p0 => vg.clMoveTo cl p0.x p0.y
        | PathSegment.LineTo p0 => vg.clLineTo cl p0.x p0.y
        | PathSegment.CubicTo p0 p1 p2 => vg.clCubicTo cl p0.x p0.y p1.x p1.y p2.x p2.y
        | PathSegment.Close => vg.clClosePath cl)
      rest

/-- The function `pathToVG(cl, path)`. -/
def pathToVG (cl : CommandListRef) (path : Path) : CommandListRef :=
  pathToVG.segments (vg.clBeginPath cl) path.segments

/-- The method `Canvas::fill(path, transform, winding, mode, opacity)`.
`gradient` is the handle the backend returns if the call creates a gradient. -/
def Canvas.fill (c : Canvas) (path : Path) (transform : Transform) (winding : WindRule)
    (_mode : BlendMode) (_opacity : ℚ) (gradient : GradientHandle) : Canvas :=
  let cl1 := vg.clPushState c.cl
  let transform_ : Float6 := transform.toFloat6
  let cl2 := vg.clTransformMult cl1 transform_ TransformOrder.Post
  let miss : Bool := c.latestPath != some path.addr
  let latestPath := if miss then some path.addr else c.latestPath
  let cl3 := if miss then pathToVG cl2 path else cl2
  let flags := VG_FILL_FLAGS PathType.Concave winding true
  let cl4 :=
    match c.paintType with
    | PaintType.COLOR => vg.clFillPath cl3 c.color flags
    | PaintType.LINEAR_GRADIENT =>
      vg.clFillPathGradient
        (vg.clCreateLinearGradient cl3 c.gradientParams.1 c.gradientParams.2.1
          c.gradientParams.2.2.1 c.gradientParams.2.2.2 c.gradientColors c.gradientStops
          (c.gradientStops.length % 65536))
        gradient flags
    | PaintType.RADIAL_GRADIENT =>
      vg.clFillPathGradient
        (vg.clCreateRadialGradient cl3 c.gradientParams.1 c.gradientParams.2.1
          c.gradientParams.2.2.1 c.gradientParams.2.2.2 c.gradientColors c.gradientStops
          (c.gradientStops.length % 65536))
        gradient flags
  { c with cl := vg.clPopState cl4, latestPath := latestPath }

/-- The method `Canvas::stroke(path, transform, width, cap, join, miterlimit,
dash, mode, opacity)`. `gradient` is the handle the backend returns if the call
creates a gradient. -/
def Canvas.stroke (c : Canvas) (path : Path) (transform : Transform) (width : ℚ)
    (cap : LineCap) (join : LineJoin) (_miterlimit : ℚ) (_dash : DashData)
    (_mode : BlendMode) (_opacity : ℚ) (gradient : GradientHandle) : Canvas :=
  let cl1 := vg.clPushState c.cl
  let transform_ : Float6 := transform.toFloat6
  let cl2 := vg.clTransformMult cl1 transform_ TransformOrder.Post
  let miss : Bool := c.latestPath != some path.addr
  let latestPath := if miss then some path.addr else c.latestPath
  let cl3 := if miss then pathToVG cl2 path else cl2
  let flags := VG_STROKE_FLAGS cap join true
  let cl4 :=
    match c.paintType with
    | PaintType.COLOR => vg.clStrokePath cl3 c.color width flags
    | PaintType.LINEAR_GRADIENT =>
      vg.clStrokePathGradient
        (vg.clCreateLinearGradient cl3 c.gradientParams.1 c.gradientParams.2.1
          c.gradientParams.2.2.1 c.gradientParams.2.2.2 c.gradientColors c.gradientStops
          (c.gradientStops.length % 65536))
        gradient width flags
    | PaintType.RADIAL_GRADIENT =>
      vg.clStrokePathGradient
        (vg.clCreateRadialGradient cl3 c.gradientParams.1 c.gradientParams.2.1
          c.gradientParams.2.2.1 c.gradientParams.2.2.2 c.gradientColors c.gradientStops
          (c.gradientStops.length % 65536))
        gradient width flags
  { c with cl := vg.clPopState cl4, latestPath := latestPath }

/-- The method `Canvas::blend(source, mode, opacity)`; `source` is the canvas
the pointer refers to. -/
def Canvas.blend (c : Canvas) (source : Canvas) (_mode : BlendMode) (opacity : ℚ) : Canvas :=
  let cl1 := vg.clPushState c.cl
  let cl2 := vg.clMulColor cl1 (vg.color4f 1 1 1 opacity)
  let cl3 := vg.clSubmitCommandList cl2 source.cl.m_Handle
  { c with cl := vg.clPopState cl3 }

/-- The backend calls that a canvas method recorded: what the command list
`after` holds beyond the commands of `before`. -/
def issued (before after : Canvas) : List Command :=
  after.cl.commands.drop before.cl.commands.length

/-- The geometry-building backend calls: begin-path, move, line, cubic, close. -/
def Command.isGeometry : Command → Bool
  | Command.beginPath => true
  | Command.moveTo _ _ => true
  | Command.lineTo _ _ => true
  | Command.cubicTo _ _ _ _ _ _ => true
  | Command.closePath => true
  | _ => false

/-- The path-drawing backend calls: fill-path and stroke-path. -/
def Command.isDraw : Command → Bool
  | Command.fillPathColor _ _ => true
  | Command.fillPathGradient _ _ => true
  | Command.strokePathColor _ _ _ => true
  | Command.strokePathGradient _ _ _ => true
  | _ => false

/-- The geometry of a path as backend calls: the call that one segment makes. -/
def PathSegment.toCommand : PathSegment → Command
  | PathSegment.MoveTo p0 => Command.moveTo p0.x p0.y
  | PathSegment.LineTo p0 => Command.lineTo p0.x p0.y
  | PathSegment.CubicTo p0 p1 p2 => Command.cubicTo p0.x p0.y p1.x p1.y p2.x p2.y
  | PathSegment.Close => Command.closePath

/-- The geometry of a path as backend calls: begin-path, then one call per
path command. -/
def Path.geometry (path : Path) : List Command :=
  Command.beginPath :: path.segments.map PathSegment.toCommand

/-- The backend calls that carry paint: the draw calls and the two
gradient-creating calls. -/
def Command.isPaint : Command → Bool
  | Command.createLinearGradient _ _ _ _ _ _ _ => true
  | Command.createRadialGradient _ _ _ _ _ _ _ => true
  | cmd => cmd.isDraw

/-- What a paint setter must leave alone: the command list, the clip
rectangle, the descendant list, the parent link and the cached path. -/
def Canvas.SameOutsidePaint (c c2 : Canvas) : Prop :=
  c2.cl = c.cl ∧ c2.rect = c.rect ∧ c2.child_ = c.child_ ∧ c2.parent = c.parent ∧
    c2.latestPath = c.latestPath

/-- The effect of one backend call on the depth of the backend's state stack:
push-state raises it by one, pop-state lowers it by one. -/
def Command.depthChange : Command → Int
  | Command.pushState => 1
  | Command.popState => -1
  | _ => 0

/-- The depth of the backend's state stack after the calls of a command list,
counted from the depth at the start of the list. -/
def stackDepth (cmds : List Command) : Int := (cmds.map Command.depthChange).sum

/-! ## Matrix -/

/-- The class `Matrix` of the public header: six coefficients. -/
structure Matrix where
  a : ℚ
  b : ℚ
  c : ℚ
  d : ℚ
  e : ℚ
  f : ℚ
  deriving DecidableEq

/-- The constructor `Matrix::Matrix(const Transform&)`. -/
def Matrix.ofTransform (transform : Transform) : Matrix :=
  ⟨transform.m00, transform.m10, transform.m01, transform.m11, transform.m02, transform.m12⟩

/-- Modelled from the spec: the conversion `Transform(const Matrix&)`, which is
not under `source/`; coefficient by coefficient the reverse of
`Matrix::Matrix(const Transform&)`. -/
def Transform.ofMatrix (m : Matrix) : Transform := ⟨m.a, m.b, m.c, m.d, m.e, m.f⟩

/-- Modelled from the spec: `Transform::operator*` of `property.cpp`, which is
not under `source/`. The spec defines the composition `A*B` as "apply B, then
A": `(A*B)(p) = A(B(p))`. -/
def Transform.mul (A B : Transform) : Transform :=
  { m00 := A.m00 * B.m00 + A.m01 * B.m10
    m10 := A.m10 * B.m00 + A.m11 * B.m10
    m01 := A.m00 * B.m01 + A.m01 * B.m11
    m11 := A.m10 * B.m01 + A.m11 * B.m11
    m02 := A.m00 * B.m02 + A.m01 * B.m12 + A.m02
    m12 := A.m10 * B.m02 + A.m11 * B.m12 + A.m12 }

/-- Modelled from the spec: `Transform::inverted` of `property.cpp`, which is
not under `source/`. The spec asks for the algebraic inverse of the affine map,
meaningful when the determinant `m00·m11 − m10·m01` is not zero. -/
def Transform.inverted (t : Transform) : Transform :=
  let det := t.m00 * t.m11 - t.m10 * t.m01
  { m00 := t.m11 / det
    m10 := -t.m10 / det
    m01 := -t.m01 / det
    m11 := t.m00 / det
    m02 := (t.m01 * t.m12 - t.m11 * t.m02) / det
    m12 := (t.m10 * t.m02 - t.m00 * t.m12) / det }

/-- Modelled from the spec: `Transform::scaled(sx, sy)`, which is not under
`source/`: the elementary scaling matrix. -/
def Transform.scaled (sx sy : ℚ) : Transform := ⟨sx, 0, 0, sy, 0, 0⟩

/-- Modelled from the spec: `Transform::translated(tx, ty)`, which is not under
`source/`: the elementary translation matrix. -/
def Transform.translated (tx ty : ℚ) : Transform := ⟨1, 0, 0, 1, tx, ty⟩

/-- The elementary transforms that are built with trigonometric functions
(`Transform::rotated(angle)`, `Transform::rotated(angle, cx, cy)` and
`Transform::sheared(shx, shy)`, not under `source/`), taken as given. -/
structure Trigonometric where
  rotated : ℚ → Transform
  rotatedAbout : ℚ → ℚ → ℚ → Transform
  sheared : ℚ → ℚ → Transform

/-- The operator `Matrix::operator*`. -/
def Matrix.mul (m matrix : Matrix) : Matrix :=
  Matrix.ofTransform (Transform.mul (Transform.ofMatrix m) (Transform.ofMatrix matrix))

/-- The method `Matrix::inverted()`. -/
def Matrix.inverted (m : Matrix) : Matrix :=
  Matrix.ofTransform (Transform.inverted (Transform.ofMatrix m))

/-- The static method `Matrix::rotated(angle)`. -/
def Matrix.rotated (trig : Trigonometric) (angle : ℚ) : Matrix :=
  Matrix.ofTransform (trig.rotated angle)

/-- The static method `Matrix::rotated(angle, cx, cy)`. -/
def Matrix.rotatedAbout (trig : Trigonometric) (angle cx cy : ℚ) : Matrix :=
  Matrix.ofTransform (trig.rotatedAbout angle cx cy)

/-- The static method `Matrix::scaled(sx, sy)`. -/
def Matrix.scaled (sx sy : ℚ) : Matrix := Matrix.ofTransform (Transform.scaled sx sy)

/-- The static method `Matrix::sheared(shx, shy)`. -/
def Matrix.sheared (trig : Trigonometric) (shx shy : ℚ) : Matrix :=
  Matrix.ofTransform (trig.sheared shx shy)

/-- The static method `Matrix::translated(tx, ty)`. -/
def Matrix.translated (tx ty : ℚ) : Matrix := Matrix.ofTransform (Transform.translated tx ty)

/-- The method `Matrix::rotate(angle)`: the new value of `*this`. -/
def Matrix.rotate (trig : Trigonometric) (m : Matrix) (angle : ℚ) : Matrix :=
  (Matrix.rotated trig angle).mul m

/-- The method `Matrix::rotate(angle, cx, cy)`: the new value of `*this`. -/
def Matrix.rotateAbout (trig : Trigonometric) (m : Matrix) (angle cx cy : ℚ) : Matrix :=
  (Matrix.rotatedAbout trig angle cx cy).mul m

/-- The method `Matrix::scale(sx, sy)`: the new value of `*this`. -/
def Matrix.scale (m : Matrix) (sx sy : ℚ) : Matrix := (Matrix.scaled sx sy).mul m

/-- The method `Matrix::shear(shx, shy)`: the new value of `*this`. -/
def Matrix.shear (trig : Trigonometric) (m : Matrix) (shx shy : ℚ) : Matrix :=
  (Matrix.sheared trig shx shy).mul m

/-- The method `Matrix::translate(tx, ty)`: the new value of `*this`. -/
def Matrix.translate (m : Matrix) (tx ty : ℚ) : Matrix := (Matrix.translated tx ty).mul m

/-- The method `Matrix::transform(a, b, c, d, e, f)`: the new value of `*this`. -/
def Matrix.transform (m : Matrix) (a b c d e f : ℚ) : Matrix :=
  (Matrix.mk a b c d e f).mul m

/-- The method `Matrix::identity()`: the new value of `*this`. -/
def Matrix.identity : Matrix := ⟨1, 0, 0, 1, 0, 0⟩

/-- The method `Matrix::invert()`: the new value of `*this`. -/
def Matrix.invert (m : Matrix) : Matrix := m.inverted

/-- The image of the point `(x, y)` under a matrix: the map of the transform it
converts to. -/
def Matrix.mapPoint (m : Matrix) (x y : ℚ) : ℚ × ℚ := (Transform.ofMatrix m).map x y

/-! ## Document -/

/-- The enum `RenderMode` of the layout context. -/
inductive RenderMode where
  | Display
  | Clipping
  deriving DecidableEq

/-- The parts of the layout tree's root node (`LayoutSymbol`) that `Document`
reads: the resolved width and height. Its `render` entry point is external and
is passed to the document methods as `rootRender`. -/
structure LayoutSymbol where
  width : ℚ
  height : ℚ

/-- The class `Document`: the owner of the layout tree's root. -/
structure Document where
  root : LayoutSymbol

/-- The `RenderState` handed to the layout tree: the canvas it renders into (a
reference into the arena `heap` of the canvases alive), the transform and the
mode. -/
structure RenderState where
  heap : Heap
  canvas : CanvasRef
  transform : Transform
  mode : RenderMode

/-- What a render pass did besides computing its result: the canvases it
created itself and the calls of the root node's `render`. -/
inductive RenderEvent where
  | canvasCreated (canvas : Canvas)
  | rootRendered (canvas : CanvasRef) (transform : Transform)
  deriving DecidableEq

/-- The method `Canvas::rgba()`: a stub with an empty body. -/
def Canvas.rgba (c : Canvas) : Canvas := c

/-- The method `Document::render(cl, matrix)`. `rootRender` is the external
`root->render(state)`, which may change the state it is given in any way. The
result is the returned handle sequence and the events of the pass; it is `none`
when `state.canvas` dangles after the root's render. -/
def Document.render (doc : Document) (rootRender : RenderState → RenderState)
    (cl : CommandListRef) (matrix : Matrix) :
    Option (List CommandListHandle × List RenderEvent) :=
  let canvas := Canvas.create cl 0 0 doc.root.width doc.root.height
  let state0 : RenderState :=
    { heap := [canvas]
      canvas := 0
      transform := ⟨matrix.a, matrix.b, matrix.c, matrix.d, matrix.e, matrix.f⟩
      mode := RenderMode.Display }
  let state := rootRender state0
  match state.heap[state.canvas]? with
  | none => none
  | some cv =>
    some ((cv.rgba).child,
      [RenderEvent.canvasCreated canvas, RenderEvent.rootRendered 0 state0.transform])

/-- The method `Document::renderToBitmap(cl)`. -/
def Document.renderToBitmap (doc : Document) (rootRender : RenderState → RenderState)
    (cl : CommandListRef) : Option (List CommandListHandle × List RenderEvent) :=
  if doc.root.width = 0 ∨ doc.root.height = 0 then
    some ([], [])
  else
    let matrix : Matrix := ⟨1, 0, 0, 1, 0, 0⟩
    doc.render rootRender cl matrix

/-- A root node whose `render` opens one compositing group: it creates a child
canvas of the canvas it is given, with the backend handle 5. -/
def groupingRoot (state : RenderState) : RenderState :=
  match Canvas.createChild (fun _ => true) state.heap (some state.canvas) ⟨5⟩ 0 0 1 1 with
  | some (heap, _) => { state with heap := heap }
  | none => state

/-! ## Bitmap -/

/-- The type `std::uint8_t`. -/
abbrev Byte := Fin 256

/-- Byte memory, addressed relative to the pointer returned by `Bitmap::data()`. -/
abbrev Mem := Int → Byte

/-- The conversion of an unsigned value to `std::uint8_t` when it is stored. -/
def toByte (v : Nat) : Byte := ⟨v % 256, Nat.mod_lt _ (by decide)⟩

/-- The store of one byte at address `addr`. -/
def Mem.store (mem : Mem) (addr : Int) (v : Byte) : Mem :=
  fun p => if p = addr then v else mem p

/-- The fields of `Bitmap::Impl`; `data` stands for the buffer that
`Bitmap::data()` points to, caller-owned or self-allocated. -/
structure Bitmap.Impl where
  data : Mem
  width : Nat
  height : Nat
  stride : Nat

/-- The class `Bitmap`: a possibly null pointer to its `Impl`. -/
structure Bitmap where
  m_impl : Option Bitmap.Impl

/-- The accessor `Bitmap::width()`. -/
def Bitmap.width (bm : Bitmap) : Nat :=
  match bm.m_impl with
  | some impl => impl.width
  | none => 0

/-- The accessor `Bitmap::height()`. -/
def Bitmap.height (bm : Bitmap) : Nat :=
  match bm.m_impl with
  | some impl => impl.height
  | none => 0

/-- The accessor `Bitmap::stride()`. -/
def Bitmap.stride (bm : Bitmap) : Nat :=
  match bm.m_impl with
  | some impl => impl.stride
  | none => 0

/-- The bytes behind `Bitmap::data()`; a null bitmap has none, and the loops
never touch them since its height is 0. -/
def Bitmap.data (bm : Bitmap) : Mem :=
  match bm.m_impl with
  | some impl => impl.data
  | none => fun _ => 0

/-- The bitmap with the bytes behind `data()` replaced. -/
def Bitmap.withData (bm : Bitmap) (mem : Mem) : Bitmap :=
  match bm.m_impl with
  | some impl => ⟨some { impl with data := mem }⟩
  | none => bm

/-- The four stores of the body of the inner loop of `Bitmap::clear`. -/
def Bitmap.clearPixel (pb pg pr a : Nat) (data : Int) (mem : Mem) : Mem :=
  (((mem.store (data + 0) (toByte pb)).store (data + 1) (toByte pg)).store
    (data + 2) (toByte pr)).store (data + 3) (toByte a)

/-- The inner loop `for (x = 0; x < width; x++) { ...; data += 4; }` of
`Bitmap::clear`, with the number of pixels still to visit as first argument. -/
def Bitmap.clearRow (pb pg pr a : Nat) : Nat → Int → Mem → Mem
  | 0, _, mem => mem
  | n + 1, data, mem =>
    Bitmap.clearRow pb pg pr a n (data + 4) (Bitmap.clearPixel pb pg pr a data mem)

/-- The outer loop `for (y = 0; y < height; y++) { ...; rowData += stride; }`
of `Bitmap::clear`, with the number of rows still to visit as first argument. -/
def Bitmap.clearRows (pb pg pr a : Nat) (width stride : Nat) : Nat → Int → Mem → Mem
  | 0, _, mem => mem
  | n + 1, rowData, mem =>
    Bitmap.clearRows pb pg pr a width stride n (rowData + stride)
      (Bitmap.clearRow pb pg pr a width rowData mem)

/-- The method `Bitmap::clear(color)`; `color` is the `std::uint32_t` argument. -/
def Bitmap.clear (bm : Bitmap) (color : Nat) : Bitmap :=
  let r := (color >>> 24) &&& 0xFF
  let g := (color >>> 16) &&& 0xFF
  let b := (color >>> 8) &&& 0xFF
  let a := (color >>> 0) &&& 0xFF
  let pr := (r * a) / 255
  let pg := (g * a) / 255
  let pb := (b * a) / 255
  let width := bm.width
  let height := bm.height
  let stride := bm.stride
  let rowData := bm.data
  bm.withData (Bitmap.clearRows pb pg pr a width stride height 0 rowData)

/-- Integer division as the program performs it: it has no result (`none`) for
a zero divisor. -/
def idiv (n d : Nat) : Option Nat :=
  if d = 0 then none else some (n / d)

/-- The body of the inner loop of `Bitmap::convert`: reads `b, g, r, a` at
offsets 0..3, divides when asked to and `a != 0`, and stores the four values at
the offsets `ri, gi, bi, ai`. -/
def Bitmap.convertPixel (ri gi bi ai : Int) (unpremultiply : Bool) (data : Int) (mem : Mem) :
    Option Mem :=
  let b := mem (data + 0)
  let g := mem (data + 1)
  let r := mem (data + 2)
  let a := mem (data + 3)
  let rgb : Option (Byte × Byte × Byte) :=
    if unpremultiply && a != 0 then
      match idiv (r.val * 255) a.val, idiv (g.val * 255) a.val, idiv (b.val * 255) a.val with
      | some r2, some g2, some b2 => some (toByte r2, toByte g2, toByte b2)
      | _, _, _ => none
    else
      some (r, g, b)
  match rgb with
  | none => none
  | some (r, g, b) =>
    some ((((mem.store (data + ri) r).store (data + gi) g).store (data + bi) b).store
      (data + ai) a)

/-- The inner loop of `Bitmap::convert`, with the number of pixels still to
visit as first argument. -/
def Bitmap.convertRow (ri gi bi ai : Int) (unpremultiply : Bool) : Nat → Int → Mem → Option Mem
  | 0, _, mem => some mem
  | n + 1, data, mem =>
    match Bitmap.convertPixel ri gi bi ai unpremultiply data mem with
    | none => none
    | some mem1 => Bitmap.convertRow ri gi bi ai unpremultiply n (data + 4) mem1

/-- The outer loop of `Bitmap::convert`, with the number of rows still to visit
as first argument. -/
def Bitmap.convertRows (ri gi bi ai : Int) (unpremultiply : Bool) (width stride : Nat) :
    Nat → Int → Mem → Option Mem
  | 0, _, mem => some mem
  | n + 1, rowData, mem =>
    match Bitmap.convertRow ri gi bi ai unpremultiply width rowData mem with
    | none => none
    | some mem1 =>
      Bitmap.convertRows ri gi bi ai unpremultiply width stride n (rowData + stride) mem1

/-- The method `Bitmap::convert(ri, gi, bi, ai, unpremultiply)`; the result is
`none` when a division by zero is performed. -/
def Bitmap.convert (bm : Bitmap) (ri gi bi ai : Int) (unpremultiply : Bool) : Option Bitmap :=
  let width := bm.width
  let height := bm.height
  let stride := bm.stride
  let rowData := bm.data
  match Bitmap.convertRows ri gi bi ai unpremultiply width stride height 0 rowData with
  | none => none
  | some mem => some (bm.withData mem)

/-- The byte of a bitmap at byte offset `off` from `data()`. -/
def Bitmap.byteAt (bm : Bitmap) (off : Int) : Nat := (bm.data off).val

/-! ## Reasoning devices for the pixel loops -/

/-- A loop that applies `op` at `n` addresses `step` apart: the common shape of
the row and pixel loops above. -/
def loopAt (step : Int) (op : Int → Mem → Mem) : Nat → Int → Mem → Mem
  | 0, _, mem => mem
  | n + 1, p, mem => loopAt step op n (p + step) (op p mem)

/-- An operation is local on `len` bytes when, applied at `p`, it changes only
the bytes in `[p, p + len)` and what it leaves there depends only on them. -/
def LocalOn (len : Int) (op : Int → Mem → Mem) : Prop :=
  (∀ p mem q, (q < p ∨ p + len ≤ q) → op p mem q = mem q) ∧
  (∀ p mem mem2, (∀ q, p ≤ q → q < p + len → mem q = mem2 q) →
    ∀ q, p ≤ q → q < p + len → op p mem q = op p mem2 q)

/-- What `Bitmap::convert` makes of a colour channel `c` of a pixel with alpha
`a`: the quotient `c * 255 / a` stored in a byte when dividing, else `c`. -/
def unpremul (unpremultiply : Bool) (c a : Byte) : Byte :=
  if unpremultiply && a != 0 then toByte (c.val * 255 / a.val) else c

/-- The pixel body of `Bitmap::convert` as a total function. -/
def convertPixelFn (ri gi bi ai : Int) (unpremultiply : Bool) (data : Int) (mem : Mem) : Mem :=
  (((mem.store (data + ri) (unpremul unpremultiply (mem (data + 2)) (mem (data + 3)))).store
      (data + gi) (unpremul unpremultiply (mem (data + 1)) (mem (data + 3)))).store
      (data + bi) (unpremul unpremultiply (mem (data + 0)) (mem (data + 3)))).store
      (data + ai) (mem (data + 3))

/-- A 1 x 1 bitmap with stride 4 holding the bytes `b, g, r, a`. -/
def onePixel (b g r a : Byte) : Bitmap :=
  ⟨some ⟨fun p => if p = 0 then b else if p = 1 then g else if p = 2 then r
                  else if p = 3 then a else 0, 1, 1, 4⟩⟩

/-- Where a call `convert(ri, gi, bi, ai, _)` puts the byte it reads at offset
`k` of a pixel: offset 0 is read as `b`, 1 as `g`, 2 as `r` and 3 as `a`. -/
def convertDest (ri gi bi ai : Int) (k : Int) : Int :=
  if k = 0 then bi else if k = 1 then gi else if k = 2 then ri else ai

/-! ## Theorems: the machine arithmetic of `Canvas::create` -/

theorem toInt32_of_fits (v : Int) (h1 : -2147483648 ≤ v) (h2 : v ≤ 2147483647) :
    toInt32 v = v := by
  unfold toInt32; omega

theorem roundHalfEven_intCast (z : Int) : roundHalfEven (z : ℚ) = z := by
  simp [roundHalfEven]

theorem roundHalfEven_near (q : ℚ) : |(roundHalfEven q : ℚ) - q| ≤ 1 / 2 := by
  have h1 := Int.floor_le q
  have h2 := Int.lt_floor_add_one q
  unfold roundHalfEven
  simp only
  split_ifs with ha hb hc
  · rw [abs_le]; constructor <;> linarith
  · rw [abs_le]; push_cast; constructor <;> linarith
  · rw [abs_le]; constructor <;> linarith
  · rw [abs_le]; push_cast; constructor <;> linarith

theorem floatOfInt_of_small (n : Int) (h1 : -16777216 ≤ n) (h2 : n ≤ 16777216) :
    floatOfInt n = n := by
  have h : n.natAbs ≤ 16777216 := by omega
  simp [floatOfInt, h]

theorem floatOfInt_pos (n : Int) (h : 1 ≤ n) : 1 ≤ floatOfInt n := by
  have hsign : n.sign = 1 := Int.sign_eq_one_of_pos (by omega)
  have hm : n.natAbs ≠ 0 := by omega
  have hle : 2 ^ (Nat.log2 n.natAbs - 23) ≤ n.natAbs :=
    le_trans (Nat.pow_le_pow_right (by decide) (Nat.sub_le _ _)) (Nat.log2_self_le hm)
  have hp : 0 < 2 ^ (Nat.log2 n.natAbs - 23) := Nat.two_pow_pos _
  have hq : 1 ≤ n.natAbs / 2 ^ (Nat.log2 n.natAbs - 23) := (Nat.one_le_div_iff hp).mpr hle
  have key : ∀ Q : Nat, 1 ≤ Q →
      1 ≤ n.sign * ((Q * 2 ^ (Nat.log2 n.natAbs - 23) : Nat) : Int) := by
    intro Q hQ
    rw [hsign, one_mul]
    have : 1 ≤ Q * 2 ^ (Nat.log2 n.natAbs - 23) := Nat.one_le_iff_ne_zero.mpr
      (Nat.mul_ne_zero (by omega) (by omega))
    exact_mod_cast this
  unfold floatOfInt
  simp only
  split_ifs
  · exact h
  · exact key _ hq
  · exact key _ (by omega)
  · exact key _ hq
  · exact key _ (by omega)

/-- The cast `(float)16777217` gives `16777216`: `2^24 + 1` lies half-way
between two binary32 values and the tie goes to the even significand. -/
theorem floatOfInt_two_pow_24_add_one : floatOfInt 16777217 = 16777216 := by
  have hne : (16777217 : Nat) ≠ 0 := by decide
  have h1 : Nat.log2 16777217 < 25 := (Nat.log2_lt hne).mpr (by decide)
  have h2 : ¬ Nat.log2 16777217 < 24 := fun hlt =>
    absurd ((Nat.log2_lt hne).mp hlt) (by decide)
  have hlog : Nat.log2 16777217 = 24 := by omega
  have hn : (16777217 : Int).natAbs = 16777217 := rfl
  unfold floatOfInt
  simp only [hn, hlog]
  decide

theorem roundDouble_near (q : ℚ) :
    |roundDouble q - q| ≤ (2 : ℚ) ^ ulpExponent q / 2 := by
  have hpos : (0 : ℚ) < (2 : ℚ) ^ ulpExponent q := zpow_pos (by norm_num) _
  unfold roundDouble
  split_ifs with h0
  · subst h0; simp; positivity
  · have h := roundHalfEven_near (q / (2 : ℚ) ^ ulpExponent q)
    have e : (roundHalfEven (q / (2 : ℚ) ^ ulpExponent q) : ℚ) * (2 : ℚ) ^ ulpExponent q - q
        = ((roundHalfEven (q / (2 : ℚ) ^ ulpExponent q) : ℚ) - q / (2 : ℚ) ^ ulpExponent q)
            * (2 : ℚ) ^ ulpExponent q := by
      field_simp
    rw [e, abs_mul, abs_of_pos hpos]
    calc |(roundHalfEven (q / (2 : ℚ) ^ ulpExponent q) : ℚ) - q / (2 : ℚ) ^ ulpExponent q|
            * (2 : ℚ) ^ ulpExponent q
        ≤ 1 / 2 * (2 : ℚ) ^ ulpExponent q := mul_le_mul_of_nonneg_right h (le_of_lt hpos)
      _ = (2 : ℚ) ^ ulpExponent q / 2 := by ring

theorem roundDouble_of_grid (q : ℚ) (z : Int) (h : q / (2 : ℚ) ^ ulpExponent q = z) :
    roundDouble q = q := by
  have hpos : (0 : ℚ) < (2 : ℚ) ^ ulpExponent q := zpow_pos (by norm_num) _
  unfold roundDouble
  split_ifs with h0
  · exact h0.symm
  · rw [h, roundHalfEven_intCast, ← h]
    field_simp

theorem log_lt_of_lt {q : ℚ} (hq : 0 < |q|) (k : Int) (h : |q| < (2 : ℚ) ^ k) :
    Int.log 2 |q| < k := by
  have := (Int.lt_zpow_iff_log_lt (R := ℚ) (b := 2) (by norm_num) (x := k) hq).mp
    (by exact_mod_cast h)
  exact this

theorem le_log_of_le {q : ℚ} (hq : 0 < |q|) (k : Int) (h : (2 : ℚ) ^ k ≤ |q|) :
    k ≤ Int.log 2 |q| := by
  have := (Int.zpow_le_iff_le_log (R := ℚ) (b := 2) (by norm_num) (x := k) hq).mp
    (by exact_mod_cast h)
  exact this

/-- Every `m / 2^k` with `|m| < 2^53` and `k ≤ 1074` is a binary64 value:
rounding leaves it as it is. -/
theorem roundDouble_dyadic (m : Int) (k : Nat)
    (h1 : -9007199254740992 < m) (h2 : m < 9007199254740992) (hk : k ≤ 1074) :
    roundDouble ((m : ℚ) / 2 ^ k) = (m : ℚ) / 2 ^ k := by
  by_cases h0 : m = 0
  · subst h0; simp [roundDouble]
  have hkpos : (0 : ℚ) < (2 : ℚ) ^ k := pow_pos (by norm_num) _
  have hq0 : (m : ℚ) / 2 ^ k ≠ 0 := div_ne_zero (by exact_mod_cast h0) (ne_of_gt hkpos)
  have habs : 0 < |(m : ℚ) / 2 ^ k| := abs_pos.mpr hq0
  have hlt : |(m : ℚ) / 2 ^ k| < (2 : ℚ) ^ ((53 : Int) - k) := by
    have hm : |m| < 9007199254740992 := abs_lt.mpr ⟨h1, h2⟩
    have hm3 : |(m : ℚ)| < 9007199254740992 := by exact_mod_cast hm
    rw [abs_div, abs_of_pos hkpos, zpow_sub₀ (by norm_num : (2 : ℚ) ≠ 0), zpow_natCast]
    have e53 : (2 : ℚ) ^ (53 : Int) = 9007199254740992 := by norm_num
    rw [e53]
    exact div_lt_div_of_pos_right hm3 hkpos
  have hlog1 : Int.log 2 |(m : ℚ) / 2 ^ k| < 53 - k := log_lt_of_lt habs _ hlt
  have hu : ulpExponent ((m : ℚ) / 2 ^ k) ≤ -(k : Int) := by
    unfold ulpExponent
    have : max (Int.log 2 |(m : ℚ) / 2 ^ k|) (-1022) ≤ 52 - (k : Int) :=
      max_le (by omega) (by omega)
    omega
  obtain ⟨j, hj⟩ : ∃ j : Nat, ulpExponent ((m : ℚ) / 2 ^ k) = -(k : Int) - j :=
    ⟨(-(k : Int) - ulpExponent ((m : ℚ) / 2 ^ k)).toNat, by omega⟩
  apply roundDouble_of_grid _ (m * 2 ^ j)
  rw [hj, zpow_sub₀ (by norm_num : (2 : ℚ) ≠ 0), zpow_neg, zpow_natCast, zpow_natCast]
  push_cast
  field_simp
  ring

theorem roundDouble_intCast (n : Int) (h1 : -9007199254740992 < n) (h2 : n < 9007199254740992) :
    roundDouble (n : ℚ) = n := by
  have := roundDouble_dyadic n 0 h1 h2 (by omega)
  simpa using this

/-- The `double` sum `1 + 2^(-60)` is `1`: the exact sum needs 61 significand
bits and the nearest binary64 value is `1`. -/
theorem roundDouble_one_add_tiny :
    roundDouble (1 + 1 / 1152921504606846976) = 1 := by
  have habs : |(1 + 1 / 1152921504606846976 : ℚ)| = 1 + 1 / 1152921504606846976 :=
    abs_of_pos (by norm_num)
  have hpos : 0 < |(1 + 1 / 1152921504606846976 : ℚ)| := by rw [habs]; norm_num
  have hlog : Int.log 2 |(1 + 1 / 1152921504606846976 : ℚ)| = 0 := by
    apply le_antisymm
    · have := log_lt_of_lt hpos 1 (by rw [habs]; norm_num)
      omega
    · exact le_log_of_le hpos 0 (by rw [habs]; norm_num)
  have hu : ulpExponent (1 + 1 / 1152921504606846976 : ℚ) = -52 := by
    unfold ulpExponent
    rw [hlog]
    rfl
  have hfl : ⌊(1 + 1 / 1152921504606846976 : ℚ) / (2 : ℚ) ^ (-52 : Int)⌋
      = 4503599627370496 := by
    rw [Int.floor_eq_iff]
    norm_num
  unfold roundDouble
  rw [if_neg (by norm_num), hu]
  unfold roundHalfEven
  simp only [hfl]
  norm_num

/-- Below 1024 in magnitude a binary64 rounding moves a value by less than a
millionth. -/
theorem roundDouble_close (q : ℚ) (h : |q| < 1024) : |roundDouble q - q| ≤ 1 / 1000000 := by
  by_cases h0 : q = 0
  · subst h0; simp [roundDouble]
  have habs : 0 < |q| := abs_pos.mpr h0
  have hlog : Int.log 2 |q| < 10 := log_lt_of_lt habs 10 (by norm_num; exact h)
  have hu : ulpExponent q ≤ -43 := by
    unfold ulpExponent
    have : max (Int.log 2 |q|) (-1022) ≤ 9 := max_le (by omega) (by omega)
    omega
  have hp : (2 : ℚ) ^ ulpExponent q ≤ (2 : ℚ) ^ (-43 : Int) :=
    zpow_le_zpow_right₀ (by norm_num) hu
  have hn := roundDouble_near q
  have h43 : (2 : ℚ) ^ (-43 : Int) / 2 ≤ 1 / 1000000 := by norm_num
  exact le_trans hn (le_trans (div_le_div_of_nonneg_right hp (by norm_num)) h43)

/-! ## Theorems: `Canvas::create` over a command list -/

theorem new_rect (cl : CommandListRef) (a b c d : Int) :
    (Canvas.new cl a b c d).rect
      = ⟨(floatOfInt a : ℚ), (floatOfInt b : ℚ), (floatOfInt c : ℚ), (floatOfInt d : ℚ)⟩ := rfl

theorem new_commands (cl : CommandListRef) (a b c d : Int) :
    (Canvas.new cl a b c d).cl.commands = cl.commands ++ [Command.setScissor a b c d] := rfl

theorem new_unit_rect (cl : CommandListRef) : (Canvas.new cl 0 0 1 1).rect = ⟨0, 0, 1, 1⟩ := by
  rw [new_rect, floatOfInt_of_small 0 (by decide) (by decide),
    floatOfInt_of_small 1 (by decide) (by decide)]
  simp

theorem floor_lt_ceil_add (x w : ℚ) (hw : 0 < w) (s : ℚ) (hs : s = x + w) : ⌊x⌋ < ⌈s⌉ := by
  have h1 : ((⌊x⌋ : Int) : ℚ) < ((⌈s⌉ : Int) : ℚ) :=
    calc ((⌊x⌋ : Int) : ℚ) ≤ x := Int.floor_le x
      _ < x + w := by linarith
      _ = s := hs.symm
      _ ≤ ((⌈s⌉ : Int) : ℚ) := Int.le_ceil _
  exact_mod_cast h1

/-- On a request with positive extents whose two sums are exact in `double`
and whose edges and extents fit in `int`, the factory calls the constructor
with `floor x`, `floor y`, `ceil (x+w) - floor x`, `ceil (y+h) - floor y`. -/
theorem create_of_exact_in_range (cl : CommandListRef) (x y w h : ℚ)
    (hw : 0 < w) (hh : 0 < h)
    (hsx : roundDouble (x + w) = x + w) (hsy : roundDouble (y + h) = y + h)
    (hl : -2147483648 ≤ ⌊x⌋) (hr : ⌈x + w⌉ ≤ 2147483647)
    (hW : ⌈x + w⌉ - ⌊x⌋ ≤ 2147483647)
    (ht : -2147483648 ≤ ⌊y⌋) (hb : ⌈y + h⌉ ≤ 2147483647)
    (hH : ⌈y + h⌉ - ⌊y⌋ ≤ 2147483647) :
    Canvas.create cl x y w h
      = Canvas.new cl ⌊x⌋ ⌊y⌋ (⌈x + w⌉ - ⌊x⌋) (⌈y + h⌉ - ⌊y⌋) := by
  have hcond : ¬ (w ≤ 0 ∨ h ≤ 0) := by
    rintro (h1 | h1)
    · exact absurd hw (not_lt.mpr h1)
    · exact absurd hh (not_lt.mpr h1)
  have hx := floor_lt_ceil_add x w hw (x + w) rfl
  have hy := floor_lt_ceil_add y h hh (y + h) rfl
  have e1 : toInt32 ⌊x⌋ = ⌊x⌋ := toInt32_of_fits _ hl (by omega)
  have e2 : toInt32 ⌊y⌋ = ⌊y⌋ := toInt32_of_fits _ ht (by omega)
  have e3 : toInt32 ⌈x + w⌉ = ⌈x + w⌉ := toInt32_of_fits _ (by omega) hr
  have e4 : toInt32 ⌈y + h⌉ = ⌈y + h⌉ := toInt32_of_fits _ (by omega) hb
  have e5 : toInt32 (⌈x + w⌉ - ⌊x⌋) = ⌈x + w⌉ - ⌊x⌋ := toInt32_of_fits _ (by omega) hW
  have e6 : toInt32 (⌈y + h⌉ - ⌊y⌋) = ⌈y + h⌉ - ⌊y⌋ := toInt32_of_fits _ (by omega) hH
  simp only [Canvas.create, if_neg hcond, hsx, hsy, e1, e2, e3, e4, e5, e6]

/-- The request `(1.2, 2.1, 10.2, 5.6)`, each number being the `double` nearest
to the decimal: the factory calls the constructor with `(1, 2, 11, 6)`. -/
theorem create_of_nearest_doubles (cl : CommandListRef) :
    Canvas.create cl (roundDouble (6/5)) (roundDouble (21/10)) (roundDouble (51/5))
        (roundDouble (28/5))
      = Canvas.new cl 1 2 11 6 := by
  have hx := abs_le.mp (roundDouble_close (6/5) (abs_lt.mpr ⟨by norm_num, by norm_num⟩))
  have hy := abs_le.mp (roundDouble_close (21/10) (abs_lt.mpr ⟨by norm_num, by norm_num⟩))
  have hw := abs_le.mp (roundDouble_close (51/5) (abs_lt.mpr ⟨by norm_num, by norm_num⟩))
  have hh := abs_le.mp (roundDouble_close (28/5) (abs_lt.mpr ⟨by norm_num, by norm_num⟩))
  have hsx := abs_le.mp (roundDouble_close (roundDouble (6/5) + roundDouble (51/5))
    (abs_lt.mpr ⟨by linarith [hx.1, hw.1], by linarith [hx.2, hw.2]⟩))
  have hsy := abs_le.mp (roundDouble_close (roundDouble (21/10) + roundDouble (28/5))
    (abs_lt.mpr ⟨by linarith [hy.1, hh.1], by linarith [hy.2, hh.2]⟩))
  have hcond : ¬ (roundDouble (51/5) ≤ 0 ∨ roundDouble (28/5) ≤ 0) := by
    rintro (h1 | h1)
    · linarith [hw.1]
    · linarith [hh.1]
  have f1 : ⌊roundDouble (6/5)⌋ = 1 := by
    rw [Int.floor_eq_iff]; constructor <;> push_cast <;> linarith [hx.1, hx.2]
  have f2 : ⌊roundDouble (21/10)⌋ = 2 := by
    rw [Int.floor_eq_iff]; constructor <;> push_cast <;> linarith [hy.1, hy.2]
  have c1 : ⌈roundDouble (roundDouble (6/5) + roundDouble (51/5))⌉ = 12 := by
    rw [Int.ceil_eq_iff]; constructor <;> push_cast <;>
      linarith [hx.1, hx.2, hw.1, hw.2, hsx.1, hsx.2]
  have c2 : ⌈roundDouble (roundDouble (21/10) + roundDouble (28/5))⌉ = 8 := by
    rw [Int.ceil_eq_iff]; constructor <;> push_cast <;>
      linarith [hy.1, hy.2, hh.1, hh.2, hsy.1, hsy.2]
  have t1 : toInt32 1 = 1 := by decide
  have t2 : toInt32 2 = 2 := by decide
  have t12 : toInt32 12 = 12 := by decide
  have t8 : toInt32 8 = 8 := by decide
  have t11 : toInt32 (12 - 1) = 11 := by decide
  have t6 : toInt32 (8 - 2) = 6 := by decide
  simp only [Canvas.create, if_neg hcond, f1, f2, c1, c2, t1, t2, t12, t8, t11, t6]

/-- The non-degenerate branch of the factory, once the two floors and the two
ceilings are known. -/
theorem create_of_values (cl : CommandListRef) (x y w h : ℚ) (l t r b : Int)
    (hw : 0 < w) (hh : 0 < h) (hl : ⌊x⌋ = l) (ht : ⌊y⌋ = t)
    (hr : ⌈roundDouble (x + w)⌉ = r) (hb : ⌈roundDouble (y + h)⌉ = b) :
    Canvas.create cl x y w h
      = Canvas.new cl (toInt32 l) (toInt32 t) (toInt32 (toInt32 r - toInt32 l))
          (toInt32 (toInt32 b - toInt32 t)) := by
  have hcond : ¬ (w ≤ 0 ∨ h ≤ 0) := by
    rintro (h1 | h1)
    · exact absurd hw (not_lt.mpr h1)
    · exact absurd hh (not_lt.mpr h1)
  simp only [Canvas.create, if_neg hcond, hl, ht, hr, hb]

theorem ceil_roundDouble_zero_add_one : ⌈roundDouble ((0 : ℚ) + 1)⌉ = 1 := by
  have h := roundDouble_intCast 1 (by decide) (by decide)
  have e : ((0 : ℚ) + 1) = ((1 : Int) : ℚ) := by norm_num
  rw [e, h]
  exact Int.ceil_intCast 1

theorem ceil_roundDouble_one_add_tiny :
    ⌈roundDouble ((1 : ℚ) + 1 / 1152921504606846976)⌉ = 1 := by
  rw [roundDouble_one_add_tiny]
  exact Int.ceil_one

/-- When the `int` subtraction `r - l` overflows, the width handed to the
backend and to the clip rectangle is the wrapped value: the request
`(-2147483648, 0, 4294967291, 1)` has `l = -2147483648` and `r = 2147483643`,
both within `int`, and `r - l = 4294967291` is stored as `-5`. -/
theorem create_width_wraps_on_int_overflow :
    (Canvas.create ⟨⟨0⟩, []⟩ (-2147483648) 0 4294967291 1).cl.commands
      = [Command.setScissor (-2147483648) 0 (-5) 1] ∧
    (Canvas.create ⟨⟨0⟩, []⟩ (-2147483648) 0 4294967291 1).rect.w = -5 := by
  have hl : ⌊(-2147483648 : ℚ)⌋ = -2147483648 := by
    rw [Int.floor_eq_iff]; norm_num
  have ht : ⌊(0 : ℚ)⌋ = 0 := Int.floor_zero
  have hr : ⌈roundDouble ((-2147483648 : ℚ) + 4294967291)⌉ = 2147483643 := by
    have h := roundDouble_intCast 2147483643 (by decide) (by decide)
    have e : ((-2147483648 : ℚ) + 4294967291) = ((2147483643 : Int) : ℚ) := by norm_num
    rw [e, h]
    exact Int.ceil_intCast 2147483643
  have he := create_of_values ⟨⟨0⟩, []⟩ (-2147483648) 0 4294967291 1 _ _ _ _
    (by norm_num) (by norm_num) hl ht hr ceil_roundDouble_zero_add_one
  have t1 : toInt32 (-2147483648) = -2147483648 := by decide
  have t2 : toInt32 0 = 0 := by decide
  have t3 : toInt32 2147483643 = 2147483643 := by decide
  have t4 : toInt32 1 = 1 := by decide
  have t5 : toInt32 (2147483643 - -2147483648) = -5 := by decide
  have t6 : toInt32 (1 - 0) = 1 := by decide
  rw [t1, t2, t3, t4, t5, t6] at he
  rw [he, new_commands, new_rect, floatOfInt_of_small (-5) (by decide) (by decide)]
  exact ⟨rfl, by norm_num⟩

/-- C1, the claim as stated fails: for the request `(0, 0, 16777217, 1)` the
sums are exact and every integer is within `int`; the scissor call carries
`(0, 0, 16777217, 1)`, but the clip rectangle is `(0, 0, 16777216, 1)`, because
the cast `(float)width` rounds `2^24 + 1` to `2^24`. The rectangle is not
`(floor x, floor y, ceil (x+w) - floor x, ceil (y+h) - floor y)` and does not
hold the four integers of the scissor call. -/
theorem create_clip_rect_float_cast_rounds :
    (0 : ℚ) < 16777217 ∧ (0 : ℚ) < 1 ∧
    roundDouble ((0 : ℚ) + 16777217) = 0 + 16777217 ∧
    roundDouble ((0 : ℚ) + 1) = 0 + 1 ∧
    (Canvas.create ⟨⟨0⟩, []⟩ 0 0 16777217 1).cl.commands
      = [Command.setScissor 0 0 16777217 1] ∧
    (Canvas.create ⟨⟨0⟩, []⟩ 0 0 16777217 1).rect = ⟨0, 0, 16777216, 1⟩ ∧
    (Canvas.create ⟨⟨0⟩, []⟩ 0 0 16777217 1).rect
      ≠ ⟨(⌊(0 : ℚ)⌋ : Int), (⌊(0 : ℚ)⌋ : Int),
          ((⌈(0 : ℚ) + 16777217⌉ - ⌊(0 : ℚ)⌋ : Int) : ℚ),
          ((⌈(0 : ℚ) + 1⌉ - ⌊(0 : ℚ)⌋ : Int) : ℚ)⟩ := by
  have e : ((0 : ℚ) + 16777217) = ((16777217 : Int) : ℚ) := by norm_num
  have e1 : ((0 : ℚ) + 1) = ((1 : Int) : ℚ) := by norm_num
  have hs : roundDouble ((0 : ℚ) + 16777217) = 0 + 16777217 := by
    rw [e]; exact roundDouble_intCast 16777217 (by decide) (by decide)
  have hs1 : roundDouble ((0 : ℚ) + 1) = 0 + 1 := by
    rw [e1]; exact roundDouble_intCast 1 (by decide) (by decide)
  have ht : ⌊(0 : ℚ)⌋ = 0 := Int.floor_zero
  have hc : ⌈(0 : ℚ) + 16777217⌉ = 16777217 := by
    rw [e]; exact Int.ceil_intCast 16777217
  have hc1 : ⌈(0 : ℚ) + 1⌉ = 1 := by
    rw [e1]; exact Int.ceil_intCast 1
  have hr : ⌈roundDouble ((0 : ℚ) + 16777217)⌉ = 16777217 := by rw [hs, hc]
  have he := create_of_values ⟨⟨0⟩, []⟩ 0 0 16777217 1 _ _ _ _
    (by norm_num) (by norm_num) ht ht hr ceil_roundDouble_zero_add_one
  have t2 : toInt32 0 = 0 := by decide
  have t3 : toInt32 16777217 = 16777217 := by decide
  have t4 : toInt32 1 = 1 := by decide
  have t5 : toInt32 (16777217 - 0) = 16777217 := by decide
  have t6 : toInt32 (1 - 0) = 1 := by decide
  rw [t2, t3, t4, t5, t6] at he
  have hrect : (Canvas.create ⟨⟨0⟩, []⟩ 0 0 16777217 1).rect = ⟨0, 0, 16777216, 1⟩ := by
    rw [he, new_rect, floatOfInt_two_pow_24_add_one,
      floatOfInt_of_small 0 (by decide) (by decide),
      floatOfInt_of_small 1 (by decide) (by decide)]
    norm_num
  refine ⟨by norm_num, by norm_num, hs, hs1, ?_, hrect, ?_⟩
  · rw [he, new_commands]
    rfl
  · rw [hrect, ht, hc, hc1]
    intro hne
    have hw := congrArg Rect.w hne
    norm_num at hw

/-- C1 as amended: for a request with positive width and height whose sums
`x + w` and `y + h` are exact in `double` and whose edges `floor x`, `floor y`,
`ceil (x+w)`, `ceil (y+h)` and extents fit in the 32-bit `int`, the scissor
call recorded at construction carries
`(floor x, floor y, ceil (x+w) - floor x, ceil (y+h) - floor y)`; the clip
rectangle holds the `float` nearest to each of the four integers, and the
integers themselves when the two origins and the two extents are at most
`2^24` in magnitude. The request `(1.2, 2.1, 10.2, 5.6)`, each number being the
nearest `double`, gives `(1, 2, 11, 6)` for both. -/
theorem create_clip_rect_exact_in_range (cl : CommandListRef) (x y w h : ℚ)
    (hw : 0 < w) (hh : 0 < h)
    (hsx : roundDouble (x + w) = x + w) (hsy : roundDouble (y + h) = y + h)
    (hl : -2147483648 ≤ ⌊x⌋) (hr : ⌈x + w⌉ ≤ 2147483647)
    (hW : ⌈x + w⌉ - ⌊x⌋ ≤ 2147483647)
    (ht : -2147483648 ≤ ⌊y⌋) (hb : ⌈y + h⌉ ≤ 2147483647)
    (hH : ⌈y + h⌉ - ⌊y⌋ ≤ 2147483647) :
    (Canvas.create cl x y w h).cl.commands
        = cl.commands ++ [Command.setScissor ⌊x⌋ ⌊y⌋ (⌈x + w⌉ - ⌊x⌋) (⌈y + h⌉ - ⌊y⌋)] ∧
    (Canvas.create cl x y w h).rect
        = ⟨(floatOfInt ⌊x⌋ : ℚ), (floatOfInt ⌊y⌋ : ℚ), (floatOfInt (⌈x + w⌉ - ⌊x⌋) : ℚ),
            (floatOfInt (⌈y + h⌉ - ⌊y⌋) : ℚ)⟩ ∧
    (-16777216 ≤ ⌊x⌋ → ⌊x⌋ ≤ 16777216 → ⌈x + w⌉ - ⌊x⌋ ≤ 16777216 →
      -16777216 ≤ ⌊y⌋ → ⌊y⌋ ≤ 16777216 → ⌈y + h⌉ - ⌊y⌋ ≤ 16777216 →
      (Canvas.create cl x y w h).rect
        = ⟨(⌊x⌋ : Int), (⌊y⌋ : Int), ((⌈x + w⌉ - ⌊x⌋ : Int) : ℚ),
            ((⌈y + h⌉ - ⌊y⌋ : Int) : ℚ)⟩) ∧
    (Canvas.create cl (roundDouble (6/5)) (roundDouble (21/10)) (roundDouble (51/5))
        (roundDouble (28/5))).rect = ⟨1, 2, 11, 6⟩ ∧
    (Canvas.create cl (roundDouble (6/5)) (roundDouble (21/10)) (roundDouble (51/5))
        (roundDouble (28/5))).cl.commands
      = cl.commands ++ [Command.setScissor 1 2 11 6] := by
  have he := create_of_exact_in_range cl x y w h hw hh hsx hsy hl hr hW ht hb hH
  have hx := floor_lt_ceil_add x w hw (x + w) rfl
  have hy := floor_lt_ceil_add y h hh (y + h) rfl
  refine ⟨?_, ?_, ?_, ?_, ?_⟩
  · rw [he, new_commands]
  · rw [he, new_rect]
  · intro a1 a2 a3 a4 a5 a6
    rw [he, new_rect, floatOfInt_of_small _ a1 a2, floatOfInt_of_small _ a4 a5,
      floatOfInt_of_small _ (by omega) a3, floatOfInt_of_small _ (by omega) a6]
  · rw [create_of_nearest_doubles, new_rect,
      floatOfInt_of_small 1 (by decide) (by decide),
      floatOfInt_of_small 2 (by decide) (by decide),
      floatOfInt_of_small 11 (by decide) (by decide),
      floatOfInt_of_small 6 (by decide) (by decide)]
    norm_num
  · rw [create_of_nearest_doubles, new_commands]

/-- Witness for C1 as amended at the request `(-7/2, 1/4, 3, 1/2)`: the sums
are `-1/2` and `3/4`, the scissor is `(-4, 0, 4, 1)`. -/
theorem create_clip_rect_exact_in_range_witness :
    (0 : ℚ) < 3 ∧ (0 : ℚ) < 1/2 ∧
    roundDouble ((-7/2 : ℚ) + 3) = -7/2 + 3 ∧
    roundDouble ((1/4 : ℚ) + 1/2) = 1/4 + 1/2 ∧
    -2147483648 ≤ ⌊(-7/2 : ℚ)⌋ ∧ ⌈(-7/2 : ℚ) + 3⌉ ≤ 2147483647 ∧
    ⌈(-7/2 : ℚ) + 3⌉ - ⌊(-7/2 : ℚ)⌋ ≤ 2147483647 ∧
    -2147483648 ≤ ⌊(1/4 : ℚ)⌋ ∧ ⌈(1/4 : ℚ) + 1/2⌉ ≤ 2147483647 ∧
    ⌈(1/4 : ℚ) + 1/2⌉ - ⌊(1/4 : ℚ)⌋ ≤ 2147483647 ∧
    (Canvas.create ⟨⟨0⟩, []⟩ (-7/2) (1/4) 3 (1/2)).cl.commands
      = [] ++ [Command.setScissor ⌊(-7/2 : ℚ)⌋ ⌊(1/4 : ℚ)⌋
          (⌈(-7/2 : ℚ) + 3⌉ - ⌊(-7/2 : ℚ)⌋) (⌈(1/4 : ℚ) + 1/2⌉ - ⌊(1/4 : ℚ)⌋)] := by
  have f1 : ⌊(-7/2 : ℚ)⌋ = -4 := by rw [Int.floor_eq_iff]; norm_num
  have f2 : ⌊(1/4 : ℚ)⌋ = 0 := by rw [Int.floor_eq_iff]; norm_num
  have c1 : ⌈(-7/2 : ℚ) + 3⌉ = 0 := by rw [Int.ceil_eq_iff]; norm_num
  have c2 : ⌈(1/4 : ℚ) + 1/2⌉ = 1 := by rw [Int.ceil_eq_iff]; norm_num
  have s1 : roundDouble ((-7/2 : ℚ) + 3) = -7/2 + 3 := by
    have e : ((-7/2 : ℚ) + 3) = ((-1 : Int) : ℚ) / 2 ^ 1 := by norm_num
    rw [e]
    exact roundDouble_dyadic (-1) 1 (by decide) (by decide) (by decide)
  have s2 : roundDouble ((1/4 : ℚ) + 1/2) = 1/4 + 1/2 := by
    have e : ((1/4 : ℚ) + 1/2) = ((3 : Int) : ℚ) / 2 ^ 2 := by norm_num
    rw [e]
    exact roundDouble_dyadic 3 2 (by decide) (by decide) (by decide)
  exact ⟨by norm_num, by norm_num, s1, s2, by omega, by omega, by omega, by omega, by omega,
    by omega,
    (create_clip_rect_exact_in_range ⟨⟨0⟩, []⟩ (-7/2) (1/4) 3 (1/2) (by norm_num)
      (by norm_num) s1 s2 (by omega) (by omega) (by omega) (by omega) (by omega)
      (by omega)).1⟩

/-- C2: for a request with non-positive width or height, `Canvas::create`
returns a canvas (the factory is a total function) whose clip rectangle and
scissor are `(0, 0, 1, 1)`, whatever `x` and `y` are. -/
theorem create_degenerate_unit_rect (cl : CommandListRef) (x y w h : ℚ)
    (hd : w ≤ 0 ∨ h ≤ 0) :
    (Canvas.create cl x y w h).rect = ⟨0, 0, 1, 1⟩ ∧
    (Canvas.create cl x y w h).cl.commands = cl.commands ++ [Command.setScissor 0 0 1 1] ∧
    ∀ x2 y2 : ℚ, Canvas.create cl x2 y2 w h = Canvas.create cl x y w h := by
  have he : ∀ x1 y1 : ℚ, Canvas.create cl x1 y1 w h = Canvas.new cl 0 0 1 1 := by
    intro x1 y1
    simp only [Canvas.create, if_pos hd]
  refine ⟨?_, ?_, ?_⟩
  · rw [he, new_unit_rect]
  · rw [he, new_commands]
  · intro x2 y2
    rw [he, he]

/-- Witness for C2 at the request `(3/2, -4, 0, -1)`. -/
theorem create_degenerate_unit_rect_witness :
    ((0 : ℚ) ≤ 0 ∨ (-1 : ℚ) ≤ 0) ∧
    (Canvas.create ⟨⟨0⟩, []⟩ (3/2) (-4) 0 (-1)).rect = ⟨0, 0, 1, 1⟩ :=
  ⟨Or.inl le_rfl,
    (create_degenerate_unit_rect ⟨⟨0⟩, []⟩ (3/2) (-4) 0 (-1) (Or.inl le_rfl)).1⟩

/-- C3, the claim as stated fails: for the request `(1, 0, 2^(-60), 1)`, four
`double` values with positive width and height, the `double` sum `x + w` is
`1`, so the factory computes `l = 1`, `r = 1` and the clip rectangle and the
scissor are `(1, 0, 0, 1)`: the width is `0`, not an integer that is at least
`1`. -/
theorem create_extent_zero_when_sum_rounds :
    (0 : ℚ) < 1 / 1152921504606846976 ∧ (0 : ℚ) < 1 ∧
    roundDouble (1 / 1152921504606846976) = 1 / 1152921504606846976 ∧
    (Canvas.create ⟨⟨0⟩, []⟩ 1 0 (1 / 1152921504606846976) 1).rect = ⟨1, 0, 0, 1⟩ ∧
    (Canvas.create ⟨⟨0⟩, []⟩ 1 0 (1 / 1152921504606846976) 1).cl.commands
      = [Command.setScissor 1 0 0 1] ∧
    ¬ ∃ W H : Int, 1 ≤ W ∧ 1 ≤ H ∧
      (Canvas.create ⟨⟨0⟩, []⟩ 1 0 (1 / 1152921504606846976) 1).rect.w = (W : ℚ) ∧
      (Canvas.create ⟨⟨0⟩, []⟩ 1 0 (1 / 1152921504606846976) 1).rect.h = (H : ℚ) := by
  have hd : roundDouble (1 / 1152921504606846976) = 1 / 1152921504606846976 := by
    have e : (1 / 1152921504606846976 : ℚ) = ((1 : Int) : ℚ) / 2 ^ 60 := by norm_num
    rw [e]
    exact roundDouble_dyadic 1 60 (by decide) (by decide) (by decide)
  have he := create_of_values ⟨⟨0⟩, []⟩ 1 0 (1 / 1152921504606846976) 1 _ _ _ _
    (by norm_num) (by norm_num) Int.floor_one Int.floor_zero
    ceil_roundDouble_one_add_tiny ceil_roundDouble_zero_add_one
  have t1 : toInt32 1 = 1 := by decide
  have t2 : toInt32 0 = 0 := by decide
  have t3 : toInt32 (1 - 1) = 0 := by decide
  have t4 : toInt32 (1 - 0) = 1 := by decide
  rw [t1, t2, t3, t4] at he
  have hrect : (Canvas.create ⟨⟨0⟩, []⟩ 1 0 (1 / 1152921504606846976) 1).rect
      = ⟨1, 0, 0, 1⟩ := by
    rw [he, new_rect, floatOfInt_of_small 0 (by decide) (by decide),
      floatOfInt_of_small 1 (by decide) (by decide)]
    norm_num
  refine ⟨by norm_num, by norm_num, hd, hrect, ?_, ?_⟩
  · rw [he, new_commands]
    rfl
  · rw [hrect]
    rintro ⟨W, H, hW, _, hw, _⟩
    have h0 : (W : ℚ) = 0 := hw.symm
    have : W = 0 := by exact_mod_cast h0
    omega

/-- C3 as amended: for a degenerate request (`w ≤ 0` or `h ≤ 0`), and for a
request with positive width and height whose sums `x + w` and `y + h` are exact
in `double` and whose edges and extents fit in the 32-bit `int`, the clip
rectangle has an integer width and an integer height, both at least 1, and so
has the scissor call recorded at construction. -/
theorem create_extent_at_least_one_exact_in_range (cl : CommandListRef) (x y w h : ℚ)
    (hreq : (w ≤ 0 ∨ h ≤ 0) ∨
      (roundDouble (x + w) = x + w ∧ roundDouble (y + h) = y + h ∧
        -2147483648 ≤ ⌊x⌋ ∧ ⌈x + w⌉ ≤ 2147483647 ∧ ⌈x + w⌉ - ⌊x⌋ ≤ 2147483647 ∧
        -2147483648 ≤ ⌊y⌋ ∧ ⌈y + h⌉ ≤ 2147483647 ∧ ⌈y + h⌉ - ⌊y⌋ ≤ 2147483647)) :
    (∃ W H : Int, 1 ≤ W ∧ 1 ≤ H ∧
      (Canvas.create cl x y w h).rect.w = (W : ℚ) ∧
      (Canvas.create cl x y w h).rect.h = (H : ℚ)) ∧
    (∃ l t W H : Int, 1 ≤ W ∧ 1 ≤ H ∧
      (Canvas.create cl x y w h).cl.commands
        = cl.commands ++ [Command.setScissor l t W H]) := by
  by_cases hd : w ≤ 0 ∨ h ≤ 0
  · have he : Canvas.create cl x y w h = Canvas.new cl 0 0 1 1 := by
      simp only [Canvas.create, if_pos hd]
    rw [he, new_unit_rect, new_commands]
    exact ⟨⟨1, 1, le_refl _, le_refl _, by norm_num, by norm_num⟩,
      ⟨0, 0, 1, 1, le_refl _, le_refl _, rfl⟩⟩
  · have hw : 0 < w := not_le.mp (fun hle => hd (Or.inl hle))
    have hh : 0 < h := not_le.mp (fun hle => hd (Or.inr hle))
    rcases hreq with hdeg | ⟨hsx, hsy, hl, hr, hW, ht, hb, hH⟩
    · exact absurd hdeg hd
    · have he := create_of_exact_in_range cl x y w h hw hh hsx hsy hl hr hW ht hb hH
      have hx := floor_lt_ceil_add x w hw (x + w) rfl
      have hy := floor_lt_ceil_add y h hh (y + h) rfl
      rw [he, new_rect, new_commands]
      exact ⟨⟨floatOfInt (⌈x + w⌉ - ⌊x⌋), floatOfInt (⌈y + h⌉ - ⌊y⌋),
          floatOfInt_pos _ (by omega), floatOfInt_pos _ (by omega), rfl, rfl⟩,
        ⟨⌊x⌋, ⌊y⌋, ⌈x + w⌉ - ⌊x⌋, ⌈y + h⌉ - ⌊y⌋, by omega, by omega, rfl⟩⟩

/-- Witness for C3 as amended at the request `(5/2, -3/4, 1/4, 2)`, which is
not degenerate: the sums are `11/4` and `5/4`. -/
theorem create_extent_at_least_one_exact_in_range_witness :
    (((1/4 : ℚ) ≤ 0 ∨ (2 : ℚ) ≤ 0) ∨
      (roundDouble ((5/2 : ℚ) + 1/4) = 5/2 + 1/4 ∧
        roundDouble ((-3/4 : ℚ) + 2) = -3/4 + 2 ∧
        -2147483648 ≤ ⌊(5/2 : ℚ)⌋ ∧ ⌈(5/2 : ℚ) + 1/4⌉ ≤ 2147483647 ∧
        ⌈(5/2 : ℚ) + 1/4⌉ - ⌊(5/2 : ℚ)⌋ ≤ 2147483647 ∧
        -2147483648 ≤ ⌊(-3/4 : ℚ)⌋ ∧ ⌈(-3/4 : ℚ) + 2⌉ ≤ 2147483647 ∧
        ⌈(-3/4 : ℚ) + 2⌉ - ⌊(-3/4 : ℚ)⌋ ≤ 2147483647)) ∧
    ∃ W H : Int, 1 ≤ W ∧ 1 ≤ H ∧
      (Canvas.create ⟨⟨0⟩, []⟩ (5/2) (-3/4) (1/4) 2).rect.w = (W : ℚ) ∧
      (Canvas.create ⟨⟨0⟩, []⟩ (5/2) (-3/4) (1/4) 2).rect.h = (H : ℚ) := by
  have f1 : ⌊(5/2 : ℚ)⌋ = 2 := by rw [Int.floor_eq_iff]; norm_num
  have f2 : ⌊(-3/4 : ℚ)⌋ = -1 := by rw [Int.floor_eq_iff]; norm_num
  have c1 : ⌈(5/2 : ℚ) + 1/4⌉ = 3 := by rw [Int.ceil_eq_iff]; norm_num
  have c2 : ⌈(-3/4 : ℚ) + 2⌉ = 2 := by rw [Int.ceil_eq_iff]; norm_num
  have s1 : roundDouble ((5/2 : ℚ) + 1/4) = 5/2 + 1/4 := by
    have e : ((5/2 : ℚ) + 1/4) = ((11 : Int) : ℚ) / 2 ^ 2 := by norm_num
    rw [e]
    exact roundDouble_dyadic 11 2 (by decide) (by decide) (by decide)
  have s2 : roundDouble ((-3/4 : ℚ) + 2) = -3/4 + 2 := by
    have e : ((-3/4 : ℚ) + 2) = ((5 : Int) : ℚ) / 2 ^ 2 := by norm_num
    rw [e]
    exact roundDouble_dyadic 5 2 (by decide) (by decide) (by decide)
  have hreq : ((1/4 : ℚ) ≤ 0 ∨ (2 : ℚ) ≤ 0) ∨
      (roundDouble ((5/2 : ℚ) + 1/4) = 5/2 + 1/4 ∧
        roundDouble ((-3/4 : ℚ) + 2) = -3/4 + 2 ∧
        -2147483648 ≤ ⌊(5/2 : ℚ)⌋ ∧ ⌈(5/2 : ℚ) + 1/4⌉ ≤ 2147483647 ∧
        ⌈(5/2 : ℚ) + 1/4⌉ - ⌊(5/2 : ℚ)⌋ ≤ 2147483647 ∧
        -2147483648 ≤ ⌊(-3/4 : ℚ)⌋ ∧ ⌈(-3/4 : ℚ) + 2⌉ ≤ 2147483647 ∧
        ⌈(-3/4 : ℚ) + 2⌉ - ⌊(-3/4 : ℚ)⌋ ≤ 2147483647) :=
    Or.inr ⟨s1, s2, by omega, by omega, by omega, by omega, by omega, by omega⟩
  exact ⟨hreq,
    (create_extent_at_least_one_exact_in_range ⟨⟨0⟩, []⟩ (5/2) (-3/4) (1/4) 2 hreq).1⟩

/-- C4, the claim as stated fails: for the request `(0, 1, 1, 2^(-60))`, four
`double` values with positive width and height, the `double` sum `y + h` is
`1`, so the clip rectangle is `(0, 1, 1, 0)`; its lower edge `t + H = 1` lies
above the lower edge `y + h = 1 + 2^(-60)` of the request, which it does not
cover. -/
theorem create_rect_misses_request_when_sum_rounds :
    (0 : ℚ) < 1 ∧ (0 : ℚ) < 1 / 1152921504606846976 ∧
    roundDouble (1 / 1152921504606846976) = 1 / 1152921504606846976 ∧
    (Canvas.create ⟨⟨0⟩, []⟩ 0 1 1 (1 / 1152921504606846976)).rect = ⟨0, 1, 1, 0⟩ ∧
    ¬ ((1 : ℚ) + 1 / 1152921504606846976
        ≤ (Canvas.create ⟨⟨0⟩, []⟩ 0 1 1 (1 / 1152921504606846976)).rect.y
          + (Canvas.create ⟨⟨0⟩, []⟩ 0 1 1 (1 / 1152921504606846976)).rect.h) := by
  have hd : roundDouble (1 / 1152921504606846976) = 1 / 1152921504606846976 := by
    have e : (1 / 1152921504606846976 : ℚ) = ((1 : Int) : ℚ) / 2 ^ 60 := by norm_num
    rw [e]
    exact roundDouble_dyadic 1 60 (by decide) (by decide) (by decide)
  have he := create_of_values ⟨⟨0⟩, []⟩ 0 1 1 (1 / 1152921504606846976) _ _ _ _
    (by norm_num) (by norm_num) Int.floor_zero Int.floor_one
    ceil_roundDouble_zero_add_one ceil_roundDouble_one_add_tiny
  have t1 : toInt32 1 = 1 := by decide
  have t2 : toInt32 0 = 0 := by decide
  have t3 : toInt32 (1 - 1) = 0 := by decide
  have t4 : toInt32 (1 - 0) = 1 := by decide
  rw [t1, t2, t3, t4] at he
  have hrect : (Canvas.create ⟨⟨0⟩, []⟩ 0 1 1 (1 / 1152921504606846976)).rect
      = ⟨0, 1, 1, 0⟩ := by
    rw [he, new_rect, floatOfInt_of_small 0 (by decide) (by decide),
      floatOfInt_of_small 1 (by decide) (by decide)]
    norm_num
  refine ⟨by norm_num, by norm_num, hd, hrect, ?_⟩
  rw [hrect]
  norm_num

/-- C4 as amended: for a request with positive width and height whose sums
`x + w` and `y + h` are exact in `double` and whose clip rectangle has its
edges within `[-2^24, 2^24]` and its extents at most `2^24` (so that every
integer fits in `int` and is exact as a `float`), the clip rectangle has
integer edges, covers the request, and lies inside every rectangle with integer
edges `l2, t2, r2, b2` that covers the request. -/
theorem create_smallest_integer_cover_exact_in_range (cl : CommandListRef) (x y w h : ℚ)
    (hw : 0 < w) (hh : 0 < h)
    (hsx : roundDouble (x + w) = x + w) (hsy : roundDouble (y + h) = y + h)
    (hl : -16777216 ≤ ⌊x⌋) (hr : ⌈x + w⌉ ≤ 16777216) (hW : ⌈x + w⌉ - ⌊x⌋ ≤ 16777216)
    (ht : -16777216 ≤ ⌊y⌋) (hb : ⌈y + h⌉ ≤ 16777216) (hH : ⌈y + h⌉ - ⌊y⌋ ≤ 16777216) :
    (∃ l t W H : Int, (Canvas.create cl x y w h).rect = ⟨(l : ℚ), (t : ℚ), (W : ℚ), (H : ℚ)⟩) ∧
    (Canvas.create cl x y w h).rect.x ≤ x ∧
    (Canvas.create cl x y w h).rect.y ≤ y ∧
    x + w ≤ (Canvas.create cl x y w h).rect.x + (Canvas.create cl x y w h).rect.w ∧
    y + h ≤ (Canvas.create cl x y w h).rect.y + (Canvas.create cl x y w h).rect.h ∧
    ∀ l2 t2 r2 b2 : Int, (l2 : ℚ) ≤ x → (t2 : ℚ) ≤ y → x + w ≤ (r2 : ℚ) → y + h ≤ (b2 : ℚ) →
      (l2 : ℚ) ≤ (Canvas.create cl x y w h).rect.x ∧
      (t2 : ℚ) ≤ (Canvas.create cl x y w h).rect.y ∧
      (Canvas.create cl x y w h).rect.x + (Canvas.create cl x y w h).rect.w ≤ (r2 : ℚ) ∧
      (Canvas.create cl x y w h).rect.y + (Canvas.create cl x y w h).rect.h ≤ (b2 : ℚ) := by
  have hx := floor_lt_ceil_add x w hw (x + w) rfl
  have hy := floor_lt_ceil_add y h hh (y + h) rfl
  have he := create_of_exact_in_range cl x y w h hw hh hsx hsy (by omega) (by omega)
    (by omega) (by omega) (by omega) (by omega)
  have hrect : (Canvas.create cl x y w h).rect
      = ⟨((⌊x⌋ : Int) : ℚ), ((⌊y⌋ : Int) : ℚ), ((⌈x + w⌉ - ⌊x⌋ : Int) : ℚ),
          ((⌈y + h⌉ - ⌊y⌋ : Int) : ℚ)⟩ := by
    rw [he, new_rect, floatOfInt_of_small _ hl (by omega), floatOfInt_of_small _ ht (by omega),
      floatOfInt_of_small _ (by omega) hW, floatOfInt_of_small _ (by omega) hH]
  rw [hrect]
  refine ⟨⟨_, _, _, _, rfl⟩, Int.floor_le x, Int.floor_le y, ?_, ?_, ?_⟩
  · show x + w ≤ ((⌊x⌋ : Int) : ℚ) + ((⌈x + w⌉ - ⌊x⌋ : Int) : ℚ)
    push_cast
    have := Int.le_ceil (x + w)
    linarith
  · show y + h ≤ ((⌊y⌋ : Int) : ℚ) + ((⌈y + h⌉ - ⌊y⌋ : Int) : ℚ)
    push_cast
    have := Int.le_ceil (y + h)
    linarith
  · intro l2 t2 r2 b2 hl2 ht2 hr2 hb2
    have e1 : l2 ≤ ⌊x⌋ := Int.le_floor.mpr hl2
    have e2 : t2 ≤ ⌊y⌋ := Int.le_floor.mpr ht2
    have e3 : ⌈x + w⌉ ≤ r2 := Int.ceil_le.mpr hr2
    have e4 : ⌈y + h⌉ ≤ b2 := Int.ceil_le.mpr hb2
    refine ⟨?_, ?_, ?_, ?_⟩
    · show (l2 : ℚ) ≤ ((⌊x⌋ : Int) : ℚ)
      exact_mod_cast e1
    · show (t2 : ℚ) ≤ ((⌊y⌋ : Int) : ℚ)
      exact_mod_cast e2
    · show ((⌊x⌋ : Int) : ℚ) + ((⌈x + w⌉ - ⌊x⌋ : Int) : ℚ) ≤ (r2 : ℚ)
      push_cast
      have : ((⌈x + w⌉ : Int) : ℚ) ≤ (r2 : ℚ) := by exact_mod_cast e3
      linarith
    · show ((⌊y⌋ : Int) : ℚ) + ((⌈y + h⌉ - ⌊y⌋ : Int) : ℚ) ≤ (b2 : ℚ)
      push_cast
      have : ((⌈y + h⌉ : Int) : ℚ) ≤ (b2 : ℚ) := by exact_mod_cast e4
      linarith

/-- Witness for C4 as amended at the request `(3/2, 1/2, 9/4, 1)`: the sums are
`15/4` and `3/2`, the clip rectangle is `(1, 0, 3, 2)`. -/
theorem create_smallest_integer_cover_exact_in_range_witness :
    (0 : ℚ) < 9/4 ∧ (0 : ℚ) < 1 ∧
    roundDouble ((3/2 : ℚ) + 9/4) = 3/2 + 9/4 ∧
    roundDouble ((1/2 : ℚ) + 1) = 1/2 + 1 ∧
    -16777216 ≤ ⌊(3/2 : ℚ)⌋ ∧ ⌈(3/2 : ℚ) + 9/4⌉ ≤ 16777216 ∧
    ⌈(3/2 : ℚ) + 9/4⌉ - ⌊(3/2 : ℚ)⌋ ≤ 16777216 ∧
    -16777216 ≤ ⌊(1/2 : ℚ)⌋ ∧ ⌈(1/2 : ℚ) + 1⌉ ≤ 16777216 ∧
    ⌈(1/2 : ℚ) + 1⌉ - ⌊(1/2 : ℚ)⌋ ≤ 16777216 ∧
    (3/2 : ℚ) + 9/4 ≤ (Canvas.create ⟨⟨0⟩, []⟩ (3/2) (1/2) (9/4) 1).rect.x
      + (Canvas.create ⟨⟨0⟩, []⟩ (3/2) (1/2) (9/4) 1).rect.w := by
  have f1 : ⌊(3/2 : ℚ)⌋ = 1 := by rw [Int.floor_eq_iff]; norm_num
  have f2 : ⌊(1/2 : ℚ)⌋ = 0 := by rw [Int.floor_eq_iff]; norm_num
  have c1 : ⌈(3/2 : ℚ) + 9/4⌉ = 4 := by rw [Int.ceil_eq_iff]; norm_num
  have c2 : ⌈(1/2 : ℚ) + 1⌉ = 2 := by rw [Int.ceil_eq_iff]; norm_num
  have s1 : roundDouble ((3/2 : ℚ) + 9/4) = 3/2 + 9/4 := by
    have e : ((3/2 : ℚ) + 9/4) = ((15 : Int) : ℚ) / 2 ^ 2 := by norm_num
    rw [e]
    exact roundDouble_dyadic 15 2 (by decide) (by decide) (by decide)
  have s2 : roundDouble ((1/2 : ℚ) + 1) = 1/2 + 1 := by
    have e : ((1/2 : ℚ) + 1) = ((3 : Int) : ℚ) / 2 ^ 1 := by norm_num
    rw [e]
    exact roundDouble_dyadic 3 1 (by decide) (by decide) (by decide)
  exact ⟨by norm_num, by norm_num, s1, s2, by omega, by omega, by omega, by omega, by omega,
    by omega,
    (create_smallest_integer_cover_exact_in_range ⟨⟨0⟩, []⟩ (3/2) (1/2) (9/4) 1 (by norm_num)
      (by norm_num) s1 s2 (by omega) (by omega) (by omega) (by omega) (by omega)
      (by omega)).2.2.2.1⟩

/-! ## Theorems: the canvas hierarchy -/

theorem topAncestor_of_rooted {heap : Heap} (hr : heap.Rooted) :
    ∀ i, i < heap.length → ∀ fuel, i < fuel → Canvas.topAncestor heap fuel i = some 0 := by
  intro i
  induction i using Nat.strong_induction_on with
  | _ i ih =>
    intro hi fuel hf
    obtain ⟨fuel, rfl⟩ : ∃ k, fuel = k + 1 := ⟨fuel - 1, by omega⟩
    obtain ⟨c, hc⟩ : ∃ c, heap[i]? = some c := by
      rw [List.getElem?_eq_getElem hi]; exact ⟨_, rfl⟩
    rcases Nat.eq_zero_or_pos i with h0 | hpos
    · subst h0
      obtain ⟨r, hr0, hrp⟩ := hr.1
      simp [Canvas.topAncestor, hr0, hrp]
    · obtain ⟨_, p, hp, hcp⟩ := hr.2 i c hpos hc
      simp only [Canvas.topAncestor, hc, hcp]
      exact ih p hp (by omega) fuel (by omega)

theorem rooted_create (cl : CommandListRef) (x y w h : ℚ) :
    Heap.Rooted [Canvas.create cl x y w h] := by
  refine ⟨⟨_, rfl, ?_⟩, ?_⟩
  · unfold Canvas.create
    split <;> rfl
  · intro i c hi hc
    obtain ⟨k, rfl⟩ : ∃ k, i = k + 1 := ⟨i - 1, by omega⟩
    simp at hc

theorem create_parent_none (cl : CommandListRef) (x y w h : ℚ) :
    (Canvas.create cl x y w h).parent = none ∧ (Canvas.create cl x y w h).child_ = [] := by
  unfold Canvas.create
  split <;> exact ⟨rfl, rfl⟩

theorem length_emplaceChild (heap : Heap) (i : Nat) (handle : CommandListHandle) :
    (heap.emplaceChild i handle).length = heap.length := by
  unfold Heap.emplaceChild
  split <;> simp

theorem getElem?_emplaceChild_ne (heap : Heap) {i j : Nat} (hne : j ≠ i)
    (handle : CommandListHandle) : (heap.emplaceChild i handle)[j]? = heap[j]? := by
  unfold Heap.emplaceChild
  split
  · rfl
  · exact List.getElem?_set_ne (Ne.symm hne)

theorem getElem?_emplaceChild_self (heap : Heap) (i : Nat) (handle : CommandListHandle) :
    (heap.emplaceChild i handle)[i]?
      = (heap[i]?).map (fun c => { c with child_ := c.child_ ++ [handle] }) := by
  unfold Heap.emplaceChild
  split
  · rename_i hnone
    simp [hnone]
  · rename_i c hc
    have hi : i < heap.length := by
      by_contra hcon
      rw [List.getElem?_eq_none (by omega)] at hc
      cases hc
    rw [List.getElem?_set, if_pos rfl, if_pos hi, hc]
    rfl

theorem createChild_of_rooted {isValid : CommandListHandle → Bool} {heap : Heap}
    (hr : heap.Rooted) {par : Nat} (hp : par < heap.length)
    {handle : CommandListHandle} (hv : isValid handle = true) (x y w h : ℚ) :
    Canvas.createChild isValid heap (some par) handle x y w h
      = some (heap.emplaceChild 0 handle
                ++ [{ Canvas.create ⟨handle, []⟩ x y w h with parent := some par }],
              heap.length) := by
  obtain ⟨c, hc⟩ : ∃ c, heap[par]? = some c := by
    rw [List.getElem?_eq_getElem hp]; exact ⟨_, rfl⟩
  simp [Canvas.createChild, hc, hv, topAncestor_of_rooted hr par hp heap.length hp]

theorem rooted_createChild {heap : Heap} (hr : heap.Rooted) {par : Nat}
    (hp : par < heap.length) (handle : CommandListHandle) (res : Canvas)
    (hres : res.child_ = []) :
    Heap.Rooted (heap.emplaceChild 0 handle ++ [{ res with parent := some par }]) := by
  obtain ⟨⟨r, hr0, hrp⟩, hrest⟩ := hr
  have hlen := length_emplaceChild heap 0 handle
  have hpos : 0 < heap.length := by
    by_contra hcon
    rw [List.getElem?_eq_none (by omega)] at hr0
    cases hr0
  refine ⟨⟨{ r with child_ := r.child_ ++ [handle] }, ?_, hrp⟩, ?_⟩
  · rw [List.getElem?_append_left (by omega), getElem?_emplaceChild_self, hr0]
    rfl
  · intro i c hi hc
    by_cases hlt : i < heap.length
    · rw [List.getElem?_append_left (by omega), getElem?_emplaceChild_ne heap (by omega)] at hc
      exact hrest i c hi hc
    · rw [List.getElem?_append_right (by omega), hlen] at hc
      by_cases heq : i = heap.length
      · subst heq
        simp at hc
        subst hc
        exact ⟨hres, par, hp, rfl⟩
      · have : i - heap.length = (i - heap.length - 1) + 1 := by omega
        rw [this] at hc
        simp at hc

theorem runCreates_of_rooted (isValid : CommandListHandle → Bool) :
    ∀ (calls : List CreateCall) (heap : Heap), heap.Rooted →
      createsOk isValid heap.length calls = true →
      ∃ heap2, runCreates isValid heap calls = some heap2 ∧ heap2.Rooted ∧
        heap2.length = heap.length + calls.length ∧
        (heap2[0]?).map Canvas.child
          = (heap[0]?).map (fun r => r.child ++ calls.map CreateCall.handle) := by
  intro calls
  induction calls with
  | nil =>
    intro heap hr _
    refine ⟨heap, rfl, hr, rfl, ?_⟩
    cases heap[0]? <;> simp [Canvas.child]
  | cons c cs ih =>
    intro heap hr hok
    simp only [createsOk, Bool.and_eq_true, decide_eq_true_eq] at hok
    obtain ⟨⟨hp, hv⟩, hcs⟩ := hok
    have hstep := createChild_of_rooted hr hp hv c.x c.y c.width c.height
    have hroot2 := rooted_createChild hr hp c.handle
      (Canvas.create ⟨c.handle, []⟩ c.x c.y c.width c.height) (create_parent_none _ _ _ _ _).2
    have hlen2 : (heap.emplaceChild 0 c.handle
        ++ [{ Canvas.create ⟨c.handle, []⟩ c.x c.y c.width c.height with
                parent := some c.parent }]).length = heap.length + 1 := by
      simp [length_emplaceChild]
    obtain ⟨heap3, hrun, hr3, hlen3, hchild3⟩ := ih _ hroot2 (by rw [hlen2]; exact hcs)
    refine ⟨heap3, ?_, hr3, ?_, ?_⟩
    · simp only [runCreates, hstep]
      exact hrun
    · rw [hlen3, hlen2, List.length_cons]; omega
    · have hpos : 0 < heap.length := Nat.lt_of_le_of_lt (Nat.zero_le _) hp
      rw [hchild3, List.getElem?_append_left (by rw [length_emplaceChild]; exact hpos),
        getElem?_emplaceChild_self]
      cases heap[0]? <;> simp [Canvas.child]

/-- C5: in the hierarchy built from a root canvas by any sequence of
`Canvas::create(parent, ...)` calls with valid handles, the calls all return,
the root holds the handles of all calls in creation order and every other
canvas holds none; and one more call walks from its parent to the canvas
without parent, appends its handle at the end of that canvas's list and leaves
every other list as it was. -/
theorem create_child_appends_to_top_ancestor (isValid : CommandListHandle → Bool)
    (cl : CommandListRef) (x y w h : ℚ) (calls : List CreateCall)
    (hok : createsOk isValid 1 calls = true) :
    ∃ heap, runCreates isValid [Canvas.create cl x y w h] calls = some heap ∧
      heap.length = calls.length + 1 ∧
      (heap[0]?).map Canvas.child = some (calls.map CreateCall.handle) ∧
      (∀ i c, 0 < i → heap[i]? = some c → c.child = []) ∧
      ∀ (par : Nat) (handle : CommandListHandle) (x2 y2 w2 h2 : ℚ),
        par < heap.length → isValid handle = true →
        ∃ (top : Nat) (heap2 : Heap), Canvas.topAncestor heap heap.length par = some top ∧
          (heap[top]?).map Canvas.parent = some none ∧
          Canvas.createChild isValid heap (some par) handle x2 y2 w2 h2
            = some (heap2, heap.length) ∧
          heap2.length = heap.length + 1 ∧
          (heap2[top]?).map Canvas.child = (heap[top]?).map (fun t => t.child ++ [handle]) ∧
          (∀ j : Nat, j ≠ top → j < heap.length →
            (heap2[j]?).map Canvas.child = (heap[j]?).map Canvas.child) ∧
          (heap2[heap.length]?).map Canvas.parent = some (some par) ∧
          (heap2[heap.length]?).map Canvas.child = some [] := by
  obtain ⟨heap, hrun, hr, hlen, hchild⟩ :=
    runCreates_of_rooted isValid calls [Canvas.create cl x y w h] (rooted_create cl x y w h) hok
  refine ⟨heap, hrun, ?_, ?_, ?_, ?_⟩
  · rw [hlen, List.length_singleton]; omega
  · rw [hchild]
    simp [Canvas.child, (create_parent_none cl x y w h).2]
  · intro i c hi hc
    exact (hr.2 i c hi hc).1
  · intro par handle x2 y2 w2 h2 hp hv
    obtain ⟨r, hr0, hrp⟩ := hr.1
    have hpos : 0 < heap.length := Nat.lt_of_le_of_lt (Nat.zero_le _) hp
    have hlen2 := length_emplaceChild heap 0 handle
    refine ⟨0, _, topAncestor_of_rooted hr par hp heap.length hp, ?_,
      createChild_of_rooted hr hp hv x2 y2 w2 h2, ?_, ?_, ?_, ?_, ?_⟩
    · rw [hr0]; simp [hrp]
    · simp [hlen2]
    · rw [List.getElem?_append_left (by omega), getElem?_emplaceChild_self]
      cases heap[0]? <;> simp [Canvas.child]
    · intro j hj hjlt
      rw [List.getElem?_append_left (by omega), getElem?_emplaceChild_ne heap hj]
    · rw [List.getElem?_append_right (by omega), hlen2]
      simp
    · rw [List.getElem?_append_right (by omega), hlen2]
      simp [Canvas.child, (create_parent_none _ x2 y2 w2 h2).2]

/-- Witness for C5: a root, a child of the root and a grandchild. -/
theorem create_child_appends_to_top_ancestor_witness :
    createsOk (fun _ => true) 1 [⟨0, ⟨7⟩, 0, 0, 4, 4⟩, ⟨1, ⟨9⟩, 1, 1, 2, 2⟩] = true ∧
    ∃ heap, runCreates (fun _ => true) [Canvas.create ⟨⟨0⟩, []⟩ 0 0 8 8]
        [⟨0, ⟨7⟩, 0, 0, 4, 4⟩, ⟨1, ⟨9⟩, 1, 1, 2, 2⟩] = some heap ∧
      (heap[0]?).map Canvas.child = some [⟨7⟩, ⟨9⟩] :=
  ⟨rfl,
    (create_child_appends_to_top_ancestor (fun _ => true) ⟨⟨0⟩, []⟩ 0 0 8 8
      [⟨0, ⟨7⟩, 0, 0, 4, 4⟩, ⟨1, ⟨9⟩, 1, 1, 2, 2⟩] rfl).imp
      (fun _ hh => ⟨hh.1, hh.2.2.1⟩)⟩

/-! ## Theorems: the pixel loops of `Bitmap` -/

theorem loopAt_outside {len step : Int} {op : Int → Mem → Mem} (hop : LocalOn len op) :
    ∀ (n : Nat) (p : Int) (mem : Mem) (q : Int),
      (∀ k : Nat, k < n → q < p + k * step ∨ p + k * step + len ≤ q) →
      loopAt step op n p mem q = mem q := by
  intro n
  induction n with
  | zero => intro p mem q _; rfl
  | succ n ih =>
    intro p mem q hq
    simp only [loopAt]
    rw [ih (p + step) (op p mem) q]
    · apply hop.1
      have h0 := hq 0 (Nat.succ_pos n)
      simpa using h0
    · intro k hk
      have h1 := hq (k + 1) (Nat.succ_lt_succ hk)
      have e : ((k + 1 : Nat) : Int) * step = step + k * step := by push_cast; ring
      rw [e] at h1
      omega

theorem loopAt_inside {len step : Int} {op : Int → Mem → Mem} (hop : LocalOn len op)
    (hls : len ≤ step) :
    ∀ (n : Nat) (p : Int) (mem : Mem) (k : Nat) (q : Int), k < n →
      p + k * step ≤ q → q < p + k * step + len →
      loopAt step op n p mem q = op (p + k * step) mem q := by
  intro n
  induction n with
  | zero => intro p mem k q hk; exact absurd hk (Nat.not_lt_zero k)
  | succ n ih =>
    intro p mem k q hk hlo hhi
    have hstep : 0 < step := by omega
    simp only [loopAt]
    cases k with
    | zero =>
      simp only [Nat.cast_zero, zero_mul, add_zero] at hlo hhi ⊢
      rw [loopAt_outside hop n (p + step) (op p mem) q]
      intro j _
      have : (0 : Int) ≤ j * step := mul_nonneg (Int.ofNat_nonneg j) (le_of_lt hstep)
      omega
    | succ k =>
      have e : ((k + 1 : Nat) : Int) * step = step + k * step := by push_cast; ring
      rw [e] at hlo hhi ⊢
      have hk0 : (0 : Int) ≤ k * step := mul_nonneg (Int.ofNat_nonneg k) (le_of_lt hstep)
      have e2 : p + (step + k * step) = p + step + k * step := by ring
      rw [e2] at hlo hhi ⊢
      rw [ih (p + step) (op p mem) k q (Nat.lt_of_succ_lt_succ hk) hlo hhi]
      apply hop.2 _ _ _ _ q hlo hhi
      intro q2 h1 h2
      apply hop.1
      omega

theorem loopAt_local {len step : Int} {op : Int → Mem → Mem} (hop : LocalOn len op)
    (hl0 : 0 ≤ len) (hls : len ≤ step) (n : Nat) :
    LocalOn (n * step) (fun p mem => loopAt step op n p mem) := by
  have hstep : 0 ≤ step := le_trans hl0 hls
  constructor
  · intro p mem q hq
    apply loopAt_outside hop
    intro k hk
    have h1 : (0 : Int) ≤ k * step := mul_nonneg (Int.ofNat_nonneg k) hstep
    have h2 : ((k : Int) + 1) * step ≤ n * step :=
      mul_le_mul_of_nonneg_right (by exact_mod_cast hk) hstep
    have e : ((k : Int) + 1) * step = k * step + step := by ring
    rw [e] at h2
    omega
  · induction n with
    | zero =>
      intro p mem mem2 _ q h1 h2
      simp at h2
      omega
    | succ n ih =>
      intro p mem mem2 hagree q h1 h2
      have e : ((n + 1 : Nat) : Int) * step = step + n * step := by push_cast; ring
      rw [e] at h2 hagree
      have hn0 : (0 : Int) ≤ n * step := mul_nonneg (Int.ofNat_nonneg n) hstep
      simp only [loopAt]
      by_cases hq : q < p + step
      · have hout : ∀ m : Mem, loopAt step op n (p + step) m q = m q := by
          intro m
          apply loopAt_outside hop
          intro k _
          have : (0 : Int) ≤ k * step := mul_nonneg (Int.ofNat_nonneg k) hstep
          omega
        rw [hout, hout]
        by_cases hq2 : q < p + len
        · apply hop.2 p mem mem2 _ q h1 hq2
          intro q2 h3 h4
          exact hagree q2 h3 (by omega)
        · rw [hop.1 p mem q (by omega), hop.1 p mem2 q (by omega)]
          exact hagree q h1 (by omega)
      · apply ih (p + step) (op p mem) (op p mem2) _ q (by omega) (by omega)
        intro q2 h3 h4
        by_cases hq2 : q2 < p + len
        · apply hop.2 p mem mem2 _ q2 (by omega) hq2
          intro q3 h5 h6
          exact hagree q3 h5 (by omega)
        · rw [hop.1 p mem q2 (by omega), hop.1 p mem2 q2 (by omega)]
          exact hagree q2 (by omega) (by omega)

theorem store_apply (mem : Mem) (addr : Int) (v : Byte) (q : Int) :
    mem.store addr v q = if q = addr then v else mem q := rfl

theorem clearPixel_local (pb pg pr a : Nat) : LocalOn 4 (Bitmap.clearPixel pb pg pr a) := by
  constructor
  · intro p mem q hq
    simp only [Bitmap.clearPixel, store_apply]
    repeat rw [if_neg (by omega)]
  · intro p mem mem2 _ q h1 h2
    simp only [Bitmap.clearPixel, store_apply]
    have : q = p + 0 ∨ q = p + 1 ∨ q = p + 2 ∨ q = p + 3 := by omega
    rcases this with h | h | h | h <;> subst h <;> simp

theorem clearRow_eq_loopAt (pb pg pr a : Nat) :
    ∀ (n : Nat) (data : Int) (mem : Mem),
      Bitmap.clearRow pb pg pr a n data mem
        = loopAt 4 (Bitmap.clearPixel pb pg pr a) n data mem := by
  intro n
  induction n with
  | zero => intro data mem; rfl
  | succ n ih => intro data mem; simp only [Bitmap.clearRow, loopAt, ih]

theorem clearRows_eq_loopAt (pb pg pr a width stride : Nat) :
    ∀ (n : Nat) (rowData : Int) (mem : Mem),
      Bitmap.clearRows pb pg pr a width stride n rowData mem
        = loopAt stride (fun p m => loopAt 4 (Bitmap.clearPixel pb pg pr a) width p m)
            n rowData mem := by
  intro n
  induction n with
  | zero => intro rowData mem; rfl
  | succ n ih =>
    intro rowData mem
    simp only [Bitmap.clearRows, loopAt, ih, clearRow_eq_loopAt]

theorem rows_pixel {op : Int → Mem → Mem} (hop : LocalOn 4 op) {W S : Nat}
    (hS : 4 * W ≤ S) (H : Nat) (mem : Mem) (x y : Nat) (hx : x < W) (hy : y < H)
    (j : Int) (hj0 : 0 ≤ j) (hj4 : j < 4) :
    loopAt S (fun p m => loopAt 4 op W p m) H 0 mem (((y * S + 4 * x : Nat) : Int) + j)
      = op ((y * S + 4 * x : Nat) : Int) mem (((y * S + 4 * x : Nat) : Int) + j) := by
  have hrow : LocalOn ((W : Int) * 4) (fun p m => loopAt 4 op W p m) :=
    loopAt_local hop (by norm_num) (le_refl 4) W
  have hSi : (W : Int) * 4 ≤ (S : Int) := by exact_mod_cast (by omega : W * 4 ≤ S)
  have hxi : (x : Int) < (W : Int) := by exact_mod_cast hx
  have ecast : ((y * S + 4 * x : Nat) : Int) = (0 : Int) + (y : Int) * (S : Int) + (x : Int) * 4 := by
    push_cast; ring
  rw [ecast]
  rw [loopAt_inside hrow hSi H 0 mem y _ hy (by omega) (by omega)]
  rw [loopAt_inside hop (le_refl 4) W (0 + (y : Int) * (S : Int)) mem x _ hx (by omega) (by omega)]

theorem clearPixel_bytes (pb pg pr a : Nat) (p : Int) (mem : Mem) :
    Bitmap.clearPixel pb pg pr a p mem (p + 0) = toByte pb ∧
    Bitmap.clearPixel pb pg pr a p mem (p + 1) = toByte pg ∧
    Bitmap.clearPixel pb pg pr a p mem (p + 2) = toByte pr ∧
    Bitmap.clearPixel pb pg pr a p mem (p + 3) = toByte a := by
  simp [Bitmap.clearPixel, store_apply]

theorem data_withData (bm : Bitmap) (mem : Mem) (hw : 0 < bm.height) :
    (bm.withData mem).data = mem := by
  cases bm with
  | mk m_impl =>
    cases m_impl with
    | none => simp [Bitmap.height] at hw
    | some impl => rfl

theorem color_channels (R G B A : Nat) (hR : R < 256) (hG : G < 256) (hB : B < 256)
    (hA : A < 256) :
    ((R * 2 ^ 24 + G * 2 ^ 16 + B * 2 ^ 8 + A) >>> 24) &&& 0xFF = R ∧
    ((R * 2 ^ 24 + G * 2 ^ 16 + B * 2 ^ 8 + A) >>> 16) &&& 0xFF = G ∧
    ((R * 2 ^ 24 + G * 2 ^ 16 + B * 2 ^ 8 + A) >>> 8) &&& 0xFF = B ∧
    ((R * 2 ^ 24 + G * 2 ^ 16 + B * 2 ^ 8 + A) >>> 0) &&& 0xFF = A := by
  have h255 : (0xFF : Nat) = 2 ^ 8 - 1 := by norm_num
  rw [h255]
  simp only [Nat.and_pow_two_sub_one_eq_mod, Nat.shiftRight_eq_div_pow]
  refine ⟨?_, ?_, ?_, ?_⟩ <;> omega

theorem premul_lt (c a : Nat) (hc : c < 256) (ha : a < 256) : c * a / 255 < 256 := by
  have h1 : c * a ≤ 255 * 255 := Nat.mul_le_mul (by omega) (by omega)
  omega

theorem clear_pixel_quad (bm : Bitmap) (R G B A : Nat)
    (hR : R < 256) (hG : G < 256) (hB : B < 256) (hA : A < 256)
    (hS : 4 * bm.width ≤ bm.stride) (x y : Nat) (hx : x < bm.width) (hy : y < bm.height) :
    (bm.clear (R * 2 ^ 24 + G * 2 ^ 16 + B * 2 ^ 8 + A)).byteAt
        (((y * bm.stride + 4 * x : Nat) : Int) + 0) = B * A / 255 ∧
    (bm.clear (R * 2 ^ 24 + G * 2 ^ 16 + B * 2 ^ 8 + A)).byteAt
        (((y * bm.stride + 4 * x : Nat) : Int) + 1) = G * A / 255 ∧
    (bm.clear (R * 2 ^ 24 + G * 2 ^ 16 + B * 2 ^ 8 + A)).byteAt
        (((y * bm.stride + 4 * x : Nat) : Int) + 2) = R * A / 255 ∧
    (bm.clear (R * 2 ^ 24 + G * 2 ^ 16 + B * 2 ^ 8 + A)).byteAt
        (((y * bm.stride + 4 * x : Nat) : Int) + 3) = A := by
  obtain ⟨e1, e2, e3, e4⟩ := color_channels R G B A hR hG hB hA
  have hpos : 0 < bm.height := Nat.lt_of_le_of_lt (Nat.zero_le _) hy
  have hbytes := clearPixel_bytes (B * A / 255) (G * A / 255) (R * A / 255) A
    ((y * bm.stride + 4 * x : Nat) : Int) bm.data
  have hmod : ∀ v : Nat, v < 256 → (toByte v).val = v := by
    intro v hv
    simp [toByte, Nat.mod_eq_of_lt hv]
  simp only [Bitmap.clear, Bitmap.byteAt, e1, e2, e3, e4, data_withData _ _ hpos,
    clearRows_eq_loopAt]
  refine ⟨?_, ?_, ?_, ?_⟩
  · rw [rows_pixel (clearPixel_local _ _ _ _) hS _ _ x y hx hy 0 (by norm_num) (by norm_num),
      hbytes.1, hmod _ (premul_lt B A hB hA)]
  · rw [rows_pixel (clearPixel_local _ _ _ _) hS _ _ x y hx hy 1 (by norm_num) (by norm_num),
      hbytes.2.1, hmod _ (premul_lt G A hG hA)]
  · rw [rows_pixel (clearPixel_local _ _ _ _) hS _ _ x y hx hy 2 (by norm_num) (by norm_num),
      hbytes.2.2.1, hmod _ (premul_lt R A hR hA)]
  · rw [rows_pixel (clearPixel_local _ _ _ _) hS _ _ x y hx hy 3 (by norm_num) (by norm_num),
      hbytes.2.2.2, hmod _ hA]

/-- C6: after `Bitmap::clear` of the packed colour `0xRRGGBBAA` on a bitmap
whose stride is at least four times its width, every pixel `(x, y)` inside the
bitmap holds at byte offset `y * stride + 4 * x` the bytes
`(B*A/255, G*A/255, R*A/255, A)`; for `clear(0xFF000080)` they are
`(0, 0, 128, 128)`. -/
theorem clear_writes_premultiplied_bgra (bm : Bitmap) (R G B A : Nat)
    (hR : R < 256) (hG : G < 256) (hB : B < 256) (hA : A < 256)
    (hS : 4 * bm.width ≤ bm.stride) (x y : Nat) (hx : x < bm.width) (hy : y < bm.height) :
    ((bm.clear (R * 2 ^ 24 + G * 2 ^ 16 + B * 2 ^ 8 + A)).byteAt
        (((y * bm.stride + 4 * x : Nat) : Int) + 0) = B * A / 255 ∧
     (bm.clear (R * 2 ^ 24 + G * 2 ^ 16 + B * 2 ^ 8 + A)).byteAt
        (((y * bm.stride + 4 * x : Nat) : Int) + 1) = G * A / 255 ∧
     (bm.clear (R * 2 ^ 24 + G * 2 ^ 16 + B * 2 ^ 8 + A)).byteAt
        (((y * bm.stride + 4 * x : Nat) : Int) + 2) = R * A / 255 ∧
     (bm.clear (R * 2 ^ 24 + G * 2 ^ 16 + B * 2 ^ 8 + A)).byteAt
        (((y * bm.stride + 4 * x : Nat) : Int) + 3) = A) ∧
    ((bm.clear 0xFF000080).byteAt (((y * bm.stride + 4 * x : Nat) : Int) + 0) = 0 ∧
     (bm.clear 0xFF000080).byteAt (((y * bm.stride + 4 * x : Nat) : Int) + 1) = 0 ∧
     (bm.clear 0xFF000080).byteAt (((y * bm.stride + 4 * x : Nat) : Int) + 2) = 128 ∧
     (bm.clear 0xFF000080).byteAt (((y * bm.stride + 4 * x : Nat) : Int) + 3) = 128) := by
  refine ⟨clear_pixel_quad bm R G B A hR hG hB hA hS x y hx hy, ?_⟩
  have h := clear_pixel_quad bm 255 0 0 128 (by decide) (by decide) (by decide) (by decide)
    hS x y hx hy
  have hc : (255 * 2 ^ 24 + 0 * 2 ^ 16 + 0 * 2 ^ 8 + 128 : Nat) = 0xFF000080 := by norm_num
  rw [hc] at h
  exact h

/-- Witness for C6: a 2 x 2 bitmap with stride 12, pixel `(1, 1)`. -/
theorem clear_writes_premultiplied_bgra_witness :
    (4 * (Bitmap.mk (some ⟨fun _ => 7, 2, 2, 12⟩)).width
        ≤ (Bitmap.mk (some ⟨fun _ => 7, 2, 2, 12⟩)).stride) ∧
    ((Bitmap.mk (some ⟨fun _ => 7, 2, 2, 12⟩)).clear (10 * 2 ^ 24 + 20 * 2 ^ 16 + 30 * 2 ^ 8 + 40)).byteAt
        (((1 * (Bitmap.mk (some ⟨fun _ => 7, 2, 2, 12⟩)).stride + 4 * 1 : Nat) : Int) + 2)
      = 10 * 40 / 255 :=
  ⟨by decide,
    (clear_writes_premultiplied_bgra (Bitmap.mk (some ⟨fun _ => 7, 2, 2, 12⟩)) 10 20 30 40
      (by decide) (by decide) (by decide) (by decide) (by decide) 1 1
      (by decide) (by decide)).1.2.2.1⟩

theorem convertPixel_eq (ri gi bi ai : Int) (unpremultiply : Bool) (data : Int) (mem : Mem) :
    Bitmap.convertPixel ri gi bi ai unpremultiply data mem
      = some (convertPixelFn ri gi bi ai unpremultiply data mem) := by
  by_cases hc : (unpremultiply && mem (data + 3) != 0) = true
  · have ha : (mem (data + 3)).val ≠ 0 := by
      intro h0
      have : mem (data + 3) = 0 := Fin.ext h0
      simp [this] at hc
    simp [Bitmap.convertPixel, convertPixelFn, unpremul, hc, idiv, ha]
  · simp [Bitmap.convertPixel, convertPixelFn, unpremul, hc]

theorem convertRow_eq_loopAt (ri gi bi ai : Int) (unpremultiply : Bool) :
    ∀ (n : Nat) (data : Int) (mem : Mem),
      Bitmap.convertRow ri gi bi ai unpremultiply n data mem
        = some (loopAt 4 (convertPixelFn ri gi bi ai unpremultiply) n data mem) := by
  intro n
  induction n with
  | zero => intro data mem; rfl
  | succ n ih =>
    intro data mem
    simp only [Bitmap.convertRow, convertPixel_eq, loopAt, ih]

theorem convertRows_eq_loopAt (ri gi bi ai : Int) (unpremultiply : Bool) (width stride : Nat) :
    ∀ (n : Nat) (rowData : Int) (mem : Mem),
      Bitmap.convertRows ri gi bi ai unpremultiply width stride n rowData mem
        = some (loopAt stride
            (fun p m => loopAt 4 (convertPixelFn ri gi bi ai unpremultiply) width p m)
            n rowData mem) := by
  intro n
  induction n with
  | zero => intro rowData mem; rfl
  | succ n ih =>
    intro rowData mem
    simp only [Bitmap.convertRows, convertRow_eq_loopAt, loopAt, ih]

theorem convert_eq (bm : Bitmap) (ri gi bi ai : Int) (unpremultiply : Bool) :
    bm.convert ri gi bi ai unpremultiply
      = some (bm.withData (loopAt bm.stride
          (fun p m => loopAt 4 (convertPixelFn ri gi bi ai unpremultiply) bm.width p m)
          bm.height 0 bm.data)) := by
  simp only [Bitmap.convert, convertRows_eq_loopAt]

theorem perm_offsets {ri gi bi ai : Int} (hperm : List.Perm [ri, gi, bi, ai] [0, 1, 2, 3]) :
    (0 ≤ ri ∧ ri < 4) ∧ (0 ≤ gi ∧ gi < 4) ∧ (0 ≤ bi ∧ bi < 4) ∧ (0 ≤ ai ∧ ai < 4) ∧
    ri ≠ gi ∧ ri ≠ bi ∧ ri ≠ ai ∧ gi ≠ bi ∧ gi ≠ ai ∧ bi ≠ ai := by
  have hmem : ∀ v : Int, v ∈ [ri, gi, bi, ai] → 0 ≤ v ∧ v < 4 := by
    intro v hv
    have h := hperm.mem_iff.mp hv
    simp only [List.mem_cons, List.mem_singleton, List.not_mem_nil, or_false] at h
    omega
  have hnd : [ri, gi, bi, ai].Nodup := hperm.nodup_iff.mpr (by decide)
  simp only [List.nodup_cons, List.mem_cons, List.mem_singleton, List.not_mem_nil, not_or,
    or_false, not_false_eq_true, List.nodup_nil, and_true] at hnd
  obtain ⟨⟨h1, h2, h3⟩, ⟨h4, h5⟩, h6⟩ := hnd
  exact ⟨hmem ri (by simp), hmem gi (by simp), hmem bi (by simp), hmem ai (by simp),
    h1, h2, h3, h4, h5, h6⟩

theorem convertPixelFn_local {ri gi bi ai : Int} (hr : 0 ≤ ri ∧ ri < 4) (hg : 0 ≤ gi ∧ gi < 4)
    (hb : 0 ≤ bi ∧ bi < 4) (ha : 0 ≤ ai ∧ ai < 4) (unpremultiply : Bool) :
    LocalOn 4 (convertPixelFn ri gi bi ai unpremultiply) := by
  constructor
  · intro p mem q hq
    simp only [convertPixelFn, store_apply]
    repeat rw [if_neg (by omega)]
  · intro p mem mem2 hagree q h1 h2
    have e0 := hagree (p + 0) (by omega) (by omega)
    have e1 := hagree (p + 1) (by omega) (by omega)
    have e2 := hagree (p + 2) (by omega) (by omega)
    have e3 := hagree (p + 3) (by omega) (by omega)
    have eq := hagree q h1 h2
    simp only [convertPixelFn, store_apply, e0, e1, e2, e3, eq]

theorem convertPixelFn_bytes {ri gi bi ai : Int} (h1 : ri ≠ gi) (h2 : ri ≠ bi) (h3 : ri ≠ ai)
    (h4 : gi ≠ bi) (h5 : gi ≠ ai) (h6 : bi ≠ ai) (unpremultiply : Bool) (p : Int) (mem : Mem) :
    convertPixelFn ri gi bi ai unpremultiply p mem (p + ri)
      = unpremul unpremultiply (mem (p + 2)) (mem (p + 3)) ∧
    convertPixelFn ri gi bi ai unpremultiply p mem (p + gi)
      = unpremul unpremultiply (mem (p + 1)) (mem (p + 3)) ∧
    convertPixelFn ri gi bi ai unpremultiply p mem (p + bi)
      = unpremul unpremultiply (mem (p + 0)) (mem (p + 3)) ∧
    convertPixelFn ri gi bi ai unpremultiply p mem (p + ai) = mem (p + 3) := by
  simp only [convertPixelFn, store_apply, add_right_inj]
  refine ⟨?_, ?_, ?_, ?_⟩
  · rw [if_neg h3, if_neg h2, if_neg h1, if_pos trivial]
  · rw [if_neg h5, if_neg h4, if_pos trivial]
  · rw [if_neg h6, if_pos trivial]
  · rw [if_pos trivial]

theorem unpremul_val_of_le (unpremultiply : Bool) (c a : Byte) (hca : c.val ≤ a.val) :
    (unpremul unpremultiply c a).val
      = if unpremultiply = true ∧ a.val ≠ 0 then c.val * 255 / a.val else c.val := by
  have halt : a.val < 256 := a.isLt
  by_cases hu : unpremultiply = true
  · by_cases ha : a.val = 0
    · have : a = 0 := Fin.ext ha
      simp [unpremul, this]
    · have hane : a ≠ 0 := fun h => ha (by rw [h]; rfl)
      have hq : c.val * 255 / a.val ≤ 255 :=
        Nat.div_le_of_le_mul (Nat.mul_le_mul_right 255 hca)
      have hb : (a != 0) = true := bne_iff_ne.mpr hane
      have hcond : unpremultiply = true ∧ a.val ≠ 0 := ⟨hu, ha⟩
      rw [if_pos hcond]
      simp only [unpremul, hu, hb, Bool.and_self, if_true, toByte]
      exact Nat.mod_eq_of_lt (by omega)
  · have hcond : ¬ (unpremultiply = true ∧ a.val ≠ 0) := fun h => hu h.1
    rw [if_neg hcond]
    simp [unpremul, hu]

theorem convert_pixel_data (bm : Bitmap) {ri gi bi ai : Int}
    (hperm : List.Perm [ri, gi, bi, ai] [0, 1, 2, 3]) (unpremultiply : Bool)
    (hS : 4 * bm.width ≤ bm.stride) (x y : Nat) (hx : x < bm.width) (hy : y < bm.height)
    (j : Int) (hj0 : 0 ≤ j) (hj4 : j < 4) :
    (bm.withData (loopAt bm.stride
        (fun p m => loopAt 4 (convertPixelFn ri gi bi ai unpremultiply) bm.width p m)
        bm.height 0 bm.data)).data (((y * bm.stride + 4 * x : Nat) : Int) + j)
      = convertPixelFn ri gi bi ai unpremultiply ((y * bm.stride + 4 * x : Nat) : Int) bm.data
          (((y * bm.stride + 4 * x : Nat) : Int) + j) := by
  obtain ⟨hr, hg, hb, ha, _⟩ := perm_offsets hperm
  have hpos : 0 < bm.height := Nat.lt_of_le_of_lt (Nat.zero_le _) hy
  rw [data_withData _ _ hpos]
  exact rows_pixel (convertPixelFn_local hr hg hb ha unpremultiply) hS _ _ x y hx hy j hj0 hj4

/-- C7: on a bitmap whose stride is at least four times its width, for a
permutation `(ri, gi, bi, ai)` of the offsets 0..3, `Bitmap::convert` returns
(no division by zero happens) and a pixel that held `(B, G, R, A)` with every
colour channel at most `A` holds afterwards at the offsets `ri, gi, bi, ai` the
values `R2, G2, B2, A`, where a channel is `channel * 255 / A` when
`unpremultiply` is set and `A` is not 0 and is the channel itself otherwise; a
pixel with `A = 0` keeps its four channel values. -/
theorem convert_rewrites_channels (bm : Bitmap) (ri gi bi ai : Int)
    (hperm : List.Perm [ri, gi, bi, ai] [0, 1, 2, 3]) (unpremultiply : Bool)
    (hS : 4 * bm.width ≤ bm.stride) (x y : Nat) (hx : x < bm.width) (hy : y < bm.height)
    (hB : bm.byteAt (((y * bm.stride + 4 * x : Nat) : Int) + 0)
            ≤ bm.byteAt (((y * bm.stride + 4 * x : Nat) : Int) + 3))
    (hG : bm.byteAt (((y * bm.stride + 4 * x : Nat) : Int) + 1)
            ≤ bm.byteAt (((y * bm.stride + 4 * x : Nat) : Int) + 3))
    (hR : bm.byteAt (((y * bm.stride + 4 * x : Nat) : Int) + 2)
            ≤ bm.byteAt (((y * bm.stride + 4 * x : Nat) : Int) + 3)) :
    ∃ bm2, bm.convert ri gi bi ai unpremultiply = some bm2 ∧
      bm2.byteAt (((y * bm.stride + 4 * x : Nat) : Int) + ri)
        = (if unpremultiply = true ∧ bm.byteAt (((y * bm.stride + 4 * x : Nat) : Int) + 3) ≠ 0
           then bm.byteAt (((y * bm.stride + 4 * x : Nat) : Int) + 2) * 255
                  / bm.byteAt (((y * bm.stride + 4 * x : Nat) : Int) + 3)
           else bm.byteAt (((y * bm.stride + 4 * x : Nat) : Int) + 2)) ∧
      bm2.byteAt (((y * bm.stride + 4 * x : Nat) : Int) + gi)
        = (if unpremultiply = true ∧ bm.byteAt (((y * bm.stride + 4 * x : Nat) : Int) + 3) ≠ 0
           then bm.byteAt (((y * bm.stride + 4 * x : Nat) : Int) + 1) * 255
                  / bm.byteAt (((y * bm.stride + 4 * x : Nat) : Int) + 3)
           else bm.byteAt (((y * bm.stride + 4 * x : Nat) : Int) + 1)) ∧
      bm2.byteAt (((y * bm.stride + 4 * x : Nat) : Int) + bi)
        = (if unpremultiply = true ∧ bm.byteAt (((y * bm.stride + 4 * x : Nat) : Int) + 3) ≠ 0
           then bm.byteAt (((y * bm.stride + 4 * x : Nat) : Int) + 0) * 255
                  / bm.byteAt (((y * bm.stride + 4 * x : Nat) : Int) + 3)
           else bm.byteAt (((y * bm.stride + 4 * x : Nat) : Int) + 0)) ∧
      bm2.byteAt (((y * bm.stride + 4 * x : Nat) : Int) + ai)
        = bm.byteAt (((y * bm.stride + 4 * x : Nat) : Int) + 3) ∧
      (bm.byteAt (((y * bm.stride + 4 * x : Nat) : Int) + 3) = 0 →
        bm2.byteAt (((y * bm.stride + 4 * x : Nat) : Int) + ri)
          = bm.byteAt (((y * bm.stride + 4 * x : Nat) : Int) + 2) ∧
        bm2.byteAt (((y * bm.stride + 4 * x : Nat) : Int) + gi)
          = bm.byteAt (((y * bm.stride + 4 * x : Nat) : Int) + 1) ∧
        bm2.byteAt (((y * bm.stride + 4 * x : Nat) : Int) + bi)
          = bm.byteAt (((y * bm.stride + 4 * x : Nat) : Int) + 0) ∧
        bm2.byteAt (((y * bm.stride + 4 * x : Nat) : Int) + ai)
          = bm.byteAt (((y * bm.stride + 4 * x : Nat) : Int) + 3)) := by
  obtain ⟨hr, hg, hb, ha, h1, h2, h3, h4, h5, h6⟩ := perm_offsets hperm
  obtain ⟨e1, e2, e3, e4⟩ := convertPixelFn_bytes h1 h2 h3 h4 h5 h6 unpremultiply
    ((y * bm.stride + 4 * x : Nat) : Int) bm.data
  have k1 := convert_pixel_data bm hperm unpremultiply hS x y hx hy ri hr.1 hr.2
  have k2 := convert_pixel_data bm hperm unpremultiply hS x y hx hy gi hg.1 hg.2
  have k3 := convert_pixel_data bm hperm unpremultiply hS x y hx hy bi hb.1 hb.2
  have k4 := convert_pixel_data bm hperm unpremultiply hS x y hx hy ai ha.1 ha.2
  rw [e1] at k1
  rw [e2] at k2
  rw [e3] at k3
  rw [e4] at k4
  simp only [Bitmap.byteAt] at hB hG hR ⊢
  have v1 := unpremul_val_of_le unpremultiply _ _ hR
  have v2 := unpremul_val_of_le unpremultiply _ _ hG
  have v3 := unpremul_val_of_le unpremultiply _ _ hB
  refine ⟨_, convert_eq bm ri gi bi ai unpremultiply, ?_, ?_, ?_, ?_, ?_⟩
  · rw [k1, v1]
  · rw [k2, v2]
  · rw [k3, v3]
  · rw [k4]
  · intro hA
    have c1 : ¬ (unpremultiply = true ∧
        (bm.data (((y * bm.stride + 4 * x : Nat) : Int) + 3)).val ≠ 0) := fun hc => hc.2 hA
    rw [k1, k2, k3, k4, v1, v2, v3, if_neg c1, if_neg c1, if_neg c1]
    exact ⟨rfl, rfl, rfl, rfl⟩

/-- Witness for C7: the pixel `(10, 20, 30, 40)` converted to RGBA order. -/
theorem convert_rewrites_channels_witness :
    List.Perm [(0 : Int), 1, 2, 3] [0, 1, 2, 3] ∧
    4 * (onePixel 10 20 30 40).width ≤ (onePixel 10 20 30 40).stride ∧
    ∃ bm2, (onePixel 10 20 30 40).convert 0 1 2 3 true = some bm2 ∧
      bm2.byteAt (((0 * (onePixel 10 20 30 40).stride + 4 * 0 : Nat) : Int) + 3)
        = (onePixel 10 20 30 40).byteAt
            (((0 * (onePixel 10 20 30 40).stride + 4 * 0 : Nat) : Int) + 3) :=
  ⟨List.Perm.refl _, by decide,
    (convert_rewrites_channels (onePixel 10 20 30 40) 0 1 2 3 (List.Perm.refl _) true
      (by decide) 0 0 (by decide) (by decide) (by decide) (by decide) (by decide)).imp
      (fun _ hh => ⟨hh.1, hh.2.2.2.2.1⟩)⟩

theorem width_withData (bm : Bitmap) (mem : Mem) :
    (bm.withData mem).width = bm.width ∧ (bm.withData mem).height = bm.height ∧
    (bm.withData mem).stride = bm.stride := by
  cases bm with
  | mk m_impl =>
    cases m_impl with
    | none => exact ⟨rfl, rfl, rfl⟩
    | some impl => exact ⟨rfl, rfl, rfl⟩

theorem unpremul_false (c a : Byte) : unpremul false c a = c := by
  simp [unpremul]

theorem unpremul_true_val (c a : Byte) (ha : 0 < a.val) :
    (unpremul true c a).val = c.val * 255 / a.val % 256 := by
  have hane : a ≠ 0 := by
    intro h
    rw [h] at ha
    exact absurd ha (by decide)
  have hb : (a != 0) = true := bne_iff_ne.mpr hane
  simp [unpremul, hb, toByte]

theorem convertPixelFn_dest {ri gi bi ai : Int}
    (hperm : List.Perm [ri, gi, bi, ai] [0, 1, 2, 3]) (p : Int) (mem : Mem)
    (k : Int) (hk0 : 0 ≤ k) (hk4 : k < 4) :
    convertPixelFn ri gi bi ai false p mem (p + convertDest ri gi bi ai k) = mem (p + k) := by
  obtain ⟨_, _, _, _, h1, h2, h3, h4, h5, h6⟩ := perm_offsets hperm
  obtain ⟨e1, e2, e3, e4⟩ := convertPixelFn_bytes h1 h2 h3 h4 h5 h6 false p mem
  simp only [unpremul_false] at e1 e2 e3
  have hk : k = 0 ∨ k = 1 ∨ k = 2 ∨ k = 3 := by omega
  rcases hk with h | h | h | h <;> subst h <;> simp [convertDest, e1, e2, e3, e4]

theorem repremultiply_near (c a : Nat) (hca : c ≤ a) (ha : 0 < a) (ha2 : a < 256) :
    (c * 255 / a % 256) * a / 255 ≤ c ∧ c ≤ (c * 255 / a % 256) * a / 255 + 1 := by
  have hq : c * 255 / a ≤ 255 := Nat.div_le_of_le_mul (Nat.mul_le_mul_right 255 hca)
  rw [Nat.mod_eq_of_lt (by omega)]
  have h1 : c * 255 / a * a ≤ c * 255 := Nat.div_mul_le_self _ _
  have h2 : c * 255 < a * (c * 255 / a + 1) := Nat.lt_mul_div_succ _ ha
  have h3 : a * (c * 255 / a + 1) = c * 255 / a * a + a := by ring
  rw [h3] at h2
  generalize c * 255 / a * a = t at h1 h2
  omega

theorem convert_pixel_data_of_same_shape (bm bm1 : Bitmap) (hw : bm1.width = bm.width)
    (hh : bm1.height = bm.height) (hs : bm1.stride = bm.stride) {ri gi bi ai : Int}
    (hperm : List.Perm [ri, gi, bi, ai] [0, 1, 2, 3]) (unpremultiply : Bool)
    (hS : 4 * bm.width ≤ bm.stride) (x y : Nat) (hx : x < bm.width) (hy : y < bm.height)
    (j : Int) (hj0 : 0 ≤ j) (hj4 : j < 4) :
    (bm1.withData (loopAt bm1.stride
        (fun p m => loopAt 4 (convertPixelFn ri gi bi ai unpremultiply) bm1.width p m)
        bm1.height 0 bm1.data)).data (((y * bm.stride + 4 * x : Nat) : Int) + j)
      = convertPixelFn ri gi bi ai unpremultiply ((y * bm.stride + 4 * x : Nat) : Int) bm1.data
          (((y * bm.stride + 4 * x : Nat) : Int) + j) := by
  have h := convert_pixel_data bm1 hperm unpremultiply (by rw [hw, hs]; exact hS) x y
    (by rw [hw]; exact hx) (by rw [hh]; exact hy) j hj0 hj4
  rw [hs] at h ⊢
  exact h

theorem convert_twice_pixel (bm : Bitmap) {ri gi bi ai ri2 gi2 bi2 ai2 : Int}
    (hperm : List.Perm [ri, gi, bi, ai] [0, 1, 2, 3])
    (hperm2 : List.Perm [ri2, gi2, bi2, ai2] [0, 1, 2, 3])
    (hS : 4 * bm.width ≤ bm.stride) (x y : Nat) (hx : x < bm.width) (hy : y < bm.height)
    (bm1 bm2 : Bitmap) (hc1 : bm.convert ri gi bi ai true = some bm1)
    (hc2 : bm1.convert ri2 gi2 bi2 ai2 false = some bm2)
    (k : Int) (hk0 : 0 ≤ k) (hk4 : k < 4) :
    bm2.data (((y * bm.stride + 4 * x : Nat) : Int) + convertDest ri2 gi2 bi2 ai2 k)
      = convertPixelFn ri gi bi ai true ((y * bm.stride + 4 * x : Nat) : Int) bm.data
          (((y * bm.stride + 4 * x : Nat) : Int) + k) := by
  rw [convert_eq] at hc1
  cases hc1
  rw [convert_eq] at hc2
  cases hc2
  obtain ⟨hw, hh, hs⟩ := width_withData bm (loopAt bm.stride
    (fun p m => loopAt 4 (convertPixelFn ri gi bi ai true) bm.width p m) bm.height 0 bm.data)
  obtain ⟨hr2, hg2, hb2, ha2, _⟩ := perm_offsets hperm2
  have hd : 0 ≤ convertDest ri2 gi2 bi2 ai2 k ∧ convertDest ri2 gi2 bi2 ai2 k < 4 := by
    unfold convertDest
    split_ifs <;> omega
  rw [convert_pixel_data_of_same_shape bm _ hw hh hs hperm2 false hS x y hx hy _ hd.1 hd.2,
    convertPixelFn_dest hperm2 _ _ k hk0 hk4,
    convert_pixel_data bm hperm true hS x y hx hy k hk0 hk4]

/-- C8, the claim as stated fails: the pixel `(B, G, R, A) = (10, 20, 30, 40)`
converted with `unpremultiply = true` to RGBA order and then converted back with
`unpremultiply = false` holds `(63, 127, 191, 40)`; the second call does not
multiply by alpha again, so the colour bytes are far from `10, 20, 30`. -/
theorem convert_roundtrip_not_within_one :
    ∃ bm1 bm2, (onePixel 10 20 30 40).convert 0 1 2 3 true = some bm1 ∧
      bm1.convert 0 1 2 3 false = some bm2 ∧
      (onePixel 10 20 30 40).byteAt 3 = 40 ∧
      (onePixel 10 20 30 40).byteAt 0 = 10 ∧
      bm2.byteAt 0 = 63 ∧ bm2.byteAt 1 = 127 ∧ bm2.byteAt 2 = 191 ∧ bm2.byteAt 3 = 40 ∧
      ¬ (bm2.byteAt 0 ≤ (onePixel 10 20 30 40).byteAt 0 + 1) := by
  refine ⟨_, _, convert_eq _ 0 1 2 3 true, convert_eq _ 0 1 2 3 false, ?_, ?_, ?_, ?_, ?_,
    ?_, ?_⟩ <;> decide

/-- C8 as amended: on a bitmap whose stride is at least four times its width,
`convert` with `unpremultiply = true` and a permutation of the offsets followed
by `convert` with `unpremultiply = false` and the offsets that send every
channel back to its place both return, restore the B,G,R,A layout and keep
alpha; for a pixel with alpha `A > 0` each colour byte then holds
`(c * 255 / A) mod 256`, not `c`, and for `c ≤ A` multiplying that byte by
`A / 255` again gives `c` or `c - 1`. -/
theorem convert_roundtrip_unpremultiplied (bm : Bitmap) (ri gi bi ai ri2 gi2 bi2 ai2 : Int)
    (hperm : List.Perm [ri, gi, bi, ai] [0, 1, 2, 3])
    (hperm2 : List.Perm [ri2, gi2, bi2, ai2] [0, 1, 2, 3])
    (hrestore : convertDest ri2 gi2 bi2 ai2 bi = 0 ∧ convertDest ri2 gi2 bi2 ai2 gi = 1 ∧
      convertDest ri2 gi2 bi2 ai2 ri = 2 ∧ convertDest ri2 gi2 bi2 ai2 ai = 3)
    (hS : 4 * bm.width ≤ bm.stride) (x y : Nat) (hx : x < bm.width) (hy : y < bm.height)
    (hA : 0 < bm.byteAt (((y * bm.stride + 4 * x : Nat) : Int) + 3)) :
    ∃ bm1 bm2, bm.convert ri gi bi ai true = some bm1 ∧
      bm1.convert ri2 gi2 bi2 ai2 false = some bm2 ∧
      bm2.byteAt (((y * bm.stride + 4 * x : Nat) : Int) + 3)
        = bm.byteAt (((y * bm.stride + 4 * x : Nat) : Int) + 3) ∧
      (∀ c : Int, 0 ≤ c → c < 3 →
        bm2.byteAt (((y * bm.stride + 4 * x : Nat) : Int) + c)
          = bm.byteAt (((y * bm.stride + 4 * x : Nat) : Int) + c) * 255
              / bm.byteAt (((y * bm.stride + 4 * x : Nat) : Int) + 3) % 256 ∧
        (bm.byteAt (((y * bm.stride + 4 * x : Nat) : Int) + c)
            ≤ bm.byteAt (((y * bm.stride + 4 * x : Nat) : Int) + 3) →
          bm2.byteAt (((y * bm.stride + 4 * x : Nat) : Int) + c)
              * bm.byteAt (((y * bm.stride + 4 * x : Nat) : Int) + 3) / 255
            ≤ bm.byteAt (((y * bm.stride + 4 * x : Nat) : Int) + c) ∧
          bm.byteAt (((y * bm.stride + 4 * x : Nat) : Int) + c)
            ≤ bm2.byteAt (((y * bm.stride + 4 * x : Nat) : Int) + c)
                * bm.byteAt (((y * bm.stride + 4 * x : Nat) : Int) + 3) / 255 + 1)) := by
  obtain ⟨hr, hg, hb, ha, h1, h2, h3, h4, h5, h6⟩ := perm_offsets hperm
  obtain ⟨e1, e2, e3, e4⟩ := convertPixelFn_bytes h1 h2 h3 h4 h5 h6 true
    ((y * bm.stride + 4 * x : Nat) : Int) bm.data
  have hc1 := convert_eq bm ri gi bi ai true
  have hc2 := convert_eq (bm.withData (loopAt bm.stride
    (fun p m => loopAt 4 (convertPixelFn ri gi bi ai true) bm.width p m) bm.height 0 bm.data))
    ri2 gi2 bi2 ai2 false
  have t0 := convert_twice_pixel bm hperm hperm2 hS x y hx hy _ _ hc1 hc2 bi hb.1 hb.2
  have t1 := convert_twice_pixel bm hperm hperm2 hS x y hx hy _ _ hc1 hc2 gi hg.1 hg.2
  have t2 := convert_twice_pixel bm hperm hperm2 hS x y hx hy _ _ hc1 hc2 ri hr.1 hr.2
  have t3 := convert_twice_pixel bm hperm hperm2 hS x y hx hy _ _ hc1 hc2 ai ha.1 ha.2
  rw [hrestore.1, e3] at t0
  rw [hrestore.2.1, e2] at t1
  rw [hrestore.2.2.1, e1] at t2
  rw [hrestore.2.2.2, e4] at t3
  simp only [Bitmap.byteAt] at hA ⊢
  have v0 := unpremul_true_val (bm.data (((y * bm.stride + 4 * x : Nat) : Int) + 0)) _ hA
  have v1 := unpremul_true_val (bm.data (((y * bm.stride + 4 * x : Nat) : Int) + 1)) _ hA
  have v2 := unpremul_true_val (bm.data (((y * bm.stride + 4 * x : Nat) : Int) + 2)) _ hA
  have hlt : (bm.data (((y * bm.stride + 4 * x : Nat) : Int) + 3)).val < 256 := Fin.isLt _
  refine ⟨_, _, hc1, hc2, by rw [t3], ?_⟩
  intro c hc0 hc3
  have hc : c = 0 ∨ c = 1 ∨ c = 2 := by omega
  rcases hc with h | h | h <;> subst h
  · rw [t0, v0]
    exact ⟨rfl, fun hle => repremultiply_near _ _ hle hA hlt⟩
  · rw [t1, v1]
    exact ⟨rfl, fun hle => repremultiply_near _ _ hle hA hlt⟩
  · rw [t2, v2]
    exact ⟨rfl, fun hle => repremultiply_near _ _ hle hA hlt⟩

/-- Witness for C8 as amended: the pixel `(10, 20, 30, 40)` converted to ARGB
order and back. -/
theorem convert_roundtrip_unpremultiplied_witness :
    List.Perm [(1 : Int), 2, 3, 0] [0, 1, 2, 3] ∧
    (convertDest 1 2 3 0 3 = 0 ∧ convertDest 1 2 3 0 2 = 1 ∧
      convertDest 1 2 3 0 1 = 2 ∧ convertDest 1 2 3 0 0 = 3) ∧
    0 < (onePixel 10 20 30 40).byteAt
          (((0 * (onePixel 10 20 30 40).stride + 4 * 0 : Nat) : Int) + 3) ∧
    ∃ bm1 bm2, (onePixel 10 20 30 40).convert 1 2 3 0 true = some bm1 ∧
      bm1.convert 1 2 3 0 false = some bm2 ∧
      bm2.byteAt (((0 * (onePixel 10 20 30 40).stride + 4 * 0 : Nat) : Int) + 3)
        = (onePixel 10 20 30 40).byteAt
            (((0 * (onePixel 10 20 30 40).stride + 4 * 0 : Nat) : Int) + 3) :=
  ⟨by decide, by decide, by decide,
    (convert_roundtrip_unpremultiplied (onePixel 10 20 30 40) 1 2 3 0 1 2 3 0
      (by decide) (by decide) (by decide) (by decide) 0 0 (by decide) (by decide)
      (by decide)).imp
      (fun _ h1 => h1.imp (fun _ h2 => ⟨h2.1, h2.2.1, h2.2.2.1⟩))⟩

/-! ## Theorems: gradient parameters -/

/-- C9: `Canvas::setLinearGradient` stores as gradient start and end the images
of `(0,0)` and `(0,1)` under `res = T * basis`, where the basis has the axes
`(dy, -dx)` and `(dx, dy)` and the translation `p1`; these are `T(p1)` and
`T(p2)`, and for `p1 = (0,0)`, `p2 = (0,1)` and the identity transform they are
`(0,0)` and `(0,1)`. -/
theorem setLinearGradient_endpoints (c : Canvas) (x1 y1 x2 y2 : ℚ) (stops : GradientStops)
    (spread : SpreadMethod) (T : Transform) :
    (c.setLinearGradient x1 y1 x2 y2 stops spread T).gradientParams
      = ((vgutil.transformPos2D 0 0 (vgutil.multiplyMatrix3 T.toFloat6
            ⟨y2 - y1, -(x2 - x1), x2 - x1, y2 - y1, x1, y1⟩)).1,
         (vgutil.transformPos2D 0 0 (vgutil.multiplyMatrix3 T.toFloat6
            ⟨y2 - y1, -(x2 - x1), x2 - x1, y2 - y1, x1, y1⟩)).2,
         (vgutil.transformPos2D 0 1 (vgutil.multiplyMatrix3 T.toFloat6
            ⟨y2 - y1, -(x2 - x1), x2 - x1, y2 - y1, x1, y1⟩)).1,
         (vgutil.transformPos2D 0 1 (vgutil.multiplyMatrix3 T.toFloat6
            ⟨y2 - y1, -(x2 - x1), x2 - x1, y2 - y1, x1, y1⟩)).2) ∧
    (c.setLinearGradient x1 y1 x2 y2 stops spread T).gradientParams
      = ((T.map x1 y1).1, (T.map x1 y1).2, (T.map x2 y2).1, (T.map x2 y2).2) ∧
    (c.setLinearGradient 0 0 0 1 stops spread Transform.identity).gradientParams
      = (0, 0, 0, 1) := by
  refine ⟨rfl, ?_, ?_⟩
  · simp only [Canvas.setLinearGradient, vgutil.transformPos2D, vgutil.multiplyMatrix3,
      Transform.toFloat6, Transform.map, Prod.mk.injEq]
    refine ⟨?_, ?_, ?_, ?_⟩ <;> ring
  · simp only [Canvas.setLinearGradient, vgutil.transformPos2D, vgutil.multiplyMatrix3,
      Transform.toFloat6, Transform.identity, Prod.mk.injEq]
    refine ⟨?_, ?_, ?_, ?_⟩ <;> norm_num

/-- C10, the code at a centre away from the origin: for the centre `(10, 10)`,
radius 1 and the identity transform `Canvas::setRadialGradient` stores the
device centre `T(10, 10) = (10, 10)`, inner radius 0 and outer radius 22, twice
the larger coordinate of the mapped point `(10, 11)`, whereas twice the larger
absolute offset of that point from the device centre is 2. -/
theorem setRadialGradient_radius_at_offset_centre :
    ((Canvas.create ⟨⟨0⟩, []⟩ 0 0 100 100).setRadialGradient 10 10 1 10 10 []
        SpreadMethod.Pad Transform.identity).gradientParams
      = ((Transform.identity.map 10 10).1, (Transform.identity.map 10 10).2, 0, 22) ∧
    Transform.identity.map 10 10 = (10, 10) ∧
    vgutil.transformPos2D 0 1
        (vgutil.multiplyMatrix3 Transform.identity.toFloat6 ⟨1, 0, 0, 1, 10, 10⟩) = (10, 11) ∧
    2 * max
        |(vgutil.transformPos2D 0 1
            (vgutil.multiplyMatrix3 Transform.identity.toFloat6 ⟨1, 0, 0, 1, 10, 10⟩)).1
          - (Transform.identity.map 10 10).1|
        |(vgutil.transformPos2D 0 1
            (vgutil.multiplyMatrix3 Transform.identity.toFloat6 ⟨1, 0, 0, 1, 10, 10⟩)).2
          - (Transform.identity.map 10 10).2| = 2 := by
  have hs : Transform.identity.map 10 10 = (10, 10) := by
    simp only [Transform.map, Transform.identity, Prod.mk.injEq]
    constructor <;> norm_num
  have hp : vgutil.transformPos2D 0 1
      (vgutil.multiplyMatrix3 Transform.identity.toFloat6 ⟨1, 0, 0, 1, 10, 10⟩) = (10, 11) := by
    simp only [vgutil.transformPos2D, vgutil.multiplyMatrix3,
      Transform.toFloat6, Transform.identity, Prod.mk.injEq]
    constructor <;> norm_num
  refine ⟨?_, hs, hp, ?_⟩
  · rw [hs]
    simp only [Canvas.setRadialGradient, vgutil.transformPos2D, vgutil.multiplyMatrix3,
      Transform.toFloat6, Transform.identity, Prod.mk.injEq]
    refine ⟨?_, ?_, ?_, ?_⟩ <;> norm_num
  · rw [hs, hp]
    norm_num

/-! ## Theorems: path submission, fill, stroke and blend -/

theorem pathToVG_segments_commands :
    ∀ (segs : List PathSegment) (cl : CommandListRef),
      (pathToVG.segments cl segs).commands = cl.commands ++ segs.map PathSegment.toCommand ∧
      (pathToVG.segments cl segs).m_Handle = cl.m_Handle := by
  intro segs
  induction segs with
  | nil => intro cl; simp [pathToVG.segments]
  | cons seg rest ih =>
    intro cl
    cases seg <;>
      simp [pathToVG.segments, ih, PathSegment.toCommand, vg.clMoveTo, vg.clLineTo,
        vg.clCubicTo, vg.clClosePath, CommandListRef.record]

theorem pathToVG_commands (cl : CommandListRef) (path : Path) :
    (pathToVG cl path).commands = cl.commands ++ path.geometry := by
  simp [pathToVG, pathToVG_segments_commands, Path.geometry, vg.clBeginPath,
    CommandListRef.record]

theorem filter_isGeometry_geometry (path : Path) :
    path.geometry.filter Command.isGeometry = path.geometry := by
  rw [List.filter_eq_self]
  intro cmd hcmd
  simp only [Path.geometry, List.mem_cons, List.mem_map] at hcmd
  rcases hcmd with rfl | ⟨seg, _, rfl⟩
  · rfl
  · cases seg <;> rfl

theorem fill_commands (c : Canvas) (path : Path) (transform : Transform) (winding : WindRule)
    (mode : BlendMode) (opacity : ℚ) (gradient : GradientHandle) :
    (c.fill path transform winding mode opacity gradient).cl.commands
      = c.cl.commands
        ++ ([Command.pushState, Command.transformMult transform.toFloat6 TransformOrder.Post]
        ++ (if c.latestPath = some path.addr then [] else path.geometry)
        ++ (match c.paintType with
            | PaintType.COLOR =>
              [Command.fillPathColor c.color ⟨PathType.Concave, winding, true⟩]
            | PaintType.LINEAR_GRADIENT =>
              [Command.createLinearGradient c.gradientParams.1 c.gradientParams.2.1
                  c.gradientParams.2.2.1 c.gradientParams.2.2.2 c.gradientColors
                  c.gradientStops (c.gradientStops.length % 65536),
                Command.fillPathGradient gradient ⟨PathType.Concave, winding, true⟩]
            | PaintType.RADIAL_GRADIENT =>
              [Command.createRadialGradient c.gradientParams.1 c.gradientParams.2.1
                  c.gradientParams.2.2.1 c.gradientParams.2.2.2 c.gradientColors
                  c.gradientStops (c.gradientStops.length % 65536),
                Command.fillPathGradient gradient ⟨PathType.Concave, winding, true⟩])
        ++ [Command.popState]) := by
  by_cases hhit : c.latestPath = some path.addr <;> cases hp : c.paintType <;>
    simp [Canvas.fill, hhit, hp, pathToVG_commands, vg.clPushState, vg.clPopState,
      vg.clTransformMult, vg.clFillPath, vg.clFillPathGradient, vg.clCreateLinearGradient,
      vg.clCreateRadialGradient, CommandListRef.record, VG_FILL_FLAGS]

theorem stroke_commands (c : Canvas) (path : Path) (transform : Transform) (width : ℚ)
    (cap : LineCap) (join : LineJoin) (miterlimit : ℚ) (dash : DashData) (mode : BlendMode)
    (opacity : ℚ) (gradient : GradientHandle) :
    (c.stroke path transform width cap join miterlimit dash mode opacity gradient).cl.commands
      = c.cl.commands
        ++ ([Command.pushState, Command.transformMult transform.toFloat6 TransformOrder.Post]
        ++ (if c.latestPath = some path.addr then [] else path.geometry)
        ++ (match c.paintType with
            | PaintType.COLOR =>
              [Command.strokePathColor c.color width ⟨cap, join, true⟩]
            | PaintType.LINEAR_GRADIENT =>
              [Command.createLinearGradient c.gradientParams.1 c.gradientParams.2.1
                  c.gradientParams.2.2.1 c.gradientParams.2.2.2 c.gradientColors
                  c.gradientStops (c.gradientStops.length % 65536),
                Command.strokePathGradient gradient width ⟨cap, join, true⟩]
            | PaintType.RADIAL_GRADIENT =>
              [Command.createRadialGradient c.gradientParams.1 c.gradientParams.2.1
                  c.gradientParams.2.2.1 c.gradientParams.2.2.2 c.gradientColors
                  c.gradientStops (c.gradientStops.length % 65536),
                Command.strokePathGradient gradient width ⟨cap, join, true⟩])
        ++ [Command.popState]) := by
  by_cases hhit : c.latestPath = some path.addr <;> cases hp : c.paintType <;>
    simp [Canvas.stroke, hhit, hp, pathToVG_commands, vg.clPushState, vg.clPopState,
      vg.clTransformMult, vg.clStrokePath, vg.clStrokePathGradient,
      vg.clCreateLinearGradient, vg.clCreateRadialGradient, CommandListRef.record,
      VG_STROKE_FLAGS]

theorem fill_latestPath (c : Canvas) (path : Path) (transform : Transform) (winding : WindRule)
    (mode : BlendMode) (opacity : ℚ) (gradient : GradientHandle) :
    (c.fill path transform winding mode opacity gradient).latestPath = some path.addr := by
  by_cases hhit : c.latestPath = some path.addr <;> simp [Canvas.fill, hhit]

theorem issued_of_append {before after : Canvas} {cmds : List Command}
    (h : after.cl.commands = before.cl.commands ++ cmds) : issued before after = cmds := by
  simp [issued, h]

theorem fill_geometry (c : Canvas) (path : Path) (transform : Transform) (winding : WindRule)
    (mode : BlendMode) (opacity : ℚ) (gradient : GradientHandle) :
    (issued c (c.fill path transform winding mode opacity gradient)).filter Command.isGeometry
      = if c.latestPath = some path.addr then [] else path.geometry := by
  rw [issued_of_append (fill_commands c path transform winding mode opacity gradient)]
  by_cases hhit : c.latestPath = some path.addr <;> cases hp : c.paintType <;>
    simp [hhit, List.filter_append, filter_isGeometry_geometry, Command.isGeometry]

theorem stroke_geometry (c : Canvas) (path : Path) (transform : Transform) (width : ℚ)
    (cap : LineCap) (join : LineJoin) (miterlimit : ℚ) (dash : DashData) (mode : BlendMode)
    (opacity : ℚ) (gradient : GradientHandle) :
    (issued c (c.stroke path transform width cap join miterlimit dash mode opacity
        gradient)).filter Command.isGeometry
      = if c.latestPath = some path.addr then [] else path.geometry := by
  rw [issued_of_append
    (stroke_commands c path transform width cap join miterlimit dash mode opacity gradient)]
  by_cases hhit : c.latestPath = some path.addr <;> cases hp : c.paintType <;>
    simp [hhit, List.filter_append, filter_isGeometry_geometry, Command.isGeometry]

theorem create_latestPath (cl : CommandListRef) (x y w h : ℚ) :
    (Canvas.create cl x y w h).latestPath = none := by
  unfold Canvas.create
  split <;> rfl

/-- C11, the claim as stated fails on a canvas that already holds `P` as its
cached path: on the canvas left by one `fill(P)` of a triangle `P`, the pair
`fill(P)`, `stroke(P)` issues no geometry call at all, neither in its first nor
in its second call, although the geometry of `P` has five calls. -/
theorem fill_of_cached_path_issues_no_geometry :
    ((Canvas.create ⟨⟨0⟩, []⟩ 0 0 8 8).fill
        ⟨1, [PathSegment.MoveTo ⟨0, 0⟩, PathSegment.LineTo ⟨4, 0⟩, PathSegment.LineTo ⟨0, 4⟩,
          PathSegment.Close]⟩
        Transform.identity WindRule.NonZero BlendMode.Src_Over 1 ⟨0⟩).latestPath = some 1 ∧
    (issued
        ((Canvas.create ⟨⟨0⟩, []⟩ 0 0 8 8).fill
          ⟨1, [PathSegment.MoveTo ⟨0, 0⟩, PathSegment.LineTo ⟨4, 0⟩, PathSegment.LineTo ⟨0, 4⟩,
            PathSegment.Close]⟩
          Transform.identity WindRule.NonZero BlendMode.Src_Over 1 ⟨0⟩)
        (((Canvas.create ⟨⟨0⟩, []⟩ 0 0 8 8).fill
          ⟨1, [PathSegment.MoveTo ⟨0, 0⟩, PathSegment.LineTo ⟨4, 0⟩, PathSegment.LineTo ⟨0, 4⟩,
            PathSegment.Close]⟩
          Transform.identity WindRule.NonZero BlendMode.Src_Over 1 ⟨0⟩).fill
          ⟨1, [PathSegment.MoveTo ⟨0, 0⟩, PathSegment.LineTo ⟨4, 0⟩, PathSegment.LineTo ⟨0, 4⟩,
            PathSegment.Close]⟩
          Transform.identity WindRule.NonZero BlendMode.Src_Over 1 ⟨0⟩)).filter
        Command.isGeometry = [] ∧
    (issued
        (((Canvas.create ⟨⟨0⟩, []⟩ 0 0 8 8).fill
          ⟨1, [PathSegment.MoveTo ⟨0, 0⟩, PathSegment.LineTo ⟨4, 0⟩, PathSegment.LineTo ⟨0, 4⟩,
            PathSegment.Close]⟩
          Transform.identity WindRule.NonZero BlendMode.Src_Over 1 ⟨0⟩).fill
          ⟨1, [PathSegment.MoveTo ⟨0, 0⟩, PathSegment.LineTo ⟨4, 0⟩, PathSegment.LineTo ⟨0, 4⟩,
            PathSegment.Close]⟩
          Transform.identity WindRule.NonZero BlendMode.Src_Over 1 ⟨0⟩)
        ((((Canvas.create ⟨⟨0⟩, []⟩ 0 0 8 8).fill
          ⟨1, [PathSegment.MoveTo ⟨0, 0⟩, PathSegment.LineTo ⟨4, 0⟩, PathSegment.LineTo ⟨0, 4⟩,
            PathSegment.Close]⟩
          Transform.identity WindRule.NonZero BlendMode.Src_Over 1 ⟨0⟩).fill
          ⟨1, [PathSegment.MoveTo ⟨0, 0⟩, PathSegment.LineTo ⟨4, 0⟩, PathSegment.LineTo ⟨0, 4⟩,
            PathSegment.Close]⟩
          Transform.identity WindRule.NonZero BlendMode.Src_Over 1 ⟨0⟩).stroke
          ⟨1, [PathSegment.MoveTo ⟨0, 0⟩, PathSegment.LineTo ⟨4, 0⟩, PathSegment.LineTo ⟨0, 4⟩,
            PathSegment.Close]⟩
          Transform.identity 2 LineCap.Butt LineJoin.Miter 4 ⟨[], 0⟩ BlendMode.Src_Over 1
          ⟨0⟩)).filter Command.isGeometry = [] ∧
    (Path.mk 1 [PathSegment.MoveTo ⟨0, 0⟩, PathSegment.LineTo ⟨4, 0⟩,
        PathSegment.LineTo ⟨0, 4⟩, PathSegment.Close]).geometry.length = 5 := by
  refine ⟨?_, ?_, ?_, rfl⟩
  · rw [fill_latestPath]
  · rw [fill_geometry, fill_latestPath, if_pos rfl]
  · rw [stroke_geometry, fill_latestPath, if_pos rfl]

/-- C11 as amended: on a canvas whose cached path is not `P` (any new canvas),
`fill(P)` issues the geometry calls of `P` (begin-path and one call per path
command); a `stroke(P)` right after it issues no geometry call, so the pair
issues them once; a `fill` or `stroke` of a path `Q` with another identity
right after `fill(P)` issues the geometry calls of `Q`, so that pair issues
geometry twice, once per call. -/
theorem fill_then_stroke_geometry_once (c : Canvas) (P Q : Path) (tf ts : Transform)
    (winding : WindRule) (mf ms : BlendMode) (opf ops : ℚ) (gf gs : GradientHandle)
    (width : ℚ) (cap : LineCap) (join : LineJoin) (miterlimit : ℚ) (dash : DashData)
    (hmiss : c.latestPath ≠ some P.addr) (hPQ : Q.addr ≠ P.addr) :
    (issued c (c.fill P tf winding mf opf gf)).filter Command.isGeometry = P.geometry ∧
    P.geometry.length = P.segments.length + 1 ∧
    (issued (c.fill P tf winding mf opf gf)
        ((c.fill P tf winding mf opf gf).stroke P ts width cap join miterlimit dash ms ops
          gs)).filter Command.isGeometry = [] ∧
    (issued (c.fill P tf winding mf opf gf)
        ((c.fill P tf winding mf opf gf).fill Q ts winding ms ops gs)).filter
          Command.isGeometry = Q.geometry ∧
    (issued (c.fill P tf winding mf opf gf)
        ((c.fill P tf winding mf opf gf).stroke Q ts width cap join miterlimit dash ms ops
          gs)).filter Command.isGeometry = Q.geometry := by
  have hlp := fill_latestPath c P tf winding mf opf gf
  have hne : ¬ (some P.addr = some Q.addr) := by
    intro h
    exact hPQ (Option.some.inj h).symm
  refine ⟨?_, ?_, ?_, ?_, ?_⟩
  · rw [fill_geometry, if_neg hmiss]
  · simp [Path.geometry]
  · rw [stroke_geometry, hlp, if_pos rfl]
  · rw [fill_geometry, hlp, if_neg hne]
  · rw [stroke_geometry, hlp, if_neg hne]

/-- Witness for C11 as amended: a new canvas, a triangle `P` and a line `Q`. -/
theorem fill_then_stroke_geometry_once_witness :
    (Canvas.create ⟨⟨0⟩, []⟩ 0 0 8 8).latestPath ≠ some 1 ∧ (2 : Nat) ≠ 1 ∧
    (issued (Canvas.create ⟨⟨0⟩, []⟩ 0 0 8 8)
        ((Canvas.create ⟨⟨0⟩, []⟩ 0 0 8 8).fill
          ⟨1, [PathSegment.MoveTo ⟨0, 0⟩, PathSegment.LineTo ⟨4, 0⟩, PathSegment.LineTo ⟨0, 4⟩,
            PathSegment.Close]⟩
          Transform.identity WindRule.NonZero BlendMode.Src_Over 1 ⟨0⟩)).filter
        Command.isGeometry
      = (Path.mk 1 [PathSegment.MoveTo ⟨0, 0⟩, PathSegment.LineTo ⟨4, 0⟩,
          PathSegment.LineTo ⟨0, 4⟩, PathSegment.Close]).geometry :=
  ⟨by simp [create_latestPath], by decide,
    (fill_then_stroke_geometry_once (Canvas.create ⟨⟨0⟩, []⟩ 0 0 8 8)
      ⟨1, [PathSegment.MoveTo ⟨0, 0⟩, PathSegment.LineTo ⟨4, 0⟩, PathSegment.LineTo ⟨0, 4⟩,
        PathSegment.Close]⟩
      ⟨2, [PathSegment.MoveTo ⟨0, 0⟩, PathSegment.LineTo ⟨1, 1⟩]⟩
      Transform.identity Transform.identity WindRule.NonZero BlendMode.Src_Over
      BlendMode.Src_Over 1 1 ⟨0⟩ ⟨0⟩ 2 LineCap.Butt LineJoin.Miter 4 ⟨[], 0⟩
      (by simp [create_latestPath]) (by decide)).1⟩

/-- C12, the claim as stated fails: two `stroke` calls on the same canvas that
differ in the miter limit (4 and 10) and in the dash pattern (none, and
`[5, 3]` with offset 1) leave the same canvas behind and so issue the same
backend commands. -/
theorem stroke_same_commands_for_other_miter_and_dash :
    (Canvas.create ⟨⟨0⟩, []⟩ 0 0 8 8).stroke
        ⟨1, [PathSegment.MoveTo ⟨0, 0⟩, PathSegment.LineTo ⟨4, 0⟩]⟩ Transform.identity 2
        LineCap.Butt LineJoin.Miter 4 ⟨[], 0⟩ BlendMode.Src_Over 1 ⟨0⟩
      = (Canvas.create ⟨⟨0⟩, []⟩ 0 0 8 8).stroke
        ⟨1, [PathSegment.MoveTo ⟨0, 0⟩, PathSegment.LineTo ⟨4, 0⟩]⟩ Transform.identity 2
        LineCap.Butt LineJoin.Miter 10 ⟨[5, 3], 1⟩ BlendMode.Src_Over 1 ⟨0⟩ ∧
    issued (Canvas.create ⟨⟨0⟩, []⟩ 0 0 8 8)
        ((Canvas.create ⟨⟨0⟩, []⟩ 0 0 8 8).stroke
          ⟨1, [PathSegment.MoveTo ⟨0, 0⟩, PathSegment.LineTo ⟨4, 0⟩]⟩ Transform.identity 2
          LineCap.Butt LineJoin.Miter 4 ⟨[], 0⟩ BlendMode.Src_Over 1 ⟨0⟩)
      = issued (Canvas.create ⟨⟨0⟩, []⟩ 0 0 8 8)
        ((Canvas.create ⟨⟨0⟩, []⟩ 0 0 8 8).stroke
          ⟨1, [PathSegment.MoveTo ⟨0, 0⟩, PathSegment.LineTo ⟨4, 0⟩]⟩ Transform.identity 2
          LineCap.Butt LineJoin.Miter 10 ⟨[5, 3], 1⟩ BlendMode.Src_Over 1 ⟨0⟩) :=
  ⟨rfl, rfl⟩

theorem stroke_draw (c : Canvas) (path : Path) (transform : Transform) (width : ℚ)
    (cap : LineCap) (join : LineJoin) (miterlimit : ℚ) (dash : DashData) (mode : BlendMode)
    (opacity : ℚ) (gradient : GradientHandle) :
    (issued c (c.stroke path transform width cap join miterlimit dash mode opacity
        gradient)).filter Command.isDraw
      = [match c.paintType with
          | PaintType.COLOR => Command.strokePathColor c.color width ⟨cap, join, true⟩
          | PaintType.LINEAR_GRADIENT =>
            Command.strokePathGradient gradient width ⟨cap, join, true⟩
          | PaintType.RADIAL_GRADIENT =>
            Command.strokePathGradient gradient width ⟨cap, join, true⟩] := by
  have hgeo : path.geometry.filter Command.isDraw = [] := by
    rw [List.filter_eq_nil_iff]
    intro cmd hcmd
    simp only [Path.geometry, List.mem_cons, List.mem_map] at hcmd
    rcases hcmd with rfl | ⟨seg, _, rfl⟩
    · simp [Command.isDraw]
    · cases seg <;> simp [Command.isDraw, PathSegment.toCommand]
  rw [issued_of_append
    (stroke_commands c path transform width cap join miterlimit dash mode opacity gradient)]
  by_cases hhit : c.latestPath = some path.addr <;> cases hp : c.paintType <;>
    simp [hhit, List.filter_append, hgeo, Command.isDraw]

theorem fill_draw (c : Canvas) (path : Path) (transform : Transform) (winding : WindRule)
    (mode : BlendMode) (opacity : ℚ) (gradient : GradientHandle) :
    (issued c (c.fill path transform winding mode opacity gradient)).filter Command.isDraw
      = [match c.paintType with
          | PaintType.COLOR => Command.fillPathColor c.color ⟨PathType.Concave, winding, true⟩
          | PaintType.LINEAR_GRADIENT =>
            Command.fillPathGradient gradient ⟨PathType.Concave, winding, true⟩
          | PaintType.RADIAL_GRADIENT =>
            Command.fillPathGradient gradient ⟨PathType.Concave, winding, true⟩] := by
  have hgeo : path.geometry.filter Command.isDraw = [] := by
    rw [List.filter_eq_nil_iff]
    intro cmd hcmd
    simp only [Path.geometry, List.mem_cons, List.mem_map] at hcmd
    rcases hcmd with rfl | ⟨seg, _, rfl⟩
    · simp [Command.isDraw]
    · cases seg <;> simp [Command.isDraw, PathSegment.toCommand]
  rw [issued_of_append (fill_commands c path transform winding mode opacity gradient)]
  by_cases hhit : c.latestPath = some path.addr <;> cases hp : c.paintType <;>
    simp [hhit, List.filter_append, hgeo, Command.isDraw]

/-- C12 as amended: the one backend stroke command that `Canvas::stroke` issues
carries the caller's width, cap style and join style; the miter limit and the
dash pattern are accepted and not forwarded, so calls that differ only in them
leave the same canvas and the same backend commands. -/
theorem stroke_forwards_width_cap_join_only (c : Canvas) (path : Path) (transform : Transform)
    (width : ℚ) (cap : LineCap) (join : LineJoin) (miterlimit : ℚ) (dash : DashData)
    (mode : BlendMode) (opacity : ℚ) (gradient : GradientHandle) :
    (issued c (c.stroke path transform width cap join miterlimit dash mode opacity
        gradient)).filter Command.isDraw
      = [match c.paintType with
          | PaintType.COLOR => Command.strokePathColor c.color width ⟨cap, join, true⟩
          | PaintType.LINEAR_GRADIENT =>
            Command.strokePathGradient gradient width ⟨cap, join, true⟩
          | PaintType.RADIAL_GRADIENT =>
            Command.strokePathGradient gradient width ⟨cap, join, true⟩] ∧
    ∀ (miterlimit2 : ℚ) (dash2 : DashData),
      c.stroke path transform width cap join miterlimit2 dash2 mode opacity gradient
        = c.stroke path transform width cap join miterlimit dash mode opacity gradient :=
  ⟨stroke_draw c path transform width cap join miterlimit dash mode opacity gradient,
    fun _ _ => rfl⟩

/-- C13: `Canvas::blend` appends to the canvas's command list exactly
push-state, multiply-colour by `(1, 1, 1, opacity)`, submit of the source
canvas's command-list handle, pop-state, and changes nothing else of the
canvas; the result is the same for every blend mode. -/
theorem blend_commands (c source : Canvas) (mode : BlendMode) (opacity : ℚ) :
    (c.blend source mode opacity).cl.commands
      = c.cl.commands ++ [Command.pushState, Command.mulColor ⟨1, 1, 1, opacity⟩,
          Command.submitCommandList source.cl.m_Handle, Command.popState] ∧
    (c.blend source mode opacity).cl.m_Handle = c.cl.m_Handle ∧
    (∀ mode2 : BlendMode, c.blend source mode2 opacity = c.blend source mode opacity) := by
  refine ⟨?_, rfl, fun _ => rfl⟩
  simp [Canvas.blend, vg.clPushState, vg.clPopState, vg.clMulColor, vg.clSubmitCommandList,
    CommandListRef.record, vg.color4f]

/-! ## Theorems: the matrix algebra -/

theorem mul_mapPoint (A B : Matrix) (px py : ℚ) :
    (A.mul B).mapPoint px py = A.mapPoint (B.mapPoint px py).1 (B.mapPoint px py).2 := by
  simp only [Matrix.mapPoint, Matrix.mul, Matrix.ofTransform, Transform.ofMatrix,
    Transform.mul, Transform.map, Prod.mk.injEq]
  constructor <;> ring

/-- C14: every mutator of `Matrix` replaces the matrix by the elementary matrix
multiplied from the left onto the prior value, and with `(A*B)(p) = A(B(p))`
the operation acts after the prior map; `translate(tx, ty)` followed by
`scale(sx, sy)` on the identity maps `(px, py)` to `(sx*(px+tx), sy*(py+ty))`. -/
theorem mutators_left_multiply (trig : Trigonometric) (M : Matrix)
    (t cx cy sx sy shx shy tx ty a b c d e f px py : ℚ) :
    M.rotate trig t = (Matrix.rotated trig t).mul M ∧
    M.rotateAbout trig t cx cy = (Matrix.rotatedAbout trig t cx cy).mul M ∧
    M.scale sx sy = (Matrix.scaled sx sy).mul M ∧
    M.shear trig shx shy = (Matrix.sheared trig shx shy).mul M ∧
    M.translate tx ty = (Matrix.translated tx ty).mul M ∧
    M.transform a b c d e f = (Matrix.mk a b c d e f).mul M ∧
    (M.scale sx sy).mapPoint px py
      = (sx * (M.mapPoint px py).1, sy * (M.mapPoint px py).2) ∧
    (M.translate tx ty).mapPoint px py
      = ((M.mapPoint px py).1 + tx, (M.mapPoint px py).2 + ty) ∧
    (M.transform a b c d e f).mapPoint px py
      = (Matrix.mk a b c d e f).mapPoint (M.mapPoint px py).1 (M.mapPoint px py).2 ∧
    ((Matrix.identity.translate tx ty).scale sx sy).mapPoint px py
      = (sx * (px + tx), sy * (py + ty)) := by
  refine ⟨rfl, rfl, rfl, rfl, rfl, rfl, ?_, ?_, ?_, ?_⟩
  · simp only [Matrix.scale, mul_mapPoint]
    simp only [Matrix.mapPoint, Matrix.scaled, Matrix.ofTransform, Transform.ofMatrix,
      Transform.scaled, Transform.map, Prod.mk.injEq]
    constructor <;> ring
  · simp only [Matrix.translate, mul_mapPoint]
    simp only [Matrix.mapPoint, Matrix.translated, Matrix.ofTransform, Transform.ofMatrix,
      Transform.translated, Transform.map, Prod.mk.injEq]
    constructor <;> ring
  · simp only [Matrix.transform, mul_mapPoint]
  · simp only [Matrix.scale, Matrix.translate, mul_mapPoint]
    simp only [Matrix.mapPoint, Matrix.scaled, Matrix.translated, Matrix.identity,
      Matrix.ofTransform, Transform.ofMatrix, Transform.scaled, Transform.translated,
      Transform.map, Prod.mk.injEq]
    constructor <;> ring

/-- C15: for a matrix with determinant `a*d - b*c` different from 0,
`M.inverted() * M` is the identity `(1, 0, 0, 1, 0, 0)` (and so is
`M * M.inverted()`), and `M.invert()` replaces `M` by `M.inverted()`. -/
theorem inverted_mul_self (M : Matrix) (hdet : M.a * M.d - M.b * M.c ≠ 0) :
    M.inverted.mul M = ⟨1, 0, 0, 1, 0, 0⟩ ∧
    M.mul M.inverted = ⟨1, 0, 0, 1, 0, 0⟩ ∧
    M.invert = M.inverted ∧
    M.invert.mul M = Matrix.identity := by
  have hmain : M.inverted.mul M = ⟨1, 0, 0, 1, 0, 0⟩ := by
    simp only [Matrix.inverted, Matrix.mul, Matrix.ofTransform, Transform.ofMatrix,
      Transform.mul, Transform.inverted, Matrix.mk.injEq]
    refine ⟨?_, ?_, ?_, ?_, ?_, ?_⟩ <;> field_simp <;> ring
  refine ⟨hmain, ?_, rfl, hmain⟩
  simp only [Matrix.inverted, Matrix.mul, Matrix.ofTransform, Transform.ofMatrix,
    Transform.mul, Transform.inverted, Matrix.mk.injEq]
  refine ⟨?_, ?_, ?_, ?_, ?_, ?_⟩ <;> field_simp <;> ring

/-- Witness for C15: the matrix `(2, 1, 1, 1, 3, 4)` with determinant 1. -/
theorem inverted_mul_self_witness :
    (2 : ℚ) * 1 - 1 * 1 ≠ 0 ∧
    (Matrix.mk 2 1 1 1 3 4).inverted.mul (Matrix.mk 2 1 1 1 3 4) = ⟨1, 0, 0, 1, 0, 0⟩ :=
  ⟨by norm_num, (inverted_mul_self (Matrix.mk 2 1 1 1 3 4) (by norm_num)).1⟩

/-! ## Theorems: the document entry points -/

/-- C16: for a document whose width or height is zero, `Document::renderToBitmap`
returns the empty handle sequence, creates no canvas and does not call the
root node's `render`, whatever that `render` would do. -/
theorem renderToBitmap_zero_size_empty (doc : Document) (rootRender : RenderState → RenderState)
    (cl : CommandListRef) (hz : doc.root.width = 0 ∨ doc.root.height = 0) :
    doc.renderToBitmap rootRender cl = some ([], []) := by
  simp [Document.renderToBitmap, if_pos hz]

/-- Witness for C16: a document of width 0 and height 5. -/
theorem renderToBitmap_zero_size_empty_witness :
    ((Document.mk ⟨0, 5⟩).root.width = 0 ∨ (Document.mk ⟨0, 5⟩).root.height = 0) ∧
    (Document.mk ⟨0, 5⟩).renderToBitmap groupingRoot ⟨⟨0⟩, []⟩ = some ([], []) :=
  ⟨Or.inl rfl, renderToBitmap_zero_size_empty (Document.mk ⟨0, 5⟩) groupingRoot ⟨⟨0⟩, []⟩
    (Or.inl rfl)⟩

/-- C17, the claim as stated fails: for a document of width 0 and a root node
whose `render` creates one child canvas (backend handle 5), `Document::render`
with the identity matrix returns the sequence `[5]`, not the empty one. -/
theorem render_zero_size_returns_child_handles :
    (Document.mk ⟨0, 5⟩).root.width = 0 ∧
    ((Document.mk ⟨0, 5⟩).render groupingRoot ⟨⟨0⟩, []⟩ ⟨1, 0, 0, 1, 0, 0⟩).map Prod.fst
      = some [⟨5⟩] := by
  refine ⟨rfl, ?_⟩
  have hc : Canvas.create ⟨⟨0⟩, []⟩ 0 0 (0 : ℚ) 5 = Canvas.new ⟨⟨0⟩, []⟩ 0 0 1 1 := by
    simp [Canvas.create]
  have hd : Canvas.create ⟨⟨5⟩, []⟩ 0 0 (1 : ℚ) 1 = Canvas.new ⟨⟨5⟩, []⟩ 0 0 1 1 := by
    have he := create_of_values ⟨⟨5⟩, []⟩ 0 0 1 1 _ _ _ _ (by norm_num) (by norm_num)
      Int.floor_zero Int.floor_zero ceil_roundDouble_zero_add_one
      ceil_roundDouble_zero_add_one
    have t0 : toInt32 0 = 0 := by decide
    have t1 : toInt32 1 = 1 := by decide
    have t2 : toInt32 (1 - 0) = 1 := by decide
    rw [t0, t1, t2] at he
    exact he
  simp only [Document.render, groupingRoot, Canvas.createChild, hc, hd]
  rfl

/-- C17 as amended: for a document whose width or height is zero,
`Document::render` creates the placeholder canvas `(0, 0, 1, 1)` on the given
command list, calls the root node's `render` once with that canvas and the
transform of the given matrix, and returns the descendant list that the state's
canvas has after that call; the sequence is empty when the root's `render`
leaves the state as it was. -/
theorem render_zero_size_placeholder (doc : Document) (rootRender : RenderState → RenderState)
    (cl : CommandListRef) (matrix : Matrix)
    (hz : doc.root.width = 0 ∨ doc.root.height = 0) :
    doc.render rootRender cl matrix
      = ((rootRender ⟨[Canvas.new cl 0 0 1 1], 0,
            ⟨matrix.a, matrix.b, matrix.c, matrix.d, matrix.e, matrix.f⟩,
            RenderMode.Display⟩).heap[(rootRender ⟨[Canvas.new cl 0 0 1 1], 0,
            ⟨matrix.a, matrix.b, matrix.c, matrix.d, matrix.e, matrix.f⟩,
            RenderMode.Display⟩).canvas]?).map
          (fun cv => (cv.child,
            [RenderEvent.canvasCreated (Canvas.new cl 0 0 1 1),
              RenderEvent.rootRendered 0
                ⟨matrix.a, matrix.b, matrix.c, matrix.d, matrix.e, matrix.f⟩])) ∧
    (Canvas.new cl 0 0 1 1).rect = ⟨0, 0, 1, 1⟩ ∧
    doc.render (fun state => state) cl matrix
      = some ([], [RenderEvent.canvasCreated (Canvas.new cl 0 0 1 1),
          RenderEvent.rootRendered 0
            ⟨matrix.a, matrix.b, matrix.c, matrix.d, matrix.e, matrix.f⟩]) := by
  have hd : doc.root.width ≤ 0 ∨ doc.root.height ≤ 0 := by
    rcases hz with h | h
    · exact Or.inl (le_of_eq h)
    · exact Or.inr (le_of_eq h)
  have hc : Canvas.create cl 0 0 doc.root.width doc.root.height = Canvas.new cl 0 0 1 1 := by
    simp [Canvas.create, if_pos hd]
  refine ⟨?_, ?_, ?_⟩
  · simp only [Document.render, hc]
    cases (rootRender ⟨[Canvas.new cl 0 0 1 1], 0,
        ⟨matrix.a, matrix.b, matrix.c, matrix.d, matrix.e, matrix.f⟩,
        RenderMode.Display⟩).heap[(rootRender ⟨[Canvas.new cl 0 0 1 1], 0,
        ⟨matrix.a, matrix.b, matrix.c, matrix.d, matrix.e, matrix.f⟩,
        RenderMode.Display⟩).canvas]? <;> rfl
  · exact new_unit_rect cl
  · simp only [Document.render, hc]
    rfl

/-- Witness for C17 as amended: a document of width 0 and height 5. -/
theorem render_zero_size_placeholder_witness :
    ((Document.mk ⟨0, 5⟩).root.width = 0 ∨ (Document.mk ⟨0, 5⟩).root.height = 0) ∧
    (Document.mk ⟨0, 5⟩).render (fun state => state) ⟨⟨0⟩, []⟩ ⟨1, 0, 0, 1, 0, 0⟩
      = some ([], [RenderEvent.canvasCreated (Canvas.new ⟨⟨0⟩, []⟩ 0 0 1 1),
          RenderEvent.rootRendered 0 ⟨1, 0, 0, 1, 0, 0⟩]) :=
  ⟨Or.inl rfl,
    (render_zero_size_placeholder (Document.mk ⟨0, 5⟩) groupingRoot ⟨⟨0⟩, []⟩ ⟨1, 0, 0, 1, 0, 0⟩
      (Or.inl rfl)).2.2⟩

/-! ## Theorems: the paint state -/

theorem fill_paint (c : Canvas) (path : Path) (transform : Transform) (winding : WindRule)
    (mode : BlendMode) (opacity : ℚ) (gradient : GradientHandle) :
    (issued c (c.fill path transform winding mode opacity gradient)).filter Command.isPaint
      = (match c.paintType with
          | PaintType.COLOR =>
            [Command.fillPathColor c.color ⟨PathType.Concave, winding, true⟩]
          | PaintType.LINEAR_GRADIENT =>
            [Command.createLinearGradient c.gradientParams.1 c.gradientParams.2.1
                c.gradientParams.2.2.1 c.gradientParams.2.2.2 c.gradientColors
                c.gradientStops (c.gradientStops.length % 65536),
              Command.fillPathGradient gradient ⟨PathType.Concave, winding, true⟩]
          | PaintType.RADIAL_GRADIENT =>
            [Command.createRadialGradient c.gradientParams.1 c.gradientParams.2.1
                c.gradientParams.2.2.1 c.gradientParams.2.2.2 c.gradientColors
                c.gradientStops (c.gradientStops.length % 65536),
              Command.fillPathGradient gradient ⟨PathType.Concave, winding, true⟩]) := by
  have hgeo : path.geometry.filter Command.isPaint = [] := by
    rw [List.filter_eq_nil_iff]
    intro cmd hcmd
    simp only [Path.geometry, List.mem_cons, List.mem_map] at hcmd
    rcases hcmd with rfl | ⟨seg, _, rfl⟩
    · simp [Command.isPaint, Command.isDraw]
    · cases seg <;> simp [Command.isPaint, Command.isDraw, PathSegment.toCommand]
  rw [issued_of_append (fill_commands c path transform winding mode opacity gradient)]
  by_cases hhit : c.latestPath = some path.addr <;> cases hp : c.paintType <;>
    simp [hhit, List.filter_append, hgeo, Command.isPaint, Command.isDraw]

theorem stroke_paint (c : Canvas) (path : Path) (transform : Transform) (width : ℚ)
    (cap : LineCap) (join : LineJoin) (miterlimit : ℚ) (dash : DashData) (mode : BlendMode)
    (opacity : ℚ) (gradient : GradientHandle) :
    (issued c (c.stroke path transform width cap join miterlimit dash mode opacity
        gradient)).filter Command.isPaint
      = (match c.paintType with
          | PaintType.COLOR => [Command.strokePathColor c.color width ⟨cap, join, true⟩]
          | PaintType.LINEAR_GRADIENT =>
            [Command.createLinearGradient c.gradientParams.1 c.gradientParams.2.1
                c.gradientParams.2.2.1 c.gradientParams.2.2.2 c.gradientColors
                c.gradientStops (c.gradientStops.length % 65536),
              Command.strokePathGradient gradient width ⟨cap, join, true⟩]
          | PaintType.RADIAL_GRADIENT =>
            [Command.createRadialGradient c.gradientParams.1 c.gradientParams.2.1
                c.gradientParams.2.2.1 c.gradientParams.2.2.2 c.gradientColors
                c.gradientStops (c.gradientStops.length % 65536),
              Command.strokePathGradient gradient width ⟨cap, join, true⟩]) := by
  have hgeo : path.geometry.filter Command.isPaint = [] := by
    rw [List.filter_eq_nil_iff]
    intro cmd hcmd
    simp only [Path.geometry, List.mem_cons, List.mem_map] at hcmd
    rcases hcmd with rfl | ⟨seg, _, rfl⟩
    · simp [Command.isPaint, Command.isDraw]
    · cases seg <;> simp [Command.isPaint, Command.isDraw, PathSegment.toCommand]
  rw [issued_of_append
    (stroke_commands c path transform width cap join miterlimit dash mode opacity gradient)]
  by_cases hhit : c.latestPath = some path.addr <;> cases hp : c.paintType <;>
    simp [hhit, List.filter_append, hgeo, Command.isPaint, Command.isDraw]

/-- C18: whatever the canvas state and the arguments, `Canvas::setTexture`
leaves the paint kind `COLOR` and the colour opaque white, and the next `fill`
or `stroke` issues its draw command with opaque white and creates no gradient. -/
theorem setTexture_resets_to_white (c : Canvas) (source : Option CanvasRef)
    (type : TextureType) (texTransform : Transform) (path : Path) (transform : Transform)
    (winding : WindRule) (mode : BlendMode) (opacity : ℚ) (gradient : GradientHandle)
    (width : ℚ) (cap : LineCap) (join : LineJoin) (miterlimit : ℚ) (dash : DashData) :
    (c.setTexture source type texTransform).paintType = PaintType.COLOR ∧
    (c.setTexture source type texTransform).color = vg.Colors.White ∧
    vg.Colors.White = ⟨1, 1, 1, 1⟩ ∧
    (issued (c.setTexture source type texTransform)
        ((c.setTexture source type texTransform).fill path transform winding mode opacity
          gradient)).filter Command.isPaint
      = [Command.fillPathColor vg.Colors.White ⟨PathType.Concave, winding, true⟩] ∧
    (issued (c.setTexture source type texTransform)
        ((c.setTexture source type texTransform).stroke path transform width cap join
          miterlimit dash mode opacity gradient)).filter Command.isPaint
      = [Command.strokePathColor vg.Colors.White width ⟨cap, join, true⟩] := by
  refine ⟨rfl, rfl, rfl, ?_, ?_⟩
  · rw [fill_paint]
    rfl
  · rw [stroke_paint]
    rfl

/-- C19: each paint setter leaves the command list (it records no backend
call), the clip rectangle, the descendant list, the parent link and the cached
path as they were, and the paint it stores is the one the next `fill` and the
next `stroke` hand to the backend. -/
theorem paint_setters_change_paint_only (c : Canvas) (color : Color)
    (x1 y1 x2 y2 : ℚ) (stops : GradientStops) (spread : SpreadMethod) (T : Transform)
    (cx cy r fx fy : ℚ) (source : Option CanvasRef) (type : TextureType)
    (path : Path) (transform : Transform) (winding : WindRule) (mode : BlendMode)
    (opacity : ℚ) (gradient : GradientHandle)
    (width : ℚ) (cap : LineCap) (join : LineJoin) (miterlimit : ℚ) (dash : DashData) :
    (c.SameOutsidePaint (c.setColor color) ∧
     c.SameOutsidePaint (c.setLinearGradient x1 y1 x2 y2 stops spread T) ∧
     c.SameOutsidePaint (c.setRadialGradient cx cy r fx fy stops spread T) ∧
     c.SameOutsidePaint (c.setTexture source type T)) ∧
    ((issued (c.setColor color)
        ((c.setColor color).fill path transform winding mode opacity gradient)).filter
          Command.isPaint
      = [Command.fillPathColor ⟨color.r, color.g, color.b, color.a⟩
          ⟨PathType.Concave, winding, true⟩] ∧
     (issued (c.setColor color)
        ((c.setColor color).stroke path transform width cap join miterlimit dash mode opacity
          gradient)).filter Command.isPaint
      = [Command.strokePathColor ⟨color.r, color.g, color.b, color.a⟩ width
          ⟨cap, join, true⟩]) ∧
    ((issued (c.setLinearGradient x1 y1 x2 y2 stops spread T)
        ((c.setLinearGradient x1 y1 x2 y2 stops spread T).fill path transform winding mode
          opacity gradient)).filter Command.isPaint
      = [Command.createLinearGradient
            (c.setLinearGradient x1 y1 x2 y2 stops spread T).gradientParams.1
            (c.setLinearGradient x1 y1 x2 y2 stops spread T).gradientParams.2.1
            (c.setLinearGradient x1 y1 x2 y2 stops spread T).gradientParams.2.2.1
            (c.setLinearGradient x1 y1 x2 y2 stops spread T).gradientParams.2.2.2
            (c.setLinearGradient x1 y1 x2 y2 stops spread T).gradientColors
            (c.setLinearGradient x1 y1 x2 y2 stops spread T).gradientStops
            ((c.setLinearGradient x1 y1 x2 y2 stops spread T).gradientStops.length % 65536),
          Command.fillPathGradient gradient ⟨PathType.Concave, winding, true⟩] ∧
     (issued (c.setLinearGradient x1 y1 x2 y2 stops spread T)
        ((c.setLinearGradient x1 y1 x2 y2 stops spread T).stroke path transform width cap join
          miterlimit dash mode opacity gradient)).filter Command.isPaint
      = [Command.createLinearGradient
            (c.setLinearGradient x1 y1 x2 y2 stops spread T).gradientParams.1
            (c.setLinearGradient x1 y1 x2 y2 stops spread T).gradientParams.2.1
            (c.setLinearGradient x1 y1 x2 y2 stops spread T).gradientParams.2.2.1
            (c.setLinearGradient x1 y1 x2 y2 stops spread T).gradientParams.2.2.2
            (c.setLinearGradient x1 y1 x2 y2 stops spread T).gradientColors
            (c.setLinearGradient x1 y1 x2 y2 stops spread T).gradientStops
            ((c.setLinearGradient x1 y1 x2 y2 stops spread T).gradientStops.length % 65536),
          Command.strokePathGradient gradient width ⟨cap, join, true⟩]) ∧
    ((issued (c.setRadialGradient cx cy r fx fy stops spread T)
        ((c.setRadialGradient cx cy r fx fy stops spread T).fill path transform winding mode
          opacity gradient)).filter Command.isPaint
      = [Command.createRadialGradient
            (c.setRadialGradient cx cy r fx fy stops spread T).gradientParams.1
            (c.setRadialGradient cx cy r fx fy stops spread T).gradientParams.2.1
            (c.setRadialGradient cx cy r fx fy stops spread T).gradientParams.2.2.1
            (c.setRadialGradient cx cy r fx fy stops spread T).gradientParams.2.2.2
            (c.setRadialGradient cx cy r fx fy stops spread T).gradientColors
            (c.setRadialGradient cx cy r fx fy stops spread T).gradientStops
            ((c.setRadialGradient cx cy r fx fy stops spread T).gradientStops.length % 65536),
          Command.fillPathGradient gradient ⟨PathType.Concave, winding, true⟩] ∧
     (issued (c.setRadialGradient cx cy r fx fy stops spread T)
        ((c.setRadialGradient cx cy r fx fy stops spread T).stroke path transform width cap
          join miterlimit dash mode opacity gradient)).filter Command.isPaint
      = [Command.createRadialGradient
            (c.setRadialGradient cx cy r fx fy stops spread T).gradientParams.1
            (c.setRadialGradient cx cy r fx fy stops spread T).gradientParams.2.1
            (c.setRadialGradient cx cy r fx fy stops spread T).gradientParams.2.2.1
            (c.setRadialGradient cx cy r fx fy stops spread T).gradientParams.2.2.2
            (c.setRadialGradient cx cy r fx fy stops spread T).gradientColors
            (c.setRadialGradient cx cy r fx fy stops spread T).gradientStops
            ((c.setRadialGradient cx cy r fx fy stops spread T).gradientStops.length % 65536),
          Command.strokePathGradient gradient width ⟨cap, join, true⟩]) ∧
    ((issued (c.setTexture source type T)
        ((c.setTexture source type T).fill path transform winding mode opacity
          gradient)).filter Command.isPaint
      = [Command.fillPathColor vg.Colors.White ⟨PathType.Concave, winding, true⟩] ∧
     (issued (c.setTexture source type T)
        ((c.setTexture source type T).stroke path transform width cap join miterlimit dash
          mode opacity gradient)).filter Command.isPaint
      = [Command.strokePathColor vg.Colors.White width ⟨cap, join, true⟩]) := by
  refine ⟨⟨⟨rfl, rfl, rfl, rfl, rfl⟩, ⟨rfl, rfl, rfl, rfl, rfl⟩, ⟨rfl, rfl, rfl, rfl, rfl⟩,
    ⟨rfl, rfl, rfl, rfl, rfl⟩⟩, ⟨?_, ?_⟩, ⟨?_, ?_⟩, ⟨?_, ?_⟩, ⟨?_, ?_⟩⟩
  · rw [fill_paint]; rfl
  · rw [stroke_paint]; rfl
  · rw [fill_paint]; rfl
  · rw [stroke_paint]; rfl
  · rw [fill_paint]; rfl
  · rw [stroke_paint]; rfl
  · rw [fill_paint]; rfl
  · rw [stroke_paint]; rfl

theorem foldl_collect (stops : GradientStops) :
    ∀ (acc : List ℚ × List VgColor),
      stops.foldl
          (fun acc stop =>
            (acc.1 ++ [stop.1], acc.2 ++ [vg.color4f stop.2.r stop.2.g stop.2.b stop.2.a]))
          acc
        = (acc.1 ++ stops.map Prod.fst,
           acc.2 ++ stops.map (fun stop => vg.color4f stop.2.r stop.2.g stop.2.b stop.2.a)) := by
  induction stops with
  | nil => intro acc; simp
  | cons stop rest ih =>
    intro acc
    simp only [List.foldl_cons, ih, List.map_cons, List.append_assoc, List.singleton_append]

theorem collectStops_eq (stops : GradientStops) :
    Canvas.collectStops stops
      = (stops.map Prod.fst,
         stops.map (fun stop => (⟨stop.2.r, stop.2.g, stop.2.b, stop.2.a⟩ : VgColor))) := by
  unfold Canvas.collectStops
  rw [foldl_collect]
  simp only [List.nil_append, vg.color4f]

/-- C20: after `setLinearGradient` or `setRadialGradient`, whatever gradient
the canvas held before, the stored stop offsets are the first components of
`stops` and the stored colours are the `(r, g, b, a)` of the second components,
both in the caller's order; the two lists have the length of `stops`. -/
theorem gradient_stops_stored_in_order (c : Canvas) (x1 y1 x2 y2 : ℚ) (cx cy r fx fy : ℚ)
    (stops : GradientStops) (spread : SpreadMethod) (T : Transform) :
    ((c.setLinearGradient x1 y1 x2 y2 stops spread T).gradientStops = stops.map Prod.fst ∧
     (c.setLinearGradient x1 y1 x2 y2 stops spread T).gradientColors
        = stops.map (fun stop => (⟨stop.2.r, stop.2.g, stop.2.b, stop.2.a⟩ : VgColor)) ∧
     (c.setLinearGradient x1 y1 x2 y2 stops spread T).gradientStops.length = stops.length ∧
     (c.setLinearGradient x1 y1 x2 y2 stops spread T).gradientColors.length = stops.length) ∧
    ((c.setRadialGradient cx cy r fx fy stops spread T).gradientStops = stops.map Prod.fst ∧
     (c.setRadialGradient cx cy r fx fy stops spread T).gradientColors
        = stops.map (fun stop => (⟨stop.2.r, stop.2.g, stop.2.b, stop.2.a⟩ : VgColor)) ∧
     (c.setRadialGradient cx cy r fx fy stops spread T).gradientStops.length = stops.length ∧
     (c.setRadialGradient cx cy r fx fy stops spread T).gradientColors.length
        = stops.length) := by
  have h := collectStops_eq stops
  refine ⟨⟨?_, ?_, ?_, ?_⟩, ⟨?_, ?_, ?_, ?_⟩⟩ <;>
    simp [Canvas.setLinearGradient, Canvas.setRadialGradient, h]

/-! ## Theorems: the command sequence of one fill or stroke -/

theorem stackDepth_append (l1 l2 : List Command) :
    stackDepth (l1 ++ l2) = stackDepth l1 + stackDepth l2 := by
  simp [stackDepth]

theorem stackDepth_geometry (path : Path) : stackDepth path.geometry = 0 := by
  have h : ∀ segs : List PathSegment,
      ((segs.map PathSegment.toCommand).map Command.depthChange).sum = 0 := by
    intro segs
    induction segs with
    | nil => rfl
    | cons seg rest ih =>
      cases seg <;> simpa [PathSegment.toCommand, Command.depthChange] using ih
  simp only [stackDepth, Path.geometry, List.map_cons, List.sum_cons, h]
  rfl

theorem fill_stackDepth (c : Canvas) (path : Path) (transform : Transform) (winding : WindRule)
    (mode : BlendMode) (opacity : ℚ) (gradient : GradientHandle) :
    stackDepth (c.fill path transform winding mode opacity gradient).cl.commands
      = stackDepth c.cl.commands := by
  have hg : (path.geometry.map Command.depthChange).sum = 0 := stackDepth_geometry path
  rw [fill_commands]
  by_cases hhit : c.latestPath = some path.addr <;> cases hp : c.paintType <;>
    simp [hhit, stackDepth, Command.depthChange, hg]

theorem stroke_stackDepth (c : Canvas) (path : Path) (transform : Transform) (width : ℚ)
    (cap : LineCap) (join : LineJoin) (miterlimit : ℚ) (dash : DashData) (mode : BlendMode)
    (opacity : ℚ) (gradient : GradientHandle) :
    stackDepth
        (c.stroke path transform width cap join miterlimit dash mode opacity
          gradient).cl.commands
      = stackDepth c.cl.commands := by
  have hg : (path.geometry.map Command.depthChange).sum = 0 := stackDepth_geometry path
  rw [stroke_commands]
  by_cases hhit : c.latestPath = some path.addr <;> cases hp : c.paintType <;>
    simp [hhit, stackDepth, Command.depthChange, hg]

/-- C21, the claim as stated fails for a gradient paint: on a new canvas with a
linear gradient set, one `fill` of a two-segment path records eight backend
calls, with the gradient-creating call between the geometry and the one draw
call; the list is not push-state, transform-multiply, geometry, a single draw
command, pop-state. -/
theorem fill_with_gradient_records_gradient_call :
    issued
        ((Canvas.create ⟨⟨0⟩, []⟩ 0 0 8 8).setLinearGradient 0 0 0 1 [] SpreadMethod.Pad
          Transform.identity)
        (((Canvas.create ⟨⟨0⟩, []⟩ 0 0 8 8).setLinearGradient 0 0 0 1 [] SpreadMethod.Pad
          Transform.identity).fill
          ⟨1, [PathSegment.MoveTo ⟨0, 0⟩, PathSegment.LineTo ⟨4, 0⟩]⟩ Transform.identity
          WindRule.NonZero BlendMode.Src_Over 1 ⟨0⟩)
      = [Command.pushState, Command.transformMult ⟨1, 0, 0, 1, 0, 0⟩ TransformOrder.Post,
          Command.beginPath, Command.moveTo 0 0, Command.lineTo 4 0,
          Command.createLinearGradient 0 0 0 1 [] [] 0,
          Command.fillPathGradient ⟨0⟩ ⟨PathType.Concave, WindRule.NonZero, true⟩,
          Command.popState] ∧
    ¬ ∃ draw : Command,
        issued
            ((Canvas.create ⟨⟨0⟩, []⟩ 0 0 8 8).setLinearGradient 0 0 0 1 [] SpreadMethod.Pad
              Transform.identity)
            (((Canvas.create ⟨⟨0⟩, []⟩ 0 0 8 8).setLinearGradient 0 0 0 1 []
              SpreadMethod.Pad Transform.identity).fill
              ⟨1, [PathSegment.MoveTo ⟨0, 0⟩, PathSegment.LineTo ⟨4, 0⟩]⟩ Transform.identity
              WindRule.NonZero BlendMode.Src_Over 1 ⟨0⟩)
          = [Command.pushState, Command.transformMult ⟨1, 0, 0, 1, 0, 0⟩ TransformOrder.Post]
              ++ (Path.mk 1 [PathSegment.MoveTo ⟨0, 0⟩, PathSegment.LineTo ⟨4, 0⟩]).geometry
              ++ [draw] ++ [Command.popState] := by
  have hlist : issued
        ((Canvas.create ⟨⟨0⟩, []⟩ 0 0 8 8).setLinearGradient 0 0 0 1 [] SpreadMethod.Pad
          Transform.identity)
        (((Canvas.create ⟨⟨0⟩, []⟩ 0 0 8 8).setLinearGradient 0 0 0 1 [] SpreadMethod.Pad
          Transform.identity).fill
          ⟨1, [PathSegment.MoveTo ⟨0, 0⟩, PathSegment.LineTo ⟨4, 0⟩]⟩ Transform.identity
          WindRule.NonZero BlendMode.Src_Over 1 ⟨0⟩)
      = [Command.pushState, Command.transformMult ⟨1, 0, 0, 1, 0, 0⟩ TransformOrder.Post,
          Command.beginPath, Command.moveTo 0 0, Command.lineTo 4 0,
          Command.createLinearGradient 0 0 0 1 [] [] 0,
          Command.fillPathGradient ⟨0⟩ ⟨PathType.Concave, WindRule.NonZero, true⟩,
          Command.popState] := by
    have hl : ((Canvas.create ⟨⟨0⟩, []⟩ 0 0 8 8).setLinearGradient 0 0 0 1 []
        SpreadMethod.Pad Transform.identity).latestPath = none :=
      create_latestPath _ _ _ _ _
    have hp : ((Canvas.create ⟨⟨0⟩, []⟩ 0 0 8 8).setLinearGradient 0 0 0 1 []
        SpreadMethod.Pad Transform.identity).paintType = PaintType.LINEAR_GRADIENT := rfl
    have hg : ((Canvas.create ⟨⟨0⟩, []⟩ 0 0 8 8).setLinearGradient 0 0 0 1 []
        SpreadMethod.Pad Transform.identity).gradientParams = (0, 0, 0, 1) := by
      simp only [Canvas.setLinearGradient, vgutil.transformPos2D, vgutil.multiplyMatrix3,
        Transform.toFloat6, Transform.identity, Prod.mk.injEq]
      refine ⟨?_, ?_, ?_, ?_⟩ <;> norm_num
    have hs : ((Canvas.create ⟨⟨0⟩, []⟩ 0 0 8 8).setLinearGradient 0 0 0 1 []
        SpreadMethod.Pad Transform.identity).gradientStops = [] := rfl
    have hc : ((Canvas.create ⟨⟨0⟩, []⟩ 0 0 8 8).setLinearGradient 0 0 0 1 []
        SpreadMethod.Pad Transform.identity).gradientColors = [] := rfl
    rw [issued_of_append (fill_commands _ _ _ _ _ _ _), hl, hp, hg, hs, hc]
    simp [Path.geometry, PathSegment.toCommand, Transform.toFloat6, Transform.identity]
  refine ⟨hlist, ?_⟩
  rintro ⟨draw, hdraw⟩
  rw [hlist] at hdraw
  have hlen := congrArg List.length hdraw
  simp [Path.geometry] at hlen

theorem fill_draw_length (c : Canvas) (path : Path) (transform : Transform) (winding : WindRule)
    (mode : BlendMode) (opacity : ℚ) (gradient : GradientHandle) :
    ((issued c (c.fill path transform winding mode opacity gradient)).filter
      Command.isDraw).length = 1 := by
  rw [fill_draw]
  rfl

theorem stroke_draw_length (c : Canvas) (path : Path) (transform : Transform) (width : ℚ)
    (cap : LineCap) (join : LineJoin) (miterlimit : ℚ) (dash : DashData) (mode : BlendMode)
    (opacity : ℚ) (gradient : GradientHandle) :
    ((issued c (c.stroke path transform width cap join miterlimit dash mode opacity
      gradient)).filter Command.isDraw).length = 1 := by
  rw [stroke_draw]
  rfl

/-- C21 as amended: one `Canvas::fill` or `Canvas::stroke` call appends to the
command list push-state, transform-multiply in post order with the call's
transform as `(m00, m10, m01, m11, m02, m12)`, the path geometry if and only if
the path is not the cached one, for a gradient paint the call that creates the
gradient from the stored parameters, colours and stops, exactly one fill/stroke
draw command for the current paint kind, and pop-state; the state-stack depth
after the call equals the depth before it. -/
theorem fill_stroke_command_sequence (c : Canvas) (path : Path) (transform : Transform)
    (winding : WindRule) (width : ℚ) (cap : LineCap) (join : LineJoin) (miterlimit : ℚ)
    (dash : DashData) (mode : BlendMode) (opacity : ℚ) (gradient : GradientHandle) :
    ((c.fill path transform winding mode opacity gradient).cl.commands
      = c.cl.commands
        ++ ([Command.pushState,
              Command.transformMult
                ⟨transform.m00, transform.m10, transform.m01, transform.m11, transform.m02,
                  transform.m12⟩ TransformOrder.Post]
        ++ (if c.latestPath = some path.addr then [] else path.geometry)
        ++ (match c.paintType with
            | PaintType.COLOR =>
              [Command.fillPathColor c.color ⟨PathType.Concave, winding, true⟩]
            | PaintType.LINEAR_GRADIENT =>
              [Command.createLinearGradient c.gradientParams.1 c.gradientParams.2.1
                  c.gradientParams.2.2.1 c.gradientParams.2.2.2 c.gradientColors
                  c.gradientStops (c.gradientStops.length % 65536),
                Command.fillPathGradient gradient ⟨PathType.Concave, winding, true⟩]
            | PaintType.RADIAL_GRADIENT =>
              [Command.createRadialGradient c.gradientParams.1 c.gradientParams.2.1
                  c.gradientParams.2.2.1 c.gradientParams.2.2.2 c.gradientColors
                  c.gradientStops (c.gradientStops.length % 65536),
                Command.fillPathGradient gradient ⟨PathType.Concave, winding, true⟩])
        ++ [Command.popState]) ∧
     ((issued c (c.fill path transform winding mode opacity gradient)).filter
        Command.isDraw).length = 1 ∧
     stackDepth (c.fill path transform winding mode opacity gradient).cl.commands
        = stackDepth c.cl.commands) ∧
    ((c.stroke path transform width cap join miterlimit dash mode opacity gradient).cl.commands
      = c.cl.commands
        ++ ([Command.pushState,
              Command.transformMult
                ⟨transform.m00, transform.m10, transform.m01, transform.m11, transform.m02,
                  transform.m12⟩ TransformOrder.Post]
        ++ (if c.latestPath = some path.addr then [] else path.geometry)
        ++ (match c.paintType with
            | PaintType.COLOR =>
              [Command.strokePathColor c.color width ⟨cap, join, true⟩]
            | PaintType.LINEAR_GRADIENT =>
              [Command.createLinearGradient c.gradientParams.1 c.gradientParams.2.1
                  c.gradientParams.2.2.1 c.gradientParams.2.2.2 c.gradientColors
                  c.gradientStops (c.gradientStops.length % 65536),
                Command.strokePathGradient gradient width ⟨cap, join, true⟩]
            | PaintType.RADIAL_GRADIENT =>
              [Command.createRadialGradient c.gradientParams.1 c.gradientParams.2.1
                  c.gradientParams.2.2.1 c.gradientParams.2.2.2 c.gradientColors
                  c.gradientStops (c.gradientStops.length % 65536),
                Command.strokePathGradient gradient width ⟨cap, join, true⟩])
        ++ [Command.popState]) ∧
     ((issued c (c.stroke path transform width cap join miterlimit dash mode opacity
        gradient)).filter Command.isDraw).length = 1 ∧
     stackDepth
        (c.stroke path transform width cap join miterlimit dash mode opacity
          gradient).cl.commands
        = stackDepth c.cl.commands) :=
  ⟨⟨fill_commands c path transform winding mode opacity gradient,
      fill_draw_length c path transform winding mode opacity gradient,
      fill_stackDepth c path transform winding mode opacity gradient⟩,
    ⟨stroke_commands c path transform width cap join miterlimit dash mode opacity gradient,
      stroke_draw_length c path transform width cap join miterlimit dash mode opacity gradient,
      stroke_stackDepth c path transform width cap join miterlimit dash mode opacity gradient⟩⟩

/-! ## Theorems: what `Bitmap::clear` leaves alone -/

theorem clear_data_outside (bm : Bitmap) (color : Nat) (q : Int)
    (hq : ∀ j : Nat, j < bm.height →
      q < ((j * bm.stride : Nat) : Int) ∨
        ((j * bm.stride : Nat) : Int) + ((4 * bm.width : Nat) : Int) ≤ q) :
    (bm.clear color).data q = bm.data q := by
  cases bm with
  | mk m_impl =>
    cases m_impl with
    | none => rfl
    | some impl =>
      have hrow : ∀ pb pg pr a : Nat, LocalOn ((impl.width : Int) * 4)
          (fun p m => loopAt 4 (Bitmap.clearPixel pb pg pr a) impl.width p m) :=
        fun pb pg pr a => loopAt_local (clearPixel_local pb pg pr a) (by norm_num) (le_refl 4)
          impl.width
      simp only [Bitmap.clear, Bitmap.withData, Bitmap.data, Bitmap.width, Bitmap.height,
        Bitmap.stride, clearRows_eq_loopAt]
      apply loopAt_outside (hrow _ _ _ _)
      intro k hk
      have h := hq k hk
      simp only [Bitmap.stride, Bitmap.width] at h
      push_cast at h
      omega

/-- C22: `Bitmap::clear` changes only bytes at offsets `y * S + k` with `y < H`
and `k < 4 * W`; every padding byte, at an offset `y * S + k` with
`4 * W ≤ k < S`, keeps its value, and width, height and stride stay the same. -/
theorem clear_writes_pixel_bytes_only (bm : Bitmap) (color : Nat) :
    (∀ q : Int,
      (¬ ∃ y2 k2 : Nat, y2 < bm.height ∧ k2 < 4 * bm.width ∧
          q = ((y2 * bm.stride + k2 : Nat) : Int)) →
      (bm.clear color).byteAt q = bm.byteAt q) ∧
    (∀ y k : Nat, 4 * bm.width ≤ k → k < bm.stride →
      (bm.clear color).byteAt ((y * bm.stride + k : Nat) : Int)
        = bm.byteAt ((y * bm.stride + k : Nat) : Int)) ∧
    (bm.clear color).width = bm.width ∧
    (bm.clear color).height = bm.height ∧
    (bm.clear color).stride = bm.stride := by
  refine ⟨?_, ?_, (width_withData bm _).1, (width_withData bm _).2.1,
    (width_withData bm _).2.2⟩
  · intro q hq
    simp only [Bitmap.byteAt]
    rw [clear_data_outside bm color q]
    intro j hj
    by_contra hcon
    have h1 : ((j * bm.stride : Nat) : Int) ≤ q := by omega
    have h2 : q < ((j * bm.stride : Nat) : Int) + ((4 * bm.width : Nat) : Int) := by omega
    obtain ⟨k2, hk2eq⟩ := Int.eq_ofNat_of_zero_le (sub_nonneg.mpr h1)
    apply hq
    refine ⟨j, k2, hj, ?_, ?_⟩
    · have : (k2 : Int) < ((4 * bm.width : Nat) : Int) := by omega
      exact_mod_cast this
    · push_cast
      push_cast at hk2eq
      omega
  · intro y k hk1 hk2
    simp only [Bitmap.byteAt]
    rw [clear_data_outside bm color _]
    intro j hj
    rcases Nat.lt_or_ge y j with hlt | hge
    · left
      have h1 : (y + 1) * bm.stride ≤ j * bm.stride := Nat.mul_le_mul_right _ hlt
      have h2 : (y + 1) * bm.stride = y * bm.stride + bm.stride := by ring
      have h3 : y * bm.stride + k < j * bm.stride := by omega
      exact_mod_cast h3
    · right
      have h1 : j * bm.stride ≤ y * bm.stride := Nat.mul_le_mul_right _ hge
      have h3 : j * bm.stride + 4 * bm.width ≤ y * bm.stride + k := by omega
      exact_mod_cast h3

/-- Witness for C22: a 2 x 2 bitmap with stride 12; the byte at offset
`1 * 12 + 9` is padding. -/
theorem clear_writes_pixel_bytes_only_witness :
    4 * (Bitmap.mk (some ⟨fun _ => 7, 2, 2, 12⟩)).width ≤ 9 ∧
    9 < (Bitmap.mk (some ⟨fun _ => 7, 2, 2, 12⟩)).stride ∧
    ((Bitmap.mk (some ⟨fun _ => 7, 2, 2, 12⟩)).clear 0xFF000080).byteAt
        ((1 * (Bitmap.mk (some ⟨fun _ => 7, 2, 2, 12⟩)).stride + 9 : Nat) : Int)
      = (Bitmap.mk (some ⟨fun _ => 7, 2, 2, 12⟩)).byteAt
        ((1 * (Bitmap.mk (some ⟨fun _ => 7, 2, 2, 12⟩)).stride + 9 : Nat) : Int) :=
  ⟨by decide, by decide,
    (clear_writes_pixel_bytes_only (Bitmap.mk (some ⟨fun _ => 7, 2, 2, 12⟩)) 0xFF000080).2.1
      1 9 (by decide) (by decide)⟩

/-! ## Theorems: wrap-around of the unpremultiplied byte -/

theorem quotient_fits_iff (c a : Nat) (hc : c < 256) (ha : a < 256) (ha0 : a ≠ 0) :
    (c * 255 / a % 256 = c * 255 / a ↔ c ≤ a) := by
  have hapos : 0 < a := Nat.pos_of_ne_zero ha0
  constructor
  · intro h
    have hlt : c * 255 / a < 256 := by
      rw [← h]
      exact Nat.mod_lt _ (by decide)
    have h2 : c * 255 < 256 * a := (Nat.div_lt_iff_lt_mul hapos).mp hlt
    omega
  · intro h
    have hq : c * 255 / a ≤ 255 := Nat.div_le_of_le_mul (Nat.mul_le_mul_right 255 h)
    exact Nat.mod_eq_of_lt (by omega)

theorem convertPixel_true_bytes {ri gi bi ai : Int}
    (hperm : List.Perm [ri, gi, bi, ai] [0, 1, 2, 3]) (data : Int) (mem : Mem)
    (hA : (mem (data + 3)).val ≠ 0) (k : Int) (dst : Int)
    (hk : (k = 2 ∧ dst = ri) ∨ (k = 1 ∧ dst = gi) ∨ (k = 0 ∧ dst = bi)) :
    (convertPixelFn ri gi bi ai true data mem (data + dst)).val
      = (mem (data + k)).val * 255 / (mem (data + 3)).val % 256 := by
  obtain ⟨_, _, _, _, h1, h2, h3, h4, h5, h6⟩ := perm_offsets hperm
  obtain ⟨e1, e2, e3, _⟩ := convertPixelFn_bytes h1 h2 h3 h4 h5 h6 true data mem
  have hpos : 0 < (mem (data + 3)).val := Nat.pos_of_ne_zero hA
  rcases hk with ⟨rfl, rfl⟩ | ⟨rfl, rfl⟩ | ⟨rfl, rfl⟩
  · rw [e1, unpremul_true_val _ _ hpos]
  · rw [e2, unpremul_true_val _ _ hpos]
  · rw [e3, unpremul_true_val _ _ hpos]

/-- C23: in `Bitmap::convert` with `unpremultiply = true`, for a pixel with
alpha `a` different from 0 the byte stored for a channel `c` is
`(c * 255 / a) mod 256`, and it is the quotient `c * 255 / a` itself exactly
when `c ≤ a`; the pixels that `Bitmap::clear` writes have every channel at most
alpha, so they never wrap, while `c = 200`, `a = 100` stores 254 and not 510. -/
theorem convert_stored_byte_wraps_iff (ri gi bi ai : Int)
    (hperm : List.Perm [ri, gi, bi, ai] [0, 1, 2, 3]) (data : Int) (mem : Mem)
    (hA : (mem (data + 3)).val ≠ 0) :
    (∃ mem2, Bitmap.convertPixel ri gi bi ai true data mem = some mem2 ∧
      ((mem2 (data + ri)).val = (mem (data + 2)).val * 255 / (mem (data + 3)).val % 256 ∧
        ((mem2 (data + ri)).val = (mem (data + 2)).val * 255 / (mem (data + 3)).val
          ↔ (mem (data + 2)).val ≤ (mem (data + 3)).val)) ∧
      ((mem2 (data + gi)).val = (mem (data + 1)).val * 255 / (mem (data + 3)).val % 256 ∧
        ((mem2 (data + gi)).val = (mem (data + 1)).val * 255 / (mem (data + 3)).val
          ↔ (mem (data + 1)).val ≤ (mem (data + 3)).val)) ∧
      ((mem2 (data + bi)).val = (mem (data + 0)).val * 255 / (mem (data + 3)).val % 256 ∧
        ((mem2 (data + bi)).val = (mem (data + 0)).val * 255 / (mem (data + 3)).val
          ↔ (mem (data + 0)).val ≤ (mem (data + 3)).val))) ∧
    (∀ (bm : Bitmap) (R G B A x y : Nat), R < 256 → G < 256 → B < 256 → A < 256 →
      4 * bm.width ≤ bm.stride → x < bm.width → y < bm.height →
      (bm.clear (R * 2 ^ 24 + G * 2 ^ 16 + B * 2 ^ 8 + A)).byteAt
          (((y * bm.stride + 4 * x : Nat) : Int) + 0)
        ≤ (bm.clear (R * 2 ^ 24 + G * 2 ^ 16 + B * 2 ^ 8 + A)).byteAt
          (((y * bm.stride + 4 * x : Nat) : Int) + 3) ∧
      (bm.clear (R * 2 ^ 24 + G * 2 ^ 16 + B * 2 ^ 8 + A)).byteAt
          (((y * bm.stride + 4 * x : Nat) : Int) + 1)
        ≤ (bm.clear (R * 2 ^ 24 + G * 2 ^ 16 + B * 2 ^ 8 + A)).byteAt
          (((y * bm.stride + 4 * x : Nat) : Int) + 3) ∧
      (bm.clear (R * 2 ^ 24 + G * 2 ^ 16 + B * 2 ^ 8 + A)).byteAt
          (((y * bm.stride + 4 * x : Nat) : Int) + 2)
        ≤ (bm.clear (R * 2 ^ 24 + G * 2 ^ 16 + B * 2 ^ 8 + A)).byteAt
          (((y * bm.stride + 4 * x : Nat) : Int) + 3)) ∧
    (∃ bm2, (onePixel 200 100 50 100).convert 2 1 0 3 true = some bm2 ∧
      (onePixel 200 100 50 100).byteAt 0 = 200 ∧ (onePixel 200 100 50 100).byteAt 3 = 100 ∧
      bm2.byteAt 0 = 254 ∧
      (onePixel 200 100 50 100).byteAt 0 * 255 / (onePixel 200 100 50 100).byteAt 3 = 510) := by
  have hlt : ∀ q : Int, (mem q).val < 256 := fun q => Fin.isLt _
  refine ⟨⟨_, convertPixel_eq ri gi bi ai true data mem, ⟨?_, ?_⟩, ⟨?_, ?_⟩, ⟨?_, ?_⟩⟩, ?_, ?_⟩
  · exact convertPixel_true_bytes hperm data mem hA 2 ri (Or.inl ⟨rfl, rfl⟩)
  · rw [convertPixel_true_bytes hperm data mem hA 2 ri (Or.inl ⟨rfl, rfl⟩)]
    exact quotient_fits_iff _ _ (hlt _) (hlt _) hA
  · exact convertPixel_true_bytes hperm data mem hA 1 gi (Or.inr (Or.inl ⟨rfl, rfl⟩))
  · rw [convertPixel_true_bytes hperm data mem hA 1 gi (Or.inr (Or.inl ⟨rfl, rfl⟩))]
    exact quotient_fits_iff _ _ (hlt _) (hlt _) hA
  · exact convertPixel_true_bytes hperm data mem hA 0 bi (Or.inr (Or.inr ⟨rfl, rfl⟩))
  · rw [convertPixel_true_bytes hperm data mem hA 0 bi (Or.inr (Or.inr ⟨rfl, rfl⟩))]
    exact quotient_fits_iff _ _ (hlt _) (hlt _) hA
  · intro bm R G B A x y hR hG hB hA2 hS hx hy
    obtain ⟨e0, e1, e2, e3⟩ := clear_pixel_quad bm R G B A hR hG hB hA2 hS x y hx hy
    rw [e0, e1, e2, e3]
    refine ⟨?_, ?_, ?_⟩
    · exact Nat.div_le_of_le_mul (Nat.mul_le_mul_right A (by omega))
    · exact Nat.div_le_of_le_mul (Nat.mul_le_mul_right A (by omega))
    · exact Nat.div_le_of_le_mul (Nat.mul_le_mul_right A (by omega))
  · refine ⟨_, convert_eq _ 2 1 0 3 true, ?_, ?_, ?_, ?_⟩ <;> decide

/-- Witness for C23: the pixel `(200, 100, 50, 100)` at address 0, converted in
place. -/
theorem convert_stored_byte_wraps_iff_witness :
    List.Perm [(2 : Int), 1, 0, 3] [0, 1, 2, 3] ∧
    ((onePixel 200 100 50 100).data (0 + 3)).val ≠ 0 ∧
    ∃ mem2, Bitmap.convertPixel 2 1 0 3 true 0 (onePixel 200 100 50 100).data = some mem2 ∧
      (mem2 (0 + 0)).val
        = ((onePixel 200 100 50 100).data (0 + 0)).val * 255
            / ((onePixel 200 100 50 100).data (0 + 3)).val % 256 :=
  ⟨by decide, by decide,
    (convert_stored_byte_wraps_iff 2 1 0 3 (by decide) 0 (onePixel 200 100 50 100).data
      (by decide)).1.imp (fun _ hh => ⟨hh.1, hh.2.2.2.1⟩)⟩

end lunasvg
